import Mathlib

/-!
TunnelLink: header codec, connection tracker, stream server and client, URL validation

A shallow embedding of `connection/header.go`, `tunnelstate/conntracker.go`,
`tunnelrpc/quic/tunnellink_server.go`, `tunnelrpc/quic/tunnellink_client.go`,
`tunnelrpc/pogs/tunnellink_server.go` and `validation/validation.go`, together with the
parts of Go's `encoding/base64`, `strings`, `context`, `net`, `net/url` and
`golang.org/x/net/idna` packages that they call. Go strings are byte sequences, modelled
as `List Byte`; a call that panics returns `Except.error`.
-/

set_option maxRecDepth 100000

namespace TunnelLink

/-! ## Definitions -/

/-- One Go `byte`. -/
abbrev Byte := Fin 256

/-- The bytes of a string literal (ASCII literals only are used below). -/
def bytes (s : String) : List Byte := s.data.map (fun c => Fin.ofNat c.toNat)

/-! ### Package `strings` -/

/-- Go `strings.Split(s, sep)` for a separator of one byte: the pieces of `s` between
consecutive occurrences of `sep`; a string without `sep` (the empty one included) gives
the one-element slice holding the string itself. -/
def Split (sep : Byte) : List Byte → List (List Byte)
  | [] => [[]]
  | c :: cs =>
    if c = sep then [] :: Split sep cs
    else
      match Split sep cs with
      | [] => [[c]]
      | seg :: segs => (c :: seg) :: segs

/-! ### Package `encoding/base64`, the encoding `RawStdEncoding` -/

/-- The standard alphabet, `encodeStd` in `encoding/base64`. -/
def encodeStd : List Byte :=
  bytes "ABCDEFGHIJKLMNOPQRSTUVWXYZabcdefghijklmnopqrstuvwxyz0123456789+/"

/-- The table lookup `enc.encode[i]`. -/
def encodeChar (i : Nat) : Byte := encodeStd.getD i 0

/-- The table `enc.decodeMap`: 0xFF everywhere except `decodeMap[encodeStd[i]] = i`. -/
def decodeMap (c : Byte) : Nat :=
  if c ∈ encodeStd then encodeStd.indexOf c else 0xFF

/-- `EncodedLen(n)` of an encoding without padding. -/
def EncodedLen (n : Nat) : Nat := n / 3 * 4 + (n % 3 * 8 + 5) / 6

/-- `DecodedLen(n)` of an encoding without padding. -/
def DecodedLen (n : Nat) : Nat := n / 4 * 3 + n % 4 * 6 / 8

/-- `Encoding.Encode` with `padChar = NoPadding`: whole groups of three bytes give four
characters, a remainder of two bytes gives three characters and a remainder of one byte
gives two. The result is the content written to `dst`. -/
def Encode : List Byte → List Byte
  | [] => []
  | [b0] =>
    let val := b0.val <<< 16
    [encodeChar (val >>> 18 &&& 0x3F), encodeChar (val >>> 12 &&& 0x3F)]
  | [b0, b1] =>
    let val := b0.val <<< 16 ||| b1.val <<< 8
    [encodeChar (val >>> 18 &&& 0x3F), encodeChar (val >>> 12 &&& 0x3F),
      encodeChar (val >>> 6 &&& 0x3F)]
  | b0 :: b1 :: b2 :: rest =>
    let val := b0.val <<< 16 ||| b1.val <<< 8 ||| b2.val
    encodeChar (val >>> 18 &&& 0x3F) :: encodeChar (val >>> 12 &&& 0x3F) ::
      encodeChar (val >>> 6 &&& 0x3F) :: encodeChar (val &&& 0x3F) :: Encode rest

/-- The tail of `decodeQuantum`: the sextets collected in `dbuf` (`dlen` of them) are
packed into `val` and the first `dlen - 1` of its three bytes are written. -/
def quantumBytes (dbuf : List Nat) : List Byte :=
  let val := dbuf.getD 0 0 <<< 18 ||| dbuf.getD 1 0 <<< 12 ||| dbuf.getD 2 0 <<< 6 |||
    dbuf.getD 3 0
  ([Fin.ofNat (val >>> 16), Fin.ofNat (val >>> 8), Fin.ofNat (val >>> 0)] : List Byte).take
    (dbuf.length - 1)

/-- The loops of `Encoding.Decode` and `decodeQuantum` with `padChar = NoPadding` and
`strict = false`, as one recursion over the source: `dbuf` holds the sextets of the
quantum being read. A byte of the alphabet is stored; `'\n'` and `'\r'` are skipped;
any other byte is a `CorruptInputError` (`none`); when the source ends, an empty quantum
ends the decoding, a quantum of one sextet is a `CorruptInputError`, and a quantum of two
or three sextets is written as one or two bytes. The result is the bytes written. -/
def decodeLoop : List Byte → List Nat → Option (List Byte)
  | [], dbuf =>
    if dbuf.length = 0 then some []
    else if dbuf.length = 1 then none
    else some (quantumBytes dbuf)
  | c :: cs, dbuf =>
    let out := decodeMap c
    if out ≠ 0xFF then
      if dbuf.length + 1 = 4 then (decodeLoop cs []).map (quantumBytes (dbuf ++ [out]) ++ ·)
      else decodeLoop cs (dbuf ++ [out])
    else if c = 10 ∨ c = 13 then decodeLoop cs dbuf
    else none

/-- `Encoding.Decode(dst, src)`: on success the written bytes replace the start of `dst`,
and the rest of `dst` is left as it was; `none` stands for a `CorruptInputError`. -/
def Decode (dst src : List Byte) : Option (List Byte) :=
  (decodeLoop src []).map (fun w => w ++ dst.drop w.length)

/-! ### `connection/header.go` -/

/-- The struct `HTTPHeader`. -/
structure HTTPHeader where
  Name : List Byte
  Value : List Byte
  deriving DecidableEq, Repr

/-- An `http.Header` (`map[string][]string`) listed in the order in which `range`
visits its keys: each entry is a header name with the slice of its values. -/
abbrev Header := List (List Byte × List (List Byte))

/-- The (name, value) occurrences of a header map, entry by entry, the values of an
entry in slice order. -/
def occurrences (h : Header) : List HTTPHeader :=
  h.flatMap (fun e => e.2.map (fun v => HTTPHeader.mk e.1 v))

/-- The body of the inner loop of `SerializeHeaders`: a `';'` when the builder is not
empty, then `writeB64(headerName)`, `':'` and `writeB64(headerValue)`. `writeB64`
appends the `EncodedLen(len(s))` bytes that `Encode` writes into `temp`. -/
def writePair (buf headerName headerValue : List Byte) : List Byte :=
  let buf := if buf.length > 0 then buf ++ [59] else buf
  let buf := buf ++ Encode headerName
  let buf := buf ++ [58]
  buf ++ Encode headerValue

/-- The function `SerializeHeaders`. The first pair of loops only sizes the builder and
the scratch buffer (`buf.Grow`, `temp`) and has no effect on the bytes produced; the
second pair of loops writes the pairs. -/
def SerializeHeaders (h1Headers : Header) : List Byte :=
  h1Headers.foldl
    (fun buf e => e.2.foldl (fun buf headerValue => writePair buf e.1 headerValue) buf) []

/-- The errors `DeserializeHeaders` returns: `errors.New(unableToDeserializeErr)` for a
segment that does not split into two parts, and `errors.Wrap(err, unableToDeserializeErr)`
for a `CorruptInputError` of the decoder (its offset is not kept). -/
inductive HeaderError
  | unableToDeserialize
  | corruptInput
  deriving DecidableEq, Repr

/-- The loop of `DeserializeHeaders` over the `';'`-separated segments; `deserialized`
is the slice built so far. The pair returned is Go's `([]HTTPHeader, error)`, with the
nil slice as `[]` and the nil error as `none`. -/
def deserializeLoop :
    List (List Byte) → List HTTPHeader → List HTTPHeader × Option HeaderError
  | [], deserialized => (deserialized, none)
  | serializedPair :: rest, deserialized =>
    if serializedPair.length = 0 then deserializeLoop rest deserialized
    else
      let serializedHeaderParts := Split 58 serializedPair
      if serializedHeaderParts.length ≠ 2 then ([], some HeaderError.unableToDeserialize)
      else
        let serializedName := serializedHeaderParts.getD 0 []
        let serializedValue := serializedHeaderParts.getD 1 []
        let deserializedName : List Byte :=
          List.replicate (DecodedLen serializedName.length) 0
        let deserializedValue : List Byte :=
          List.replicate (DecodedLen serializedValue.length) 0
        match Decode deserializedName serializedName with
        | none => ([], some HeaderError.corruptInput)
        | some deserializedName =>
          match Decode deserializedValue serializedValue with
          | none => ([], some HeaderError.corruptInput)
          | some deserializedValue =>
            deserializeLoop rest
              (deserialized ++ [HTTPHeader.mk deserializedName deserializedValue])

/-- The function `DeserializeHeaders`. -/
def DeserializeHeaders (serializedHeaders : List Byte) :
    List HTTPHeader × Option HeaderError :=
  deserializeLoop (Split 59 serializedHeaders) []

/-- Go `strings.Join(elems, sep)`. -/
def Join (sep : List Byte) : List (List Byte) → List Byte
  | [] => []
  | [a] => a
  | a :: b :: rest => a ++ sep ++ Join sep (b :: rest)

/-- The text of one serialized pair: `b64(name) + ":" + b64(value)`. -/
def pairString (p : HTTPHeader) : List Byte := Encode p.Name ++ [58] ++ Encode p.Value

/-- A segment that the loop of `DeserializeHeaders` accepts: it splits at `':'` into two
parts and the decoder accepts both. -/
def segmentOk (seg : List Byte) : Prop :=
  (Split 58 seg).length = 2 ∧ decodeLoop ((Split 58 seg).getD 0 []) [] ≠ none ∧
    decodeLoop ((Split 58 seg).getD 1 []) [] ≠ none

instance instDecidableSegmentOk (seg : List Byte) : Decidable (segmentOk seg) := by
  unfold segmentOk
  exact inferInstance

/-- ASCII white space, the bytes that `strings.TrimSpace` removes from an ASCII string:
tab, line feed, vertical tab, form feed, carriage return and space. -/
def isSpace (c : Byte) : Bool :=
  decide (c = 9 ∨ c = 10 ∨ c = 11 ∨ c = 12 ∨ c = 13 ∨ c = 32)

/-! ### `tunnelstate/conntracker.go` -/

/-- Modelled from the spec: the enumeration `connection.Protocol`, declared outside src/,
as its integer code; the zero value is 0. -/
abbrev Protocol := Nat

/-- Modelled from the spec: the event types of package `connection`, declared outside
src/: the five types the table of section 4.4 names, and any other value. -/
inductive Status
  | Disconnected
  | Connected
  | Reconnecting
  | RegisteringTunnel
  | Unregistering
  | Other (code : Nat)
  deriving DecidableEq, Repr

/-- Modelled from the spec: the struct `connection.Event`, declared outside src/, with the
fields `conntracker.go` reads. -/
structure Event where
  Index : Fin 256
  EventType : Status
  Protocol : Protocol
  deriving DecidableEq, Repr

/-- The struct `ConnectionInfo`. -/
structure ConnectionInfo where
  IsConnected : Bool
  Protocol : Protocol
  deriving DecidableEq, Repr

/-- A panic of the Go runtime. -/
inductive Panic
  | nilPointerDereference
  deriving DecidableEq, Repr

/-- A `zerolog.Logger` as the tracker uses it: the events handed to it at error level by
`Error().Msgf("Unknown connection event case %v", c)`, oldest first. -/
abbrev Logger := List Event

/-- The struct `ConnTracker`: the map `connectionInfo` from connection index (`uint8`) to
`ConnectionInfo`, as a finite partial function, and the pointer `log`, `none` for nil. The
mutex holds no state of the tracker. -/
structure ConnTracker where
  connectionInfo : Fin 256 → Option ConnectionInfo
  log : Option Logger

/-- The function `NewConnTracker`: the empty map and the logger handed in. -/
def NewConnTracker (log : Option Logger) : ConnTracker := ⟨fun _ => none, log⟩

/-- The Go index expression `ct.connectionInfo[i]`: the entry, or the zero value of
`ConnectionInfo` when the map has none. -/
def ConnTracker.lookup (ct : ConnTracker) (i : Fin 256) : ConnectionInfo :=
  (ct.connectionInfo i).getD ⟨false, 0⟩

/-- The Go assignment `ct.connectionInfo[i] = ci`. -/
def ConnTracker.store (ct : ConnTracker) (i : Fin 256) (ci : ConnectionInfo) : ConnTracker :=
  { ct with connectionInfo := fun j => if j = i then some ci else ct.connectionInfo j }

/-- The method `OnTunnelEvent`: the tracker after the call, or the panic that ends it. In
the default case `ct.log.Error()` dereferences the pointer `ct.log`: with a nil pointer the
call panics, otherwise the event is handed to the logger. -/
def ConnTracker.OnTunnelEvent (ct : ConnTracker) (c : Event) : Except Panic ConnTracker :=
  match c.EventType with
  | Status.Connected =>
    let ci : ConnectionInfo := ⟨true, c.Protocol⟩
    Except.ok (ct.store c.Index ci)
  | Status.Disconnected | Status.Reconnecting | Status.RegisteringTunnel
  | Status.Unregistering =>
    let ci := ct.lookup c.Index
    let ci := { ci with IsConnected := false }
    Except.ok (ct.store c.Index ci)
  | Status.Other _ =>
    match ct.log with
    | none => Except.error Panic.nilPointerDereference
    | some lines => Except.ok { ct with log := some (lines ++ [c]) }

/-- The events of a sequence handed to `OnTunnelEvent` one at a time, each on the tracker
the call before it left; a panic ends the sequence. -/
def ConnTracker.OnTunnelEvents (ct : ConnTracker) : List Event → Except Panic ConnTracker
  | [] => Except.ok ct
  | e :: es =>
    match ct.OnTunnelEvent e with
    | Except.ok ct1 => ct1.OnTunnelEvents es
    | Except.error p => Except.error p

/-- The method `CountActiveConns`: a scan of the map counting the entries with
`IsConnected` set. -/
def ConnTracker.CountActiveConns (ct : ConnTracker) : Nat :=
  (List.finRange 256).foldl
    (fun active i =>
      match ct.connectionInfo i with
      | some ci => if ci.IsConnected then active + 1 else active
      | none => active) 0

/-- The types `OnTunnelEvent` has a case for. -/
def Status.recognized : Status → Bool
  | Status.Other _ => false
  | _ => true

/-- The type of the most recent event of the sequence that carries index `i` and a
recognized type, if there is one. -/
def lastRecognized (i : Fin 256) (events : List Event) : Option Status :=
  events.foldl
    (fun last e => if e.Index = i ∧ e.EventType.recognized = true then some e.EventType else last)
    none

/-- The events of a sequence applied one at a time to a fresh tracker,
`NewConnTracker(log)`. -/
def runEvents (log : Option Logger) (events : List Event) : Except Panic ConnTracker :=
  (NewConnTracker log).OnTunnelEvents events

/-- Whether slot `i` has an entry with `IsConnected` set. -/
def ConnTracker.isConnectedAt (ct : ConnTracker) (i : Fin 256) : Bool :=
  match ct.connectionInfo i with
  | some ci => ci.IsConnected
  | none => false

/-- The method `HasConnectedWith`: a scan of the map that returns true at the first entry
whose `Protocol` is the one asked for, and false when there is none. -/
def ConnTracker.HasConnectedWith (ct : ConnTracker) (protocol : Protocol) : Bool :=
  (List.finRange 256).any
    (fun i =>
      match ct.connectionInfo i with
      | some ci => decide (ci.Protocol = protocol)
      | none => false)

/-- Whether the sequence holds a Connected event that carries protocol `p`. -/
def everConnectedWith (p : Protocol) (events : List Event) : Bool :=
  events.any (fun e => decide (e.EventType = Status.Connected ∧ e.Protocol = p))

/-! ### The readiness endpoint of package `metrics` -/

/-- Modelled from the spec: the readiness server of package `metrics`, whose source is
outside src/ (only `metrics/readiness_test.go` is present). It holds the connector
identifier and the tracker it reads. -/
structure ReadyServer where
  clientID : Nat
  tracker : ConnTracker

/-- Modelled from the spec: what the readiness endpoint reports, section 4.4 and section
6: the HTTP status, the number of active connections and the connector identifier. -/
structure ReadyResponse where
  Code : Nat
  ReadyConnections : Nat
  ConnectorID : Nat
  deriving DecidableEq, Repr

/-- Modelled from the spec: `metrics.NewReadyServer(clientID, tracker)`, as the test
calls it. -/
def NewReadyServer (clientID : Nat) (tracker : ConnTracker) : ReadyServer :=
  ⟨clientID, tracker⟩

/-- Modelled from the spec: `ReadyServer.OnTunnelEvent`, as the test calls it: the event
is handed to the tracker. -/
def ReadyServer.OnTunnelEvent (rs : ReadyServer) (c : Event) : Except Panic ReadyServer :=
  match rs.tracker.OnTunnelEvent c with
  | Except.ok tracker => Except.ok { rs with tracker := tracker }
  | Except.error p => Except.error p

/-- The events of a sequence handed to `ReadyServer.OnTunnelEvent` one at a time; a panic
ends the sequence. -/
def ReadyServer.OnTunnelEvents (rs : ReadyServer) : List Event → Except Panic ReadyServer
  | [] => Except.ok rs
  | e :: es =>
    match rs.OnTunnelEvent e with
    | Except.ok rs1 => rs1.OnTunnelEvents es
    | Except.error p => Except.error p

/-- Modelled from the spec: `ReadyServer.ServeHTTP`, the readiness predicate of section
4.4: ready if and only if `CountActiveConns() > 0`; the payload is the active count and
the connector identifier. Ready is HTTP 200 (`http.StatusOK`), as the test asserts; the
spec leaves the other status to the endpoint, 503 stands for it here. -/
def ReadyServer.ServeHTTP (rs : ReadyServer) : ReadyResponse :=
  let readyConnections := rs.tracker.CountActiveConns
  if readyConnections > 0 then ⟨200, readyConnections, rs.clientID⟩
  else ⟨503, readyConnections, rs.clientID⟩

/-- One step of `TestReadinessEventHandling` after the first: the event sent and what
`mockRequest` then returns, whether the status is 200 and the count of ready connections. -/
def readinessTestSteps : List (Event × Bool × Nat) :=
  [(⟨1, Status.Connected, 0⟩, true, 1),
   (⟨2, Status.Connected, 0⟩, true, 2),
   (⟨2, Status.Reconnecting, 0⟩, true, 1),
   (⟨1, Status.RegisteringTunnel, 0⟩, false, 0),
   (⟨1, Status.Connected, 0⟩, true, 1),
   (⟨1, Status.Unregistering, 0⟩, false, 0),
   (⟨1, Status.Disconnected, 0⟩, false, 0)]

/-- Runs the steps of the test on a server and checks each assertion; a panic fails the
test. -/
def runReadinessTest (rs : ReadyServer) : List (Event × Bool × Nat) → Bool
  | [] => true
  | (e, ok, n) :: rest =>
    match rs.OnTunnelEvent e with
    | Except.error _ => false
    | Except.ok rs =>
      let resp := rs.ServeHTTP
      decide ((resp.Code = 200) = (ok = true)) && decide (resp.ReadyConnections = n) &&
        runReadinessTest rs rest

/-! ### Package `tunnelrpc/quic`: errors, contexts and streams -/

/-- A Go `error` as package `quic` handles it: an error handed over by a collaborator (the
stream, a handler, the RPC client), told apart by a code, or one of the two errors built
with `fmt.Errorf` in `tunnellink_server.go` and `tunnellink_client.go`. -/
inductive Error
  | external (code : Nat)
  | unknownProtocol (signature : List Byte)
  | shortWrite (expected : Nat) (wrote : Int)
  deriving DecidableEq, Repr

/-- Modelled from the spec: the type `ProtocolSignature` of package `quic`, declared outside
src/: a fixed-length byte sequence. -/
abbrev ProtocolSignature := List Byte

/-- Modelled from the spec: the constants `dataStreamProtocolSignature` and
`rpcStreamProtocolSignature` of package `quic`, declared outside src/; their values are
parameters. -/
structure Signatures where
  dataStreamProtocolSignature : ProtocolSignature
  rpcStreamProtocolSignature : ProtocolSignature
  deriving DecidableEq, Repr

/-- A `context.Context` as far as the package observes it: its deadline, an instant in
nanoseconds, `none` when the context has no deadline. -/
structure Context where
  deadline : Option Int
  deriving DecidableEq, Repr

/-- Go `context.WithTimeout(parent, timeout)` called at the instant `now`, that is
`WithDeadline(parent, now.Add(timeout))`: when the parent has a deadline before the new
one the result is `WithCancel(parent)`, whose deadline is the parent's; otherwise the
result has the new deadline. -/
def WithTimeout (parent : Context) (now timeout : Int) : Context :=
  let d := now + timeout
  match parent.deadline with
  | some cur => if cur < d then parent else ⟨some d⟩
  | none => ⟨some d⟩

/-- An `io.ReadWriteCloser` seen from its reader: the bytes still to be read, and the
error `Read` reports once they run out. -/
structure ReadWriteCloser where
  unread : List Byte
  readError : Error
  deriving DecidableEq, Repr

/-- Modelled from the spec: the helper `determineProtocol` of package `quic`, outside
src/, as section 4.2 describes the classification read: exactly `len(signature)` bytes
are read from the stream; when the read fails before the signature is fully read the I/O
error is returned; otherwise the bytes read are returned as the signature. The second
component is the stream after the read. -/
def determineProtocol (sigs : Signatures) (stream : ReadWriteCloser) :
    Except Error ProtocolSignature × ReadWriteCloser :=
  let n := sigs.dataStreamProtocolSignature.length
  if n ≤ stream.unread.length then
    (Except.ok (stream.unread.take n), { stream with unread := stream.unread.drop n })
  else (Except.error stream.readError, { stream with unread := [] })

/-! ### `tunnelrpc/quic/tunnellink_server.go` -/

/-- The case of the `select` statement of `handleRPC` that proceeds. -/
inductive SelectCase
  | rpcConnDone
  | ctxDone
  deriving DecidableEq, Repr

/-- What `Serve` does with the stream, in order: the handler it invokes and the steps of
the RPC path. -/
inductive ServerStep
  | handleRequest (ctx : Context) (stream : ReadWriteCloser)
  | SafeTransport (stream : ReadWriteCloser)
  | NewServerConn
  | select (ctx : Context) (proceeds : SelectCase)
  | rpcConnClose (returned : Option Error)
  | transportClose (returned : Option Error)
  | cancel
  deriving DecidableEq, Repr

/-- The struct `TunnellinkServer`: the request handler and the response timeout. The
session and configuration managers are handed to the RPC connection and not read by
`Serve`. -/
structure TunnellinkServer where
  handleRequest : Context → ReadWriteCloser → Option Error
  responseTimeout : Int

/-- What the collaborators of `handleRPC` do during one call: the instant `time.Now()`
gives inside `WithTimeout`, the case of `select` that proceeds, and what the deferred
`Close` calls return. -/
structure RPCRun where
  now : Int
  proceeds : SelectCase
  rpcConnClose : Option Error
  transportClose : Option Error
  deriving DecidableEq, Repr

/-- The method `handleRPC`: a context with the response timeout, the transport and the
server connection on the stream, the `select` on `rpcConn.Done()` and `ctx.Done()`, then
`return nil`; the deferred calls run last registered first and what they return is
dropped. -/
def TunnellinkServer.handleRPC (s : TunnellinkServer) (run : RPCRun) (ctx : Context)
    (stream : ReadWriteCloser) : Option Error × List ServerStep :=
  let ctx := WithTimeout ctx run.now s.responseTimeout
  let steps := [ServerStep.SafeTransport stream, ServerStep.NewServerConn,
    ServerStep.select ctx run.proceeds]
  (none, steps ++ [ServerStep.rpcConnClose run.rpcConnClose,
    ServerStep.transportClose run.transportClose, ServerStep.cancel])

/-- The method `Serve`, with `determineProtocol` as a parameter: its result is the
signature or the error, and the stream after its read. -/
def TunnellinkServer.Serve (s : TunnellinkServer) (sigs : Signatures)
    (determineProtocol : ReadWriteCloser → Except Error ProtocolSignature × ReadWriteCloser)
    (run : RPCRun) (ctx : Context) (stream : ReadWriteCloser) :
    Option Error × List ServerStep :=
  match determineProtocol stream with
  | (Except.error err, _) => (some err, [])
  | (Except.ok signature, stream) =>
    if signature = sigs.dataStreamProtocolSignature then
      (s.handleRequest ctx stream, [ServerStep.handleRequest ctx stream])
    else if signature = sigs.rpcStreamProtocolSignature then
      s.handleRPC run ctx stream
    else (some (Error.unknownProtocol signature), [])

/-! ### `tunnelrpc/quic/tunnellink_client.go` -/

/-- The struct `TunnellinkClient`: the request timeout. The fields `client` and
`transport` are handles on the RPC connection; what the calls through them return is a
parameter of each method. -/
structure TunnellinkClient where
  requestTimeout : Int
  deriving DecidableEq, Repr

/-- What `NewTunnellinkClient` does with the stream and the connection, in order. -/
inductive ClientStep
  | Write (p : List Byte)
  | SafeTransport
  | NewClientConn
  | Bootstrap (ctx : Context)
  deriving DecidableEq, Repr

/-- The function `NewTunnellinkClient`. `write` is `stream.Write`: the byte count and the
error it reports for the bytes handed to it. The result is Go's `(*TunnellinkClient,
error)` with the steps taken. -/
def NewTunnellinkClient (sigs : Signatures) (write : List Byte → Int × Option Error)
    (ctx : Context) (requestTimeout : Int) :
    Option TunnellinkClient × Option Error × List ClientStep :=
  let (n, err) := write sigs.rpcStreamProtocolSignature
  let steps := [ClientStep.Write sigs.rpcStreamProtocolSignature]
  match err with
  | some e => (none, some e, steps)
  | none =>
    if n ≠ (sigs.rpcStreamProtocolSignature.length : Int) then
      (none, some (Error.shortWrite sigs.rpcStreamProtocolSignature.length n), steps)
    else
      (some ⟨requestTimeout⟩, none,
        steps ++ [ClientStep.SafeTransport, ClientStep.NewClientConn, ClientStep.Bootstrap ctx])

/-- Modelled from the spec: the label values of package `tunnelrpc/metrics`, declared
outside src/: the handler label `Tunnellink` and the three operation names; their values
are parameters. -/
structure MetricLabels where
  Tunnellink : List Byte
  OperationRegisterUdpSession : List Byte
  OperationUnregisterUdpSession : List Byte
  OperationUpdateConfiguration : List Byte
  deriving DecidableEq, Repr

/-- Modelled from the spec: the process-wide registry `metrics.CapnpMetrics` of package
`tunnelrpc/metrics`, declared outside src/, section 4.3: a call counter, a failure
counter and the latency observations of the client role, each keyed by the label values
(handler, operation). -/
structure CapnpMetrics where
  ClientOperations : List (List Byte) → Nat
  ClientFailures : List (List Byte) → Nat
  ClientLatency : List (List Byte) → List Int

/-- Modelled from the spec: `ClientOperations.WithLabelValues(labels...).Inc()`. -/
def CapnpMetrics.incClientOperations (m : CapnpMetrics) (labels : List (List Byte)) :
    CapnpMetrics :=
  { m with ClientOperations := fun l =>
      if l = labels then m.ClientOperations l + 1 else m.ClientOperations l }

/-- Modelled from the spec: `ClientFailures.WithLabelValues(labels...).Inc()`. -/
def CapnpMetrics.incClientFailures (m : CapnpMetrics) (labels : List (List Byte)) :
    CapnpMetrics :=
  { m with ClientFailures := fun l =>
      if l = labels then m.ClientFailures l + 1 else m.ClientFailures l }

/-- Modelled from the spec: `ObserveDuration()` on the timer that
`NewClientOperationLatencyObserver(labels...)` returned: one observation, of the time
elapsed since the timer was made. -/
def CapnpMetrics.observeClientLatency (m : CapnpMetrics) (labels : List (List Byte))
    (elapsed : Int) : CapnpMetrics :=
  { m with ClientLatency := fun l =>
      if l = labels then m.ClientLatency l ++ [elapsed] else m.ClientLatency l }

/-- The clock during one client call: the instant `time.Now()` gives inside
`WithTimeout`, and the duration the latency timer measures. -/
structure CallClock where
  now : Int
  elapsed : Int
  deriving DecidableEq, Repr

/-- The method `RegisterUdpSession`. `call` is `c.client.RegisterUdpSession`. The result is
the response with the error, and the registry after the call: the failure counter is
incremented before the return, then the deferred calls run last registered first,
`timer.ObserveDuration()`, the increment of `ClientOperations`, `cancel()`. -/
def TunnellinkClient.RegisterUdpSession {ρ : Type} (c : TunnellinkClient) (L : MetricLabels)
    (call : Context → Nat → List Byte → Nat → Int → List Byte → ρ × Option Error)
    (clock : CallClock) (m : CapnpMetrics) (ctx : Context) (sessionID : Nat)
    (dstIP : List Byte) (dstPort : Nat) (closeIdleAfterHint : Int) (traceContext : List Byte) :
    (ρ × Option Error) × CapnpMetrics :=
  let ctx := WithTimeout ctx clock.now c.requestTimeout
  let (resp, err) := call ctx sessionID dstIP dstPort closeIdleAfterHint traceContext
  let m :=
    if err ≠ none then m.incClientFailures [L.Tunnellink, L.OperationRegisterUdpSession]
    else m
  let m := m.observeClientLatency [L.Tunnellink, L.OperationRegisterUdpSession] clock.elapsed
  let m := m.incClientOperations [L.Tunnellink, L.OperationRegisterUdpSession]
  ((resp, err), m)

/-- The method `UnregisterUdpSession`. `call` is `c.client.UnregisterUdpSession`. -/
def TunnellinkClient.UnregisterUdpSession (c : TunnellinkClient) (L : MetricLabels)
    (call : Context → Nat → List Byte → Option Error)
    (clock : CallClock) (m : CapnpMetrics) (ctx : Context) (sessionID : Nat)
    (message : List Byte) : Option Error × CapnpMetrics :=
  let ctx := WithTimeout ctx clock.now c.requestTimeout
  let err := call ctx sessionID message
  let m :=
    if err ≠ none then m.incClientFailures [L.Tunnellink, L.OperationUnregisterUdpSession]
    else m
  let m := m.observeClientLatency [L.Tunnellink, L.OperationUnregisterUdpSession] clock.elapsed
  let m := m.incClientOperations [L.Tunnellink, L.OperationUnregisterUdpSession]
  (err, m)

/-- The method `UpdateConfiguration`. `call` is `c.client.UpdateConfiguration`. -/
def TunnellinkClient.UpdateConfiguration {ρ : Type} (c : TunnellinkClient) (L : MetricLabels)
    (call : Context → Int → List Byte → ρ × Option Error)
    (clock : CallClock) (m : CapnpMetrics) (ctx : Context) (version : Int)
    (config : List Byte) : (ρ × Option Error) × CapnpMetrics :=
  let ctx := WithTimeout ctx clock.now c.requestTimeout
  let (resp, err) := call ctx version config
  let m :=
    if err ≠ none then m.incClientFailures [L.Tunnellink, L.OperationUpdateConfiguration]
    else m
  let m := m.observeClientLatency [L.Tunnellink, L.OperationUpdateConfiguration] clock.elapsed
  let m := m.incClientOperations [L.Tunnellink, L.OperationUpdateConfiguration]
  ((resp, err), m)

/-- The earlier of the caller's deadline and the instant `t`, an absent deadline counting
as unbounded. -/
def minDeadline (callerDeadline : Option Int) (t : Int) : Int :=
  match callerDeadline with
  | none => t
  | some d => min d t

/-- The registry `after` is the registry `before` with one attempt of the operation with
the given label values recorded, as section 4.3 states it: one call counted, one latency
observation added, one failure counted exactly when the call returned an error, and
nothing else changed. -/
def AttemptRecorded (before after : CapnpMetrics) (labels : List (List Byte)) (failed : Bool)
    (elapsed : Int) : Prop :=
  after.ClientOperations labels = before.ClientOperations labels + 1 ∧
    after.ClientLatency labels = before.ClientLatency labels ++ [elapsed] ∧
    after.ClientFailures labels = before.ClientFailures labels + (if failed then 1 else 0) ∧
    ∀ l : List (List Byte), l ≠ labels →
      after.ClientOperations l = before.ClientOperations l ∧
        after.ClientFailures l = before.ClientFailures l ∧
        after.ClientLatency l = before.ClientLatency l

/-- The counters and observations of the operations named in `others`, under the handler
label, are the same in both registries. -/
def OthersUnchanged (before after : CapnpMetrics) (handler : List Byte)
    (others : List (List Byte)) : Prop :=
  ∀ o ∈ others,
    after.ClientOperations [handler, o] = before.ClientOperations [handler, o] ∧
      after.ClientFailures [handler, o] = before.ClientFailures [handler, o] ∧
      after.ClientLatency [handler, o] = before.ClientLatency [handler, o]

/-- The label values `register_udp_session`, `unregister_udp_session` and
`update_configuration` under the handler label `tunnellink`, for evaluating the client
operations on concrete inputs. -/
def exampleLabels : MetricLabels :=
  ⟨bytes "tunnellink", bytes "register_udp_session", bytes "unregister_udp_session",
    bytes "update_configuration"⟩

/-- A registry with every counter at zero and no observation. -/
def emptyMetrics : CapnpMetrics := ⟨fun _ => 0, fun _ => 0, fun _ => []⟩

/-- Two six-byte signatures for evaluating `Serve` on concrete streams. -/
def exampleSignatures : Signatures :=
  ⟨[10, 54, 205, 18, 161, 62], [82, 187, 130, 92, 219, 101]⟩

/-- A server whose request handler fails with code 3 on a non-empty stream. -/
def exampleServer : TunnellinkServer :=
  ⟨fun _ st => if st.unread = [] then none else some (Error.external 3), 10⟩

/-! ### `connection/header.go`: the header predicates -/

/-- Go `strings.HasPrefix(s, prefix)`: `len(s) >= len(prefix) && s[:len(prefix)] == prefix`. -/
def HasPrefix (s pre : List Byte) : Bool :=
  decide (pre.length ≤ s.length) && decide (s.take pre.length = pre)

/-- The variable `RequestUserHeaders`. -/
def RequestUserHeaders : List Byte := bytes "cf-tunnellink-request-headers"

/-- The variable `ResponseUserHeaders`. -/
def ResponseUserHeaders : List Byte := bytes "cf-tunnellink-response-headers"

/-- The variable `ResponseMetaHeader`. -/
def ResponseMetaHeader : List Byte := bytes "cf-tunnellink-response-meta"

/-- The function `IsControlResponseHeader`. -/
def IsControlResponseHeader (headerName : List Byte) : Bool :=
  HasPrefix headerName (bytes ":") ||
    HasPrefix headerName (bytes "cf-int-") ||
    HasPrefix headerName (bytes "cf-tunnellink-")

/-- The function `IsWebsocketClientHeader`. -/
def IsWebsocketClientHeader (headerName : List Byte) : Bool :=
  decide (headerName = bytes "sec-websocket-accept") ||
    decide (headerName = bytes "connection") ||
    decide (headerName = bytes "upgrade")

/-! ### Closing the RPC client -/

/-- What the three `Close` calls under `TunnellinkClient.Close` return: the capability
client (`capnp.Client`), the connection (`rpc.Conn`) and the transport. -/
structure CloseRun where
  capabilityClose : Option Error
  connClose : Option Error
  transportClose : Option Error
  deriving DecidableEq, Repr

/-- A `Close` call made while closing the client, with what it returned. -/
inductive CloseStep
  | ClientClose (returned : Option Error)
  | ConnClose (returned : Option Error)
  | TransportClose (returned : Option Error)
  deriving DecidableEq, Repr

/-- The method `TunnellinkServer_PogsClient.Close` of `pogs/tunnellink_server.go`:
`c.Client.Close()`, whose result is not used, then `return c.Conn.Close()`. -/
def TunnellinkServer_PogsClient.Close (run : CloseRun) : Option Error × List CloseStep :=
  (run.connClose, [CloseStep.ClientClose run.capabilityClose, CloseStep.ConnClose run.connClose])

/-- The method `TunnellinkClient.Close`: `_ = c.client.Close()` and
`_ = c.transport.Close()`. The method has no result, which is the `Unit` here; the second
component is the `Close` calls made, in order. -/
def TunnellinkClient.Close (_c : TunnellinkClient) (run : CloseRun) : Unit × List CloseStep :=
  let (_, steps) := TunnellinkServer_PogsClient.Close run
  ((), steps ++ [CloseStep.TransportClose run.transportClose])

/-! ### Further notions for the tracker and the header codec -/

/-- The entry of its own slot after an event, from the entry before it: what
`OnTunnelEvent` stores at `c.Index`. -/
def slotAfter (old : Option ConnectionInfo) (c : Event) : Option ConnectionInfo :=
  match c.EventType with
  | Status.Connected => some ⟨true, c.Protocol⟩
  | Status.Disconnected | Status.Reconnecting | Status.RegisteringTunnel
  | Status.Unregistering => some { old.getD ⟨false, 0⟩ with IsConnected := false }
  | Status.Other _ => old

/-- The entry of slot `i` after the events of a sequence, from the entry before them: each
event with index `i` acts on the slot as `slotAfter` says, the others leave it. -/
def slotAfterAll (i : Fin 256) (events : List Event) (old : Option ConnectionInfo) :
    Option ConnectionInfo :=
  events.foldl (fun s e => if e.Index = i then slotAfter s e else s) old

/-- The entry `DeserializeHeaders` appends for one non-empty segment, `none` when the
segment makes it return an error: each half decoded into a buffer of
`DecodedLen(len(half))` zero bytes, the whole buffer being the name or the value. -/
def segmentEntry (seg : List Byte) : Option HTTPHeader :=
  if (Split 58 seg).length ≠ 2 then none
  else
    match Decode (List.replicate (DecodedLen ((Split 58 seg).getD 0 []).length) 0)
        ((Split 58 seg).getD 0 []) with
    | none => none
    | some name =>
      match Decode (List.replicate (DecodedLen ((Split 58 seg).getD 1 []).length) 0)
          ((Split 58 seg).getD 1 []) with
      | none => none
      | some value => some ⟨name, value⟩

/-! ### `validation/validation.go`: library functions -/

/-- Go `strings.HasSuffix(s, suffix)`. -/
def HasSuffix (s suf : List Byte) : Bool :=
  decide (suf.length ≤ s.length) && decide (s.drop (s.length - suf.length) = suf)

/-- Go `strings.Contains(s, substr)`: `substr` occurs in `s`. -/
def Contains : List Byte → List Byte → Bool
  | [], sub => decide (sub = [])
  | c :: cs, sub => HasPrefix (c :: cs) sub || Contains cs sub

/-- The index of the first byte `c` of `s`, `none` for Go's `-1`. -/
def IndexByte (s : List Byte) (c : Byte) : Option Nat :=
  if c ∈ s then some (s.indexOf c) else none

/-- The index of the last byte `c` of `s`, `none` for Go's `-1`. -/
def LastIndexByte : List Byte → Byte → Option Nat
  | [], _ => none
  | x :: xs, c =>
    match LastIndexByte xs c with
    | some i => some (i + 1)
    | none => if x = c then some 0 else none

/-- Go `net.SplitHostPort(hostport)`: the port starts after the last colon; a host in
brackets must end right before that colon; a host without brackets holds no colon; no
other bracket may occur. `none` stands for an `AddrError`, with which Go returns empty
host and port. -/
def SplitHostPort (hostport : List Byte) : Option (List Byte × List Byte) :=
  match LastIndexByte hostport 58 with
  | none => none
  | some i =>
    if hostport.head? = some 91 then
      match IndexByte hostport 93 with
      | none => none
      | some e =>
        if e + 1 = hostport.length then none
        else if e + 1 = i then
          if (91 : Byte) ∈ hostport.drop 1 then none
          else if (93 : Byte) ∈ hostport.drop (e + 1) then none
          else some ((hostport.take e).drop 1, hostport.drop (i + 1))
        else none
    else
      if (58 : Byte) ∈ hostport.take i then none
      else if (91 : Byte) ∈ hostport then none
      else if (93 : Byte) ∈ hostport then none
      else some (hostport.take i, hostport.drop (i + 1))

/-- Go `net.JoinHostPort(host, port)`: `"[host]:port"` when the host holds a colon,
`"host:port"` otherwise. -/
def JoinHostPort (host port : List Byte) : List Byte :=
  if (58 : Byte) ∈ host then [91] ++ host ++ [93, 58] ++ port else host ++ [58] ++ port

/-- A `*url.URL` as `validation.go` reads it: the fields `Scheme` and `Host`, and what the
methods `Hostname()`, `Port()` and `RequestURI()` return. -/
structure URL where
  Scheme : List Byte
  Host : List Byte
  Hostname : List Byte
  Port : List Byte
  RequestURI : List Byte
  deriving DecidableEq, Repr

/-- Go `(*url.URL).IsAbs`: the scheme is not empty. -/
def URL.IsAbs (u : URL) : Bool := decide (u.Scheme ≠ [])

/-- The functions of `net`, `net/url` and `golang.org/x/net/idna` that `validation.go`
calls and that are parameters here: whether `net.ParseIP(s)` is not nil, and the results
of `url.PathUnescape`, `url.Parse` and `idna.ToASCII`, `none` standing for an error. The
functions of Go themselves are embedded further down and collected in `goUrlLibrary`. -/
structure UrlLibrary where
  ParseIP : List Byte → Bool
  PathUnescape : List Byte → Option (List Byte)
  Parse : List Byte → Option URL
  ToASCII : List Byte → Option (List Byte)

/-! ### `validation/validation.go` -/

/-- The errors of `validation.go`: one constructor for each `fmt.Errorf`, and the error of
`url.Parse` that `ValidateUrl` hands on. -/
inductive UrlError
  | empty
  | invalidEscape (originUrl : List Byte)
  | invalidFormat (originUrl : List Byte)
  | invalidFormatNo (originUrl : List Byte)
  | unsupportedProtocol (scheme : List Byte)
  | hostnameEscape (hostname : List Byte)
  | hostnameFormat (hostname : List Byte)
  | hostnameASCII (hostname : List Byte)
  | hostnameNotValid (hostname : List Byte)
  | parse (urlStr : List Byte)
  deriving DecidableEq, Repr

/-- The constant `defaultScheme`. -/
def defaultScheme : List Byte := bytes "http"

/-- The variable `supportedProtocols`. -/
def supportedProtocols : List (List Byte) :=
  [bytes "http", bytes "https", bytes "rdp", bytes "ssh", bytes "smb", bytes "tcp"]

/-- The function `ValidateHostname`. -/
def ValidateHostname (lib : UrlLibrary) (hostname : List Byte) : Except UrlError (List Byte) :=
  if hostname = [] then Except.ok []
  else if Contains hostname (bytes ":") || Contains hostname (bytes "%3A") then
    match lib.PathUnescape hostname with
    | none => Except.error (UrlError.hostnameEscape hostname)
    | some unescapeHostname =>
      match lib.Parse unescapeHostname with
      | none => Except.error (UrlError.hostnameFormat hostname)
      | some hostnameToURL =>
        match lib.ToASCII hostnameToURL.Hostname with
        | none => Except.error (UrlError.hostnameASCII hostname)
        | some asciiHostname => Except.ok asciiHostname
  else
    match lib.ToASCII hostname with
    | none => Except.error (UrlError.hostnameASCII hostname)
    | some asciiHostname =>
      match lib.Parse asciiHostname with
      | none => Except.error (UrlError.hostnameNotValid hostname)
      | some hostnameToURL => Except.ok hostnameToURL.RequestURI

/-- The function `validateScheme`: nil when the scheme is one of `supportedProtocols`. -/
def validateScheme (scheme : List Byte) : Option UrlError :=
  if supportedProtocols.any (fun protocol => decide (scheme = protocol)) then none
  else some (UrlError.unsupportedProtocol scheme)

/-- The function `validateIP`; its error is always nil. -/
def validateIP (scheme host port : List Byte) : Except UrlError (List Byte) :=
  let scheme := if scheme = [] then defaultScheme else scheme
  if port ≠ [] then Except.ok (scheme ++ bytes "://" ++ JoinHostPort host port)
  else if Contains host (bytes ":") then
    Except.ok (scheme ++ bytes "://[" ++ host ++ bytes "]")
  else Except.ok (scheme ++ bytes "://" ++ host)

/-- The function `validateUrlString`. -/
def validateUrlString (lib : UrlLibrary) (originUrl : List Byte) :
    Except UrlError (List Byte) :=
  if originUrl = [] then Except.error UrlError.empty
  else if lib.ParseIP originUrl then validateIP [] originUrl []
  else if HasPrefix originUrl (bytes "[") && HasSuffix originUrl (bytes "]") then
    validateIP [] ((originUrl.take (originUrl.length - 1)).drop 1) []
  else
    let split := SplitHostPort originUrl
    let host := (split.getD ([], [])).1
    let port := (split.getD ([], [])).2
    if split.isSome && lib.ParseIP host then validateIP [] host port
    else
      match lib.PathUnescape originUrl with
      | none => Except.error (UrlError.invalidEscape originUrl)
      | some unescapedUrl =>
        match lib.Parse unescapedUrl with
        | none => Except.error (UrlError.invalidFormat originUrl)
        | some parsedUrl =>
          let hasScheme := parsedUrl.IsAbs && decide (parsedUrl.Host ≠ [])
          if hasScheme then
            match validateScheme parsedUrl.Scheme with
            | some err => Except.error err
            | none =>
              if lib.ParseIP parsedUrl.Hostname then
                validateIP parsedUrl.Scheme parsedUrl.Hostname parsedUrl.Port
              else
                match ValidateHostname lib parsedUrl.Hostname with
                | Except.error _ => Except.error (UrlError.invalidFormat originUrl)
                | Except.ok hostname =>
                  if parsedUrl.Port ≠ [] then
                    Except.ok (parsedUrl.Scheme ++ bytes "://" ++
                      JoinHostPort hostname parsedUrl.Port)
                  else Except.ok (parsedUrl.Scheme ++ bytes "://" ++ hostname)
          else
            if host = [] then
              match ValidateHostname lib originUrl with
              | Except.error _ => Except.error (UrlError.invalidFormatNo originUrl)
              | Except.ok hostname => Except.ok (defaultScheme ++ bytes "://" ++ hostname)
            else
              match ValidateHostname lib host with
              | Except.error _ => Except.error (UrlError.invalidFormat originUrl)
              | Except.ok hostname =>
                Except.ok (defaultScheme ++ bytes "://" ++ JoinHostPort hostname port)

/-- The function `ValidateUrl`. -/
def ValidateUrl (lib : UrlLibrary) (originUrl : List Byte) : Except UrlError URL :=
  match validateUrlString lib originUrl with
  | Except.error err => Except.error err
  | Except.ok urlStr =>
    match lib.Parse urlStr with
    | none => Except.error (UrlError.parse urlStr)
    | some u => Except.ok u

/-! ### Go's `net/url`, as `validation.go` calls it (Go 1.22) -/

/-- Go `strings.Cut(s, sep)` for a separator of one byte: the text before the first
`sep`, the text after it, and whether `sep` occurs; without `sep`, `s` and the empty
string. -/
def Cut (s : List Byte) (sep : Byte) : List Byte × List Byte × Bool :=
  match IndexByte s sep with
  | some i => (s.take i, s.drop (i + 1), true)
  | none => (s, [], false)

/-- Whether `lo ≤ c ≤ hi`. -/
def inRange (c lo hi : Byte) : Bool := decide (lo ≤ c) && decide (c ≤ hi)

/-- Go `strings.ToLower` on a string of ASCII bytes. -/
def ToLower (s : List Byte) : List Byte :=
  s.map (fun c => if inRange c 65 90 then Fin.ofNat (c.val + 32) else c)

/-- The function `ishex` of `net/url`. -/
def url.ishex (c : Byte) : Bool := inRange c 48 57 || inRange c 97 102 || inRange c 65 70

/-- The function `unhex` of `net/url`. -/
def url.unhex (c : Byte) : Nat :=
  if inRange c 48 57 then c.val - 48
  else if inRange c 97 102 then c.val - 97 + 10
  else if inRange c 65 70 then c.val - 65 + 10
  else 0

/-- The type `encoding` of `net/url`. -/
inductive url.encoding
  | encodePath
  | encodePathSegment
  | encodeHost
  | encodeZone
  | encodeUserPassword
  | encodeQueryComponent
  | encodeFragment
  deriving DecidableEq, Repr

/-- The function `shouldEscape` of `net/url`. -/
def url.shouldEscape (c : Byte) (mode : url.encoding) : Bool :=
  if inRange c 97 122 || inRange c 65 90 || inRange c 48 57 then false
  else if (mode = url.encoding.encodeHost ∨ mode = url.encoding.encodeZone) ∧
      c ∈ bytes "!$&()*+,;=:[]<>" ++ [39, 34] then false
  else if c ∈ bytes "-_.~" then false
  else if c ∈ bytes "$&+,/:;=?@" then
    match mode with
    | url.encoding.encodePath => decide (c = 63)
    | url.encoding.encodePathSegment => decide (c = 47 ∨ c = 59 ∨ c = 44 ∨ c = 63)
    | url.encoding.encodeUserPassword => decide (c = 64 ∨ c = 47 ∨ c = 63 ∨ c = 58)
    | url.encoding.encodeQueryComponent => true
    | url.encoding.encodeFragment => false
    | _ => true
  else if mode = url.encoding.encodeFragment ∧ c ∈ bytes "!()*" then false
  else true

/-- The function `unescape` of `net/url`, `none` for an error: a `'%'` must be followed
by two hexadecimal digits; in a host an escape may stand only for a byte from 0x80 on,
`%25` apart, and a plain ASCII byte must be one a host may hold. -/
def url.unescape : List Byte → url.encoding → Option (List Byte)
  | [], _ => some []
  | c :: rest, mode =>
    if c = 37 then
      match rest with
      | h1 :: h2 :: rest2 =>
        if !(url.ishex h1 && url.ishex h2) then none
        else if mode = url.encoding.encodeHost ∧ url.unhex h1 < 8 ∧ ¬ (h1 = 50 ∧ h2 = 53) then
          none
        else if mode = url.encoding.encodeZone ∧ ¬ (h1 = 50 ∧ h2 = 53) ∧
            url.unhex h1 * 16 + url.unhex h2 ≠ 32 ∧
            url.shouldEscape (Fin.ofNat (url.unhex h1 * 16 + url.unhex h2))
              url.encoding.encodeHost = true then
          none
        else
          match url.unescape rest2 mode with
          | none => none
          | some t => some (Fin.ofNat (url.unhex h1 * 16 + url.unhex h2) :: t)
      | _ => none
    else if c = 43 then
      match url.unescape rest mode with
      | none => none
      | some t => some ((if mode = url.encoding.encodeQueryComponent then 32 else 43) :: t)
    else if (mode = url.encoding.encodeHost ∨ mode = url.encoding.encodeZone) ∧ c.val < 128 ∧
        url.shouldEscape c url.encoding.encodeHost = true then
      none
    else
      match url.unescape rest mode with
      | none => none
      | some t => some (c :: t)

/-- The digits of `upperhex` of `net/url`. -/
def url.upperhex (n : Nat) : Byte := (bytes "0123456789ABCDEF").getD n 0

/-- The function `escape` of `net/url`. -/
def url.escape : List Byte → url.encoding → List Byte
  | [], _ => []
  | c :: rest, mode =>
    if c = 32 ∧ mode = url.encoding.encodeQueryComponent then 43 :: url.escape rest mode
    else if url.shouldEscape c mode then
      37 :: url.upperhex (c.val / 16) :: url.upperhex (c.val % 16) :: url.escape rest mode
    else c :: url.escape rest mode

/-- Go `url.PathUnescape(s)`: `unescape(s, encodePathSegment)`. -/
def url.PathUnescape (s : List Byte) : Option (List Byte) :=
  url.unescape s url.encoding.encodePathSegment

/-- The loop of `getScheme` of `net/url` at index `i`, with the bytes from `i` on. -/
def url.getSchemeLoop (rawURL : List Byte) : Nat → List Byte → Option (List Byte × List Byte)
  | _, [] => some ([], rawURL)
  | i, c :: cs =>
    if inRange c 97 122 || inRange c 65 90 then url.getSchemeLoop rawURL (i + 1) cs
    else if inRange c 48 57 || c = 43 || c = 45 || c = 46 then
      if i = 0 then some ([], rawURL) else url.getSchemeLoop rawURL (i + 1) cs
    else if c = 58 then
      if i = 0 then none else some (rawURL.take i, rawURL.drop (i + 1))
    else some ([], rawURL)

/-- The function `getScheme` of `net/url`: the scheme and the rest, `none` for the error
`missing protocol scheme`. -/
def url.getScheme (rawURL : List Byte) : Option (List Byte × List Byte) :=
  url.getSchemeLoop rawURL 0 rawURL

/-- The function `validOptionalPort` of `net/url`: empty, or a colon and decimal digits. -/
def url.validOptionalPort (port : List Byte) : Bool :=
  match port with
  | [] => true
  | c :: digits => decide (c = 58) && digits.all (fun b => inRange b 48 57)

/-- The function `splitHostPort` of `net/url`: a valid port after the last colon is
split off and the brackets of the host are removed. -/
def url.splitHostPort (hostPort : List Byte) : List Byte × List Byte :=
  let split : List Byte × List Byte :=
    match LastIndexByte hostPort 58 with
    | some colon =>
      if url.validOptionalPort (hostPort.drop colon) then
        (hostPort.take colon, hostPort.drop (colon + 1))
      else (hostPort, [])
    | none => (hostPort, [])
  if HasPrefix split.1 (bytes "[") && HasSuffix split.1 (bytes "]") then
    ((split.1.take (split.1.length - 1)).drop 1, split.2)
  else split

/-- The index of the first occurrence of `sub` in `s`, `none` for Go's `-1`. -/
def Index : List Byte → List Byte → Option Nat
  | [], sub => if sub = [] then some 0 else none
  | c :: cs, sub =>
    if HasPrefix (c :: cs) sub then some 0
    else (Index cs sub).map (fun i => i + 1)

/-- The function `parseHost` of `net/url`, `none` for an error. -/
def url.parseHost (host : List Byte) : Option (List Byte) :=
  if HasPrefix host (bytes "[") then
    match LastIndexByte host 93 with
    | none => none
    | some i =>
      if !url.validOptionalPort (host.drop (i + 1)) then none
      else
        match Index (host.take i) (bytes "%25") with
        | some zone =>
          match url.unescape (host.take zone) url.encoding.encodeHost,
            url.unescape ((host.take i).drop zone) url.encoding.encodeZone,
            url.unescape (host.drop i) url.encoding.encodeHost with
          | some host1, some host2, some host3 => some (host1 ++ host2 ++ host3)
          | _, _, _ => none
        | none => url.unescape host url.encoding.encodeHost
  else
    match LastIndexByte host 58 with
    | some i =>
      if !url.validOptionalPort (host.drop i) then none
      else url.unescape host url.encoding.encodeHost
    | none => url.unescape host url.encoding.encodeHost

/-- The function `validUserinfo` of `net/url`. -/
def url.validUserinfo (s : List Byte) : Bool :=
  s.all (fun r => inRange r 65 90 || inRange r 97 122 || inRange r 48 57 ||
    decide (r ∈ bytes "-._:~!$&()*+,;=%@" ++ [39]))

/-- The function `parseAuthority` of `net/url`: the host, `none` for an error; the user
information is checked and dropped. -/
def url.parseAuthority (authority : List Byte) : Option (List Byte) :=
  match LastIndexByte authority 64 with
  | none => url.parseHost authority
  | some i =>
    match url.parseHost (authority.drop (i + 1)) with
    | none => none
    | some host =>
      let userinfo := authority.take i
      if !url.validUserinfo userinfo then none
      else if (58 : Byte) ∉ userinfo then
        match url.unescape userinfo url.encoding.encodeUserPassword with
        | none => none
        | some _ => some host
      else
        match url.unescape (Cut userinfo 58).1 url.encoding.encodeUserPassword,
          url.unescape (Cut userinfo 58).2.1 url.encoding.encodeUserPassword with
        | some _, some _ => some host
        | _, _ => none

/-- The fields of a `url.URL` that `Parse` sets and `RequestURI` reads. -/
structure url.Fields where
  Scheme : List Byte
  Opaque : List Byte
  Host : List Byte
  Path : List Byte
  RawPath : List Byte
  ForceQuery : Bool
  RawQuery : List Byte
  deriving DecidableEq, Repr

/-- The function `stringContainsCTLByte` of `net/url`. -/
def url.stringContainsCTLByte (s : List Byte) : Bool :=
  s.any (fun b => decide (b.val < 32) || decide (b = 127))

/-- The method `setPath` of `net/url`: the unescaped path, and the raw path when it is
not the default escaping of the path; `none` for an error. -/
def url.setPath (u : url.Fields) (p : List Byte) : Option url.Fields :=
  match url.unescape p url.encoding.encodePath with
  | none => none
  | some path =>
    if p = url.escape path url.encoding.encodePath then
      some { u with Path := path, RawPath := [] }
    else some { u with Path := path, RawPath := p }

/-- The function `parse` of `net/url` with `viaRequest` false, `none` for an error. -/
def url.parse (rawURL : List Byte) : Option url.Fields :=
  if url.stringContainsCTLByte rawURL then none
  else if rawURL = bytes "*" then some ⟨[], [], [], bytes "*", [], false, []⟩
  else
    match url.getScheme rawURL with
    | none => none
    | some (scheme, rest0) =>
      let scheme := ToLower scheme
      let forceQuery := HasSuffix rest0 (bytes "?") && decide (rest0.count 63 = 1)
      let rest := if forceQuery then rest0.take (rest0.length - 1) else (Cut rest0 63).1
      let rawQuery := if forceQuery then [] else (Cut rest0 63).2.1
      let u : url.Fields := ⟨scheme, [], [], [], [], forceQuery, rawQuery⟩
      if !HasPrefix rest (bytes "/") && decide (scheme ≠ []) then some { u with Opaque := rest }
      else if !HasPrefix rest (bytes "/") && decide ((58 : Byte) ∈ (Cut rest 47).1) then none
      else if (decide (scheme ≠ []) || !HasPrefix rest (bytes "///")) &&
          HasPrefix rest (bytes "//") then
        let authority0 := rest.drop 2
        let authority :=
          match IndexByte authority0 47 with
          | some i => authority0.take i
          | none => authority0
        let rest :=
          match IndexByte authority0 47 with
          | some i => authority0.drop i
          | none => []
        match url.parseAuthority authority with
        | none => none
        | some host => url.setPath { u with Host := host } rest
      else url.setPath u rest

/-- The function `validEncoded` of `net/url`. -/
def url.validEncoded (s : List Byte) (mode : url.encoding) : Bool :=
  s.all (fun c =>
    if c ∈ bytes "!$&()*+,;=:@[]%" ++ [39] then true else !url.shouldEscape c mode)

/-- The method `EscapedPath` of `net/url`. -/
def url.EscapedPath (u : url.Fields) : List Byte :=
  if u.RawPath ≠ [] ∧ url.validEncoded u.RawPath url.encoding.encodePath = true ∧
      url.unescape u.RawPath url.encoding.encodePath = some u.Path then u.RawPath
  else if u.Path = bytes "*" then bytes "*"
  else url.escape u.Path url.encoding.encodePath

/-- The method `RequestURI` of `net/url`. -/
def url.RequestURI (u : url.Fields) : List Byte :=
  let result :=
    if u.Opaque = [] then
      if url.EscapedPath u = [] then bytes "/" else url.EscapedPath u
    else if HasPrefix u.Opaque (bytes "//") then u.Scheme ++ bytes ":" ++ u.Opaque
    else u.Opaque
  if u.ForceQuery || decide (u.RawQuery ≠ []) then result ++ bytes "?" ++ u.RawQuery
  else result

/-- Go `url.Parse(rawURL)`, `none` for an error: the text from the first `'#'` on is the
fragment, which must unescape; the result holds the scheme and the host, and what
`Hostname()`, `Port()` and `RequestURI()` return. -/
def url.Parse (rawURL : List Byte) : Option URL :=
  match url.parse (Cut rawURL 35).1 with
  | none => none
  | some u =>
    if (Cut rawURL 35).2.1 ≠ [] ∧
        url.unescape (Cut rawURL 35).2.1 url.encoding.encodeFragment = none then none
    else
      some ⟨u.Scheme, u.Host, (url.splitHostPort u.Host).1, (url.splitHostPort u.Host).2,
        url.RequestURI u⟩

/-! ### Go's `net.ParseIP` -/

/-- The loop of `parseIPv4` of `net/netip` at index `i` of a string of `len` bytes:
four decimal fields of at most 255 without leading zero, divided by dots. -/
def netip.parseIPv4Loop (len : Nat) : List Byte → Nat → Nat → Nat → Nat → Bool → Bool
  | [], _, _, pos, _, _ => decide (3 ≤ pos)
  | c :: cs, i, val, pos, digLen, afterDot =>
    if inRange c 48 57 then
      if digLen = 1 ∧ val = 0 then false
      else if val * 10 + (c.val - 48) > 255 then false
      else netip.parseIPv4Loop len cs (i + 1) (val * 10 + (c.val - 48)) pos (digLen + 1) false
    else if c = 46 then
      if i = 0 ∨ i = len - 1 ∨ afterDot = true then false
      else if pos = 3 then false
      else netip.parseIPv4Loop len cs (i + 1) 0 (pos + 1) 0 true
    else false

/-- The function `parseIPv4` of `net/netip`: whether the string is an IPv4 address. -/
def netip.parseIPv4 (s : List Byte) : Bool :=
  netip.parseIPv4Loop s.length s 0 0 0 0 false

/-- The hexadecimal digits at the head of `s`, as `parseIPv6` of `net/netip` reads a
group: their number and what follows them, `none` for more than four digits. -/
def netip.hexGroup : List Byte → Nat → Option (Nat × List Byte)
  | [], off => some (off, [])
  | c :: cs, off =>
    if url.ishex c then
      if off > 3 then none else netip.hexGroup cs (off + 1)
    else some (off, c :: cs)

/-- The loop of `parseIPv6` of `net/netip`: `s` is what is left of the string, `i` the
number of bytes of the address that are filled, `ellipsis` whether `::` has occurred. The
result is `none` for an error, else what is left, `i` and `ellipsis` at the end of the
loop. -/
def netip.parseIPv6Loop : Nat → List Byte → Nat → Bool → Option (List Byte × Nat × Bool)
  | 0, s, i, ellipsis => some (s, i, ellipsis)
  | fuel + 1, s, i, ellipsis =>
    if 16 ≤ i then some (s, i, ellipsis)
    else
      match netip.hexGroup s 0 with
      | none => none
      | some (off, rest) =>
        if off = 0 then none
        else if rest.head? = some 46 then
          if ellipsis = false ∧ i ≠ 12 then none
          else if i + 4 > 16 then none
          else if netip.parseIPv4 s then some ([], i + 4, ellipsis)
          else none
        else
          match rest with
          | [] => some ([], i + 2, ellipsis)
          | c :: more =>
            if c ≠ 58 then none
            else
              match more with
              | [] => none
              | d :: tail =>
                if d = 58 then
                  if ellipsis then none
                  else if tail = [] then some ([], i + 2, true)
                  else netip.parseIPv6Loop fuel tail (i + 2) true
                else netip.parseIPv6Loop fuel (d :: tail) (i + 2) ellipsis

/-- The function `parseIPv6` of `net/netip` on a string without zone: whether the string
is an IPv6 address. -/
def netip.parseIPv6 (s : List Byte) : Bool :=
  let lead := HasPrefix s (bytes "::")
  let s := if lead then s.drop 2 else s
  if lead && decide (s = []) then true
  else
    match netip.parseIPv6Loop 16 s 0 lead with
    | none => false
    | some (rest, i, ellipsis) =>
      if rest ≠ [] then false
      else if i < 16 then ellipsis
      else !ellipsis

/-- The dispatch of `netip.ParseAddr` at the first `'.'`, `':'` or `'%'` of the string,
for `net.ParseIP`, which rejects an address with a zone. -/
def netip.ParseAddrLoop (s : List Byte) : List Byte → Bool
  | [] => false
  | c :: cs =>
    if c = 46 then netip.parseIPv4 s
    else if c = 58 then decide ((37 : Byte) ∉ s) && netip.parseIPv6 s
    else if c = 37 then false
    else netip.ParseAddrLoop s cs

/-- Go `net.ParseIP(s)`: whether the result is not nil, that is whether `s` is an IPv4
or an IPv6 address without zone. -/
def net.ParseIP (s : List Byte) : Bool := netip.ParseAddrLoop s s

/-! ### Go's `golang.org/x/net/idna` -/

/-- The runes of a string as a Go `range` loop reads them: a byte sequence that is no
valid UTF-8 encoding gives `U+FFFD` for its first byte. -/
def utf8Runes : Nat → List Byte → List Nat
  | 0, _ => []
  | _ + 1, [] => []
  | fuel + 1, b0 :: rest =>
    let cont (b : Byte) (lo hi : Nat) : Bool := decide (lo ≤ b.val) && decide (b.val ≤ hi)
    if b0.val < 128 then b0.val :: utf8Runes fuel rest
    else
      match rest with
      | b1 :: rest1 =>
        if 194 ≤ b0.val ∧ b0.val ≤ 223 ∧ cont b1 128 191 = true then
          ((b0.val - 192) * 64 + (b1.val - 128)) :: utf8Runes fuel rest1
        else
          match rest1 with
          | b2 :: rest2 =>
            if 224 ≤ b0.val ∧ b0.val ≤ 239 ∧
                cont b1 (if b0.val = 224 then 160 else 128)
                  (if b0.val = 237 then 159 else 191) = true ∧
                cont b2 128 191 = true then
              ((b0.val - 224) * 4096 + (b1.val - 128) * 64 + (b2.val - 128)) ::
                utf8Runes fuel rest2
            else
              match rest2 with
              | b3 :: rest3 =>
                if 240 ≤ b0.val ∧ b0.val ≤ 244 ∧
                    cont b1 (if b0.val = 240 then 144 else 128)
                      (if b0.val = 244 then 143 else 191) = true ∧
                    cont b2 128 191 = true ∧ cont b3 128 191 = true then
                  ((b0.val - 240) * 262144 + (b1.val - 128) * 4096 + (b2.val - 128) * 64 +
                    (b3.val - 128)) :: utf8Runes fuel rest3
                else 65533 :: utf8Runes fuel rest
              | [] => 65533 :: utf8Runes fuel rest
          | [] => 65533 :: utf8Runes fuel rest
      | [] => 65533 :: utf8Runes fuel rest

/-- The function `adapt` of `idna/punycode.go`, the loop that divides `delta`. -/
def idna.adaptLoop : Nat → Nat → Nat → Nat × Nat
  | 0, delta, k => (delta, k)
  | fuel + 1, delta, k =>
    if delta > 455 then idna.adaptLoop fuel (delta / 35) (k + 36) else (delta, k)

/-- The function `adapt` of `idna/punycode.go`, with base 36, tmin 1, tmax 26, skew 38 and
damp 700. -/
def idna.adapt (delta numPoints : Nat) (firstTime : Bool) : Nat :=
  let delta := if firstTime then delta / 700 else delta / 2
  let delta := delta + delta / numPoints
  let r := idna.adaptLoop 32 delta 0
  r.2 + 36 * r.1 / (r.1 + 38)

/-- The function `decodeDigit` of `idna/punycode.go`. -/
def idna.decodeDigit (x : Byte) : Option Nat :=
  if inRange x 48 57 then some (x.val - 22)
  else if inRange x 65 90 then some (x.val - 65)
  else if inRange x 97 122 then some (x.val - 97)
  else none

/-- The function `encodeDigit` of `idna/punycode.go`. -/
def idna.encodeDigit (digit : Nat) : Byte :=
  if digit < 26 then Fin.ofNat (digit + 97) else Fin.ofNat (digit + 22)

/-- The threshold `t` of the Punycode loops at step `k`. -/
def idna.threshold (k bias : Nat) : Nat :=
  if k ≤ bias then 1 else if k ≥ bias + 26 then 26 else k - bias

/-- The inner loop of `decode` of `idna/punycode.go`: reads one generalized
variable-length integer, adding it to `i`; `none` for an error (end of the text, a byte
that is no digit, or an overflow of `int32`). -/
def idna.decodeInteger : List Byte → Nat → Nat → Nat → Nat → Option (Nat × List Byte)
  | [], _, _, _, _ => none
  | c :: cs, k, bias, i, w =>
    match idna.decodeDigit c with
    | none => none
    | some digit =>
      if digit * w > 2147483647 - i then none
      else if digit < idna.threshold k bias then some (i + digit * w, cs)
      else if w * (36 - idna.threshold k bias) > 2147483647 then none
      else idna.decodeInteger cs (k + 36) bias (i + digit * w)
        (w * (36 - idna.threshold k bias))

/-- The outer loop of `decode` of `idna/punycode.go`: each integer read inserts one code
point into the output. -/
def idna.decodeLoop : Nat → List Byte → List Nat → Nat → Nat → Nat → Option (List Nat)
  | 0, _, _, _, _, _ => none
  | fuel + 1, encoded, output, i, n, bias =>
    if encoded = [] then some output
    else
      match idna.decodeInteger encoded 36 bias i 1 with
      | none => none
      | some (i1, rest) =>
        if output.length ≥ 1024 then none
        else
          let x := output.length + 1
          let n1 := n + i1 / x
          if n1 > 1114111 then none
          else
            idna.decodeLoop fuel rest (output.take (i1 % x) ++ [n1] ++ output.drop (i1 % x))
              (i1 % x + 1) n1 (idna.adapt (i1 - i) x (decide (i = 0)))

/-- The function `decode` of `idna/punycode.go`: the code points a Punycode text stands
for, `none` for an error. -/
def idna.decode (encoded : List Byte) : Option (List Nat) :=
  if encoded = [] then some []
  else
    match LastIndexByte encoded 45 with
    | some 0 => none
    | some p =>
      if p + 1 = encoded.length then some (utf8Runes encoded.length (encoded.take p))
      else
        idna.decodeLoop (encoded.length + 1) (encoded.drop (p + 1))
          (utf8Runes encoded.length (encoded.take p)) 0 128 72
    | none => idna.decodeLoop (encoded.length + 1) encoded [] 0 128 72

/-- The digits that `encode` of `idna/punycode.go` writes for one code point: `q` as a
generalized variable-length integer. -/
def idna.encodeInteger : Nat → Nat → Nat → Nat → List Byte
  | 0, _, _, q => [idna.encodeDigit q]
  | fuel + 1, k, bias, q =>
    if q < idna.threshold k bias then [idna.encodeDigit q]
    else
      idna.encodeDigit (idna.threshold k bias +
          (q - idna.threshold k bias) % (36 - idna.threshold k bias)) ::
        idna.encodeInteger fuel (k + 36) bias
          ((q - idna.threshold k bias) / (36 - idna.threshold k bias))

/-- The state of the loops of `encode`: the digits written, `delta`, `bias`, the number
`h` of code points done, and whether an overflow has occurred. -/
structure idna.EncodeState where
  output : List Byte
  delta : Nat
  bias : Nat
  h : Nat
  overflow : Bool

/-- One pass of `encode` of `idna/punycode.go` over the code points, for the code point
value `n`; `b` is the number of basic code points. -/
def idna.encodePass (n b : Nat) : List Nat → idna.EncodeState → idna.EncodeState
  | [], st => st
  | r :: rs, st =>
    if st.overflow then st
    else if r < n then
      if st.delta + 1 > 2147483647 then { st with overflow := true }
      else idna.encodePass n b rs { st with delta := st.delta + 1 }
    else if r > n then idna.encodePass n b rs st
    else
      idna.encodePass n b rs
        { output := st.output ++ idna.encodeInteger 32 36 st.bias st.delta,
          delta := 0,
          bias := idna.adapt st.delta (st.h + 1) (decide (st.h = b)),
          h := st.h + 1,
          overflow := false }

/-- The outer loop of `encode` of `idna/punycode.go`: while code points remain, the
smallest one not below `n` is encoded at each of its places. -/
def idna.encodeLoop (s : List Nat) (b : Nat) : Nat → Nat → idna.EncodeState →
    Option (List Byte)
  | 0, _, _ => none
  | fuel + 1, n, st =>
    if st.h ≥ s.length then some st.output
    else
      let m := (s.filter (fun r => decide (r ≥ n))).foldl min 2147483647
      if (m - n) * (st.h + 1) > 2147483647 - st.delta then none
      else
        let st1 := idna.encodePass m b s { st with delta := st.delta + (m - n) * (st.h + 1) }
        if st1.overflow then none
        else idna.encodeLoop s b fuel (m + 1) { st1 with delta := st1.delta + 1 }

/-- The function `encode` of `idna/punycode.go` with the ACE mark `xn--`: the basic code
points, a hyphen when there is one, and the digits for the others; `none` for an
overflow. -/
def idna.encode (s : List Nat) : Option (List Byte) :=
  let basic : List Byte := (s.filter (fun r => decide (r < 128))).map (fun r => Fin.ofNat r)
  let b := basic.length
  idna.encodeLoop s b (s.length + 1) 128
    ⟨bytes "xn--" ++ basic ++ (if b > 0 then bytes "-" else []), 0, 72, b, false⟩

/-- The UTF-8 encoding of a code point, as the Go conversion `string(rune)` gives it: a
surrogate or a value above `U+10FFFF` gives the encoding of `U+FFFD`. -/
def utf8Encode (r : Nat) : List Byte :=
  let r := if (55296 ≤ r ∧ r ≤ 57343) ∨ r > 1114111 then 65533 else r
  if r < 128 then [Fin.ofNat r]
  else if r < 2048 then [Fin.ofNat (192 + r / 64), Fin.ofNat (128 + r % 64)]
  else if r < 65536 then
    [Fin.ofNat (224 + r / 4096), Fin.ofNat (128 + r / 64 % 64), Fin.ofNat (128 + r % 64)]
  else
    [Fin.ofNat (240 + r / 262144), Fin.ofNat (128 + r / 4096 % 64),
      Fin.ofNat (128 + r / 64 % 64), Fin.ofNat (128 + r % 64)]

/-- One label in the first loop of `process` of `idna` for the profile `Punycode`: a
label that begins with `xn--` is replaced by the text it decodes to, `none` for an error
of `decode`; the profile validates nothing else. -/
def idna.fromPunycode (label : List Byte) : Option (List Byte) :=
  if HasPrefix label (bytes "xn--") then
    match idna.decode (label.drop 4) with
    | none => none
    | some u => some ((u.map utf8Encode).flatten)
  else some label

/-- One label in the second loop of `process` of `idna` with `toASCII`: a label that is
not ASCII is encoded. -/
def idna.toPunycode (label : List Byte) : Option (List Byte) :=
  if label.all (fun c => decide (c.val < 128)) then some label
  else idna.encode (utf8Runes label.length label)

/-- Applies `f` to each label, `none` when it fails on one. -/
def idna.mapLabels (f : List Byte → Option (List Byte)) :
    List (List Byte) → Option (List (List Byte))
  | [] => some []
  | l :: ls =>
    match f l, idna.mapLabels f ls with
    | some a, some rest => some (a :: rest)
    | _, _ => none

/-- Go `idna.ToASCII(s)`, that is `Punycode.process(s, true)`, `none` when the error is
not nil: the labels between dots are decoded where they begin with `xn--` and encoded
where they are not ASCII. -/
def idna.ToASCII (s : List Byte) : Option (List Byte) :=
  match idna.mapLabels idna.fromPunycode (Split 46 s) with
  | none => none
  | some labels =>
    match idna.mapLabels idna.toPunycode labels with
    | none => none
    | some labels => some (Join (bytes ".") labels)

/-- The library of Go, as modelled above. -/
def goUrlLibrary : UrlLibrary where
  ParseIP := net.ParseIP
  PathUnescape := url.PathUnescape
  Parse := url.Parse
  ToASCII := idna.ToASCII

/-! ## Lemmas and theorems -/

/-! ### `Split` and `Join` -/

theorem Split_ne_nil (sep : Byte) (s : List Byte) : Split sep s ≠ [] := by
  cases s with
  | nil => simp [Split]
  | cons c cs =>
    simp only [Split]
    split
    · simp
    · split <;> simp

theorem Split_of_not_mem (sep : Byte) (s : List Byte) (h : sep ∉ s) : Split sep s = [s] := by
  induction s with
  | nil => rfl
  | cons c cs ih =>
    have hc : c ≠ sep := fun e => h (by simp [e])
    have hcs : sep ∉ cs := fun e => h (by simp [e])
    simp [Split, hc, ih hcs]

theorem Split_append_sep (sep : Byte) (a b : List Byte) :
    Split sep (a ++ sep :: b) = Split sep a ++ Split sep b := by
  induction a with
  | nil => simp [Split]
  | cons c cs ih =>
    by_cases hc : c = sep
    · simp [Split, hc, ih]
    · simp only [List.cons_append, Split, hc, if_false, List.append_eq]
      rw [ih]
      cases hs : Split sep cs with
      | nil => exact absurd hs (Split_ne_nil sep cs)
      | cons seg segs => simp

theorem Split_Join (sep : Byte) (xs : List (List Byte)) (hne : xs ≠ [])
    (hfree : ∀ x ∈ xs, sep ∉ x) : Split sep (Join [sep] xs) = xs := by
  induction xs with
  | nil => exact absurd rfl hne
  | cons a rest ih =>
    cases rest with
    | nil => simpa [Join] using Split_of_not_mem sep a (hfree a (by simp))
    | cons b rest =>
      have h1 : Split sep a = [a] := Split_of_not_mem sep a (hfree a (by simp))
      have h2 := ih (by simp) (fun x hx => hfree x (by simp [hx]))
      simp only [Join, List.append_assoc, List.singleton_append]
      rw [Split_append_sep, h1, h2]
      rfl

theorem mem_Join (sep : List Byte) (xs : List (List Byte)) (c : Byte)
    (hc : c ∈ Join sep xs) : c ∈ sep ∨ ∃ x ∈ xs, c ∈ x := by
  induction xs with
  | nil => simp [Join] at hc
  | cons a rest ih =>
    cases rest with
    | nil => exact Or.inr ⟨a, by simp, by simpa [Join] using hc⟩
    | cons b rest =>
      simp only [Join, List.mem_append] at hc
      rcases hc with (hc | hc) | hc
      · exact Or.inr ⟨a, by simp, hc⟩
      · exact Or.inl hc
      · rcases ih hc with h | ⟨x, hx, hcx⟩
        · exact Or.inl h
        · exact Or.inr ⟨x, by simp [hx], hcx⟩

theorem count_Join_sep (sep : Byte) (xs : List (List Byte)) (hfree : ∀ x ∈ xs, sep ∉ x) :
    (Join [sep] xs).count sep = xs.length - 1 := by
  induction xs with
  | nil => simp [Join]
  | cons a rest ih =>
    cases rest with
    | nil => simpa [Join] using List.count_eq_zero.mpr (hfree a (by simp))
    | cons b rest =>
      have h2 := ih (fun x hx => hfree x (by simp [hx]))
      have ha : a.count sep = 0 := List.count_eq_zero.mpr (hfree a (by simp))
      simp only [Join, List.count_append, ha, h2, List.length_cons]
      simp
      omega

theorem count_Join_other (sep c : Byte) (hsc : sep ≠ c) (xs : List (List Byte))
    (hone : ∀ x ∈ xs, x.count c = 1) : (Join [sep] xs).count c = xs.length := by
  induction xs with
  | nil => simp [Join]
  | cons a rest ih =>
    cases rest with
    | nil => simpa [Join] using hone a (by simp)
    | cons b rest =>
      have h2 := ih (fun x hx => hone x (by simp [hx]))
      have ha := hone a (by simp)
      simp only [Join, List.count_append, ha, h2, List.length_cons]
      simp [List.count_cons, hsc]
      omega

/-! ### The alphabet and `Encode` -/

theorem encodeChar_mem_fin : ∀ i : Fin 64, encodeChar i.val ∈ encodeStd := by decide

theorem encodeChar_mem (x : Nat) : encodeChar (x &&& 0x3F) ∈ encodeStd := by
  have h : x &&& 0x3F < 64 := Nat.lt_succ_of_le Nat.and_le_right
  exact encodeChar_mem_fin ⟨x &&& 0x3F, h⟩

theorem alphabet_not_delim :
    ∀ c : Byte, c ∈ encodeStd → c ≠ 58 ∧ c ≠ 59 ∧ c ≠ 10 ∧ c ≠ 13 := by decide

theorem Encode_mem (bs : List Byte) : ∀ c ∈ Encode bs, c ∈ encodeStd := by
  induction bs using Encode.induct with
  | case1 => simp [Encode]
  | case2 b0 =>
    intro c hc
    simp only [Encode, List.mem_cons, List.mem_singleton, List.not_mem_nil, or_false] at hc
    rcases hc with rfl | rfl <;> exact encodeChar_mem _
  | case3 b0 b1 =>
    intro c hc
    simp only [Encode, List.mem_cons, List.mem_singleton, List.not_mem_nil, or_false] at hc
    rcases hc with rfl | rfl | rfl <;> exact encodeChar_mem _
  | case4 b0 b1 b2 rest ih =>
    intro c hc
    simp only [Encode, List.mem_cons] at hc
    rcases hc with rfl | rfl | rfl | rfl | hc
    · exact encodeChar_mem _
    · exact encodeChar_mem _
    · exact encodeChar_mem _
    · exact encodeChar_mem _
    · exact ih c hc

theorem Encode_not_mem (bs : List Byte) (c : Byte) (hc : c ∉ encodeStd) : c ∉ Encode bs :=
  fun h => hc (Encode_mem bs c h)

theorem colon_not_mem_Encode (bs : List Byte) : (58 : Byte) ∉ Encode bs :=
  Encode_not_mem bs 58 (by decide)

theorem semicolon_not_mem_Encode (bs : List Byte) : (59 : Byte) ∉ Encode bs :=
  Encode_not_mem bs 59 (by decide)

theorem semicolon_not_mem_pairString (p : HTTPHeader) : (59 : Byte) ∉ pairString p := by
  simp [pairString, semicolon_not_mem_Encode]

theorem count_colon_pairString (p : HTTPHeader) : (pairString p).count 58 = 1 := by
  simp [pairString, List.count_append, List.count_eq_zero.mpr (colon_not_mem_Encode _)]

theorem pairString_ne_nil (p : HTTPHeader) : pairString p ≠ [] := by
  simp [pairString]

theorem Split_pairString (p : HTTPHeader) :
    Split 58 (pairString p) = [Encode p.Name, Encode p.Value] := by
  simp only [pairString, List.append_assoc, List.singleton_append]
  rw [Split_append_sep, Split_of_not_mem _ _ (colon_not_mem_Encode _),
    Split_of_not_mem _ _ (colon_not_mem_Encode _)]
  rfl

/-! ### Decoding what `Encode` wrote -/

theorem or_eq_add_of_dvd (i a b : Nat) (ha : 2 ^ i ∣ a) (hb : b < 2 ^ i) : a ||| b = a + b := by
  obtain ⟨k, rfl⟩ := ha
  exact (Nat.mul_add_lt_is_or hb k).symm

theorem pack3 (b0 b1 b2 : Nat) (h1 : b1 < 256) (h2 : b2 < 256) :
    b0 <<< 16 ||| b1 <<< 8 ||| b2 = b0 * 65536 + b1 * 256 + b2 := by
  simp only [Nat.shiftLeft_eq]
  rw [or_eq_add_of_dvd 16 (b0 * 2 ^ 16) (b1 * 2 ^ 8) (Dvd.intro_left _ rfl) (by norm_num; omega)]
  rw [or_eq_add_of_dvd 8 _ b2 (by norm_num; omega) (by norm_num; omega)]
  norm_num

theorem pack2 (b0 b1 : Nat) (h1 : b1 < 256) :
    b0 <<< 16 ||| b1 <<< 8 = b0 * 65536 + b1 * 256 := by
  simp only [Nat.shiftLeft_eq]
  rw [or_eq_add_of_dvd 16 (b0 * 2 ^ 16) (b1 * 2 ^ 8) (Dvd.intro_left _ rfl) (by norm_num; omega)]
  norm_num

theorem pack4 (s0 s1 s2 s3 : Nat) (h1 : s1 < 64) (h2 : s2 < 64) (h3 : s3 < 64) :
    s0 <<< 18 ||| s1 <<< 12 ||| s2 <<< 6 ||| s3 = s0 * 262144 + s1 * 4096 + s2 * 64 + s3 := by
  simp only [Nat.shiftLeft_eq]
  rw [or_eq_add_of_dvd 18 (s0 * 2 ^ 18) (s1 * 2 ^ 12) (Dvd.intro_left _ rfl) (by norm_num; omega)]
  rw [or_eq_add_of_dvd 12 _ (s2 * 2 ^ 6) (by norm_num; omega) (by norm_num; omega)]
  rw [or_eq_add_of_dvd 6 _ s3 (by norm_num; omega) (by norm_num; omega)]
  norm_num

theorem sextet_eq (v k : Nat) : v >>> k &&& 0x3F = v / 2 ^ k % 64 := by
  rw [Nat.shiftRight_eq_div_pow]
  exact Nat.and_pow_two_sub_one_eq_mod _ 6

theorem low_sextet_eq (v : Nat) : v &&& 0x3F = v % 64 :=
  Nat.and_pow_two_sub_one_eq_mod _ 6

theorem decodeMap_encodeChar_fin : ∀ i : Fin 64, decodeMap (encodeChar i.val) = i.val := by
  decide

theorem decodeMap_encodeChar (i : Nat) (h : i < 64) : decodeMap (encodeChar i) = i :=
  decodeMap_encodeChar_fin ⟨i, h⟩

theorem ofNat_eq (x : Nat) (b : Byte) (h : x % 256 = b.val) : (Fin.ofNat x : Byte) = b :=
  Fin.ext h

theorem quantumBytes_four (b0 b1 b2 : Byte) :
    quantumBytes
      [(b0.val <<< 16 ||| b1.val <<< 8 ||| b2.val) >>> 18 &&& 0x3F,
       (b0.val <<< 16 ||| b1.val <<< 8 ||| b2.val) >>> 12 &&& 0x3F,
       (b0.val <<< 16 ||| b1.val <<< 8 ||| b2.val) >>> 6 &&& 0x3F,
       (b0.val <<< 16 ||| b1.val <<< 8 ||| b2.val) &&& 0x3F] = [b0, b1, b2] := by
  have h0 := b0.isLt
  have h1 := b1.isLt
  have h2 := b2.isLt
  rw [pack3 _ _ _ h1 h2]
  simp only [sextet_eq, low_sextet_eq, quantumBytes, List.getD_cons_zero, List.getD_cons_succ,
    List.length_cons, List.length_nil]
  rw [pack4 _ _ _ _ (Nat.mod_lt _ (by norm_num)) (Nat.mod_lt _ (by norm_num))
    (Nat.mod_lt _ (by norm_num))]
  simp only [Nat.shiftRight_eq_div_pow]
  norm_num
  refine ⟨ofNat_eq _ _ ?_, ofNat_eq _ _ ?_, ofNat_eq _ _ ?_⟩ <;> omega

theorem quantumBytes_three (b0 b1 : Byte) :
    quantumBytes
      [(b0.val <<< 16 ||| b1.val <<< 8) >>> 18 &&& 0x3F,
       (b0.val <<< 16 ||| b1.val <<< 8) >>> 12 &&& 0x3F,
       (b0.val <<< 16 ||| b1.val <<< 8) >>> 6 &&& 0x3F] = [b0, b1] := by
  have h0 := b0.isLt
  have h1 := b1.isLt
  rw [pack2 _ _ h1]
  simp only [sextet_eq, quantumBytes, List.getD_cons_zero, List.getD_cons_succ,
    List.length_cons, List.length_nil, List.getD_nil]
  rw [pack4 _ _ _ _ (Nat.mod_lt _ (by norm_num)) (Nat.mod_lt _ (by norm_num)) (by norm_num)]
  simp only [Nat.shiftRight_eq_div_pow]
  norm_num
  refine ⟨ofNat_eq _ _ ?_, ofNat_eq _ _ ?_⟩ <;> omega

theorem quantumBytes_two (b0 : Byte) :
    quantumBytes [(b0.val <<< 16) >>> 18 &&& 0x3F, (b0.val <<< 16) >>> 12 &&& 0x3F] = [b0] := by
  have h0 := b0.isLt
  simp only [sextet_eq, Nat.shiftLeft_eq]
  simp only [quantumBytes, List.getD_cons_zero,
    List.getD_cons_succ, List.length_cons, List.length_nil, List.getD_nil]
  rw [pack4 _ _ _ _ (Nat.mod_lt _ (by norm_num)) (by norm_num) (by norm_num)]
  simp only [Nat.shiftRight_eq_div_pow]
  norm_num
  refine ofNat_eq _ _ ?_
  omega

theorem decodeLoop_sextet (x : Nat) (cs : List Byte) (dbuf : List Nat) :
    decodeLoop (encodeChar (x &&& 0x3F) :: cs) dbuf =
      if dbuf.length + 1 = 4 then
        (decodeLoop cs []).map (quantumBytes (dbuf ++ [x &&& 0x3F]) ++ ·)
      else decodeLoop cs (dbuf ++ [x &&& 0x3F]) := by
  have hlt : x &&& 0x3F < 64 := Nat.lt_succ_of_le Nat.and_le_right
  have h1 : decodeMap (encodeChar (x &&& 0x3F)) = x &&& 0x3F := decodeMap_encodeChar _ hlt
  have h2 : x &&& 0x3F ≠ 255 := by omega
  simp only [decodeLoop, h1]
  rw [if_pos h2]

theorem decodeLoop_Encode (bs : List Byte) : decodeLoop (Encode bs) [] = some bs := by
  induction bs using Encode.induct with
  | case1 => simp [Encode, decodeLoop]
  | case2 b0 =>
    simp only [Encode]
    rw [decodeLoop_sextet, if_neg (by simp), decodeLoop_sextet, if_neg (by simp)]
    simp [decodeLoop, quantumBytes_two]
  | case3 b0 b1 =>
    simp only [Encode]
    rw [decodeLoop_sextet, if_neg (by simp), decodeLoop_sextet, if_neg (by simp),
      decodeLoop_sextet, if_neg (by simp)]
    simp [decodeLoop, quantumBytes_three]
  | case4 b0 b1 b2 rest ih =>
    simp only [Encode]
    rw [decodeLoop_sextet, if_neg (by simp), decodeLoop_sextet, if_neg (by simp),
      decodeLoop_sextet, if_neg (by simp), decodeLoop_sextet, if_pos (by simp), ih]
    simp [quantumBytes_four]

theorem Encode_length (bs : List Byte) : (Encode bs).length = EncodedLen bs.length := by
  unfold EncodedLen
  induction bs using Encode.induct with
  | case1 => simp [Encode]
  | case2 b0 => simp [Encode]
  | case3 b0 b1 => simp [Encode]
  | case4 b0 b1 b2 rest ih =>
    simp only [Encode, List.length_cons, ih]
    omega

theorem DecodedLen_EncodedLen (n : Nat) : DecodedLen (EncodedLen n) = n := by
  unfold DecodedLen EncodedLen
  omega

theorem Decode_Encode (bs : List Byte) :
    Decode (List.replicate (DecodedLen (Encode bs).length) 0) (Encode bs) = some bs := by
  simp [Decode, decodeLoop_Encode, Encode_length, DecodedLen_EncodedLen]

theorem quantumBytes_length (dbuf : List Nat) :
    (quantumBytes dbuf).length = min (dbuf.length - 1) 3 := by
  simp [quantumBytes]

/-- The decoder never writes past a buffer of `DecodedLen(len(src))` bytes, so the index
expressions `dst[0]`, `dst[1]`, `dst[2]` of `decodeQuantum` stay in range. -/
theorem decodeLoop_length_le (src : List Byte) (dbuf : List Nat) (w : List Byte)
    (hd : dbuf.length < 4) (hw : decodeLoop src dbuf = some w) :
    w.length ≤ DecodedLen (dbuf.length + src.length) := by
  induction src generalizing dbuf w with
  | nil =>
    simp only [decodeLoop] at hw
    split at hw
    · simp only [Option.some.injEq] at hw
      subst hw
      simp
    · split at hw
      · exact absurd hw (by simp)
      · simp only [Option.some.injEq] at hw
        subst hw
        rw [quantumBytes_length]
        unfold DecodedLen
        simp only [List.length_nil, Nat.add_zero]
        omega
  | cons c cs ih =>
    simp only [decodeLoop] at hw
    split at hw
    · split at hw
      · obtain ⟨w0, hw0, rfl⟩ := Option.map_eq_some'.mp hw
        have h0 := ih [] w0 (by simp) hw0
        simp only [List.length_append, quantumBytes_length, List.length_cons, List.length_nil]
        unfold DecodedLen at h0 ⊢
        simp only [List.length_nil, Nat.zero_add] at h0
        omega
      · have h0 := ih (dbuf ++ [decodeMap c]) w (by simp; omega) hw
        simp only [List.length_append, List.length_cons, List.length_nil] at h0
        simp only [List.length_cons]
        unfold DecodedLen at h0 ⊢
        omega
    · split at hw
      · have h0 := ih dbuf w hd hw
        simp only [List.length_cons]
        unfold DecodedLen at h0 ⊢
        omega
      · exact absurd hw (by simp)

/-! ### `SerializeHeaders` as a join of pair strings -/

theorem SerializeHeaders_eq_foldl (h : Header) :
    SerializeHeaders h =
      (occurrences h).foldl (fun buf p => writePair buf p.Name p.Value) [] := by
  unfold SerializeHeaders
  generalize ([] : List Byte) = buf
  induction h generalizing buf with
  | nil => rfl
  | cons e h ih =>
    simp only [List.foldl_cons, occurrences, List.flatMap_cons, List.foldl_append,
      List.foldl_map]
    exact ih _

theorem foldl_writePair_of_ne_nil (ps : List HTTPHeader) (buf : List Byte) (hbuf : buf ≠ []) :
    ps.foldl (fun buf p => writePair buf p.Name p.Value) buf =
      buf ++ (ps.map (fun p => 59 :: pairString p)).flatten := by
  induction ps generalizing buf with
  | nil => simp
  | cons p ps ih =>
    have hlen : buf.length > 0 := List.length_pos.mpr hbuf
    have hw : writePair buf p.Name p.Value = buf ++ 59 :: pairString p := by
      simp [writePair, hlen, pairString]
    simp only [List.foldl_cons, hw]
    rw [ih _ (by simp)]
    simp

theorem Join_cons_eq (a : List Byte) (xs : List (List Byte)) :
    Join [59] (a :: xs) = a ++ (xs.map (fun x => 59 :: x)).flatten := by
  induction xs generalizing a with
  | nil => simp [Join]
  | cons b rest ih => simp [Join, ih b]

theorem SerializeHeaders_eq_Join (h : Header) :
    SerializeHeaders h = Join [59] ((occurrences h).map pairString) := by
  rw [SerializeHeaders_eq_foldl]
  cases occurrences h with
  | nil => rfl
  | cons p ps =>
    have hw : writePair [] p.Name p.Value = pairString p := by
      simp [writePair, pairString]
    simp only [List.foldl_cons, hw, List.map_cons]
    rw [foldl_writePair_of_ne_nil _ _ (pairString_ne_nil p), Join_cons_eq]
    simp [List.map_map, Function.comp_def]

theorem deserializeLoop_pairStrings (ps acc : List HTTPHeader) :
    deserializeLoop (ps.map pairString) acc = (acc ++ ps, none) := by
  induction ps generalizing acc with
  | nil => simp [deserializeLoop]
  | cons p ps ih =>
    have hlen : (pairString p).length ≠ 0 := by
      simpa [List.length_eq_zero] using pairString_ne_nil p
    simp only [List.map_cons, deserializeLoop, hlen, if_false, Split_pairString,
      List.length_cons, List.length_nil, List.getD_cons_zero, List.getD_cons_succ,
      Decode_Encode]
    simp [ih]

theorem Deserialize_Serialize (h : Header) :
    DeserializeHeaders (SerializeHeaders h) = (occurrences h, none) := by
  rw [SerializeHeaders_eq_Join]
  unfold DeserializeHeaders
  cases hocc : occurrences h with
  | nil => simp [Join, Split, deserializeLoop]
  | cons p ps =>
    rw [Split_Join 59 _ (by simp)
      (by
        intro x hx
        obtain ⟨q, _, rfl⟩ := List.mem_map.mp hx
        exact semicolon_not_mem_pairString q)]
    simpa using deserializeLoop_pairStrings (p :: ps) []

theorem occurrences_perm (h order : Header) (hperm : order.Perm h) :
    (occurrences order).Perm (occurrences h) :=
  List.Perm.flatMap_right _ hperm

/-! ### The loop of `DeserializeHeaders`, segment by segment -/

theorem Split_length (sep : Byte) (s : List Byte) :
    (Split sep s).length = s.count sep + 1 := by
  induction s with
  | nil => rfl
  | cons c cs ih =>
    by_cases hc : c = sep
    · simp [Split, hc, ih]
    · have hc2 : ¬ sep = c := fun e => hc e.symm
      simp only [Split, hc, if_false]
      cases hs : Split sep cs with
      | nil => exact absurd hs (Split_ne_nil sep cs)
      | cons seg segs =>
        rw [hs] at ih
        simp only [List.length_cons] at ih ⊢
        rw [ih, List.count_cons]
        simp [hc]

theorem not_mem_of_mem_Split (sep : Byte) (s seg : List Byte) (h : seg ∈ Split sep s) :
    sep ∉ seg := by
  induction s generalizing seg with
  | nil =>
    simp only [Split, List.mem_singleton] at h
    simp [h]
  | cons c cs ih =>
    by_cases hc : c = sep
    · simp only [Split, hc, if_true, List.mem_cons] at h
      rcases h with rfl | h
      · simp
      · exact ih seg h
    · simp only [Split, hc, if_false] at h
      cases hs : Split sep cs with
      | nil => exact absurd hs (Split_ne_nil sep cs)
      | cons seg0 segs =>
        rw [hs] at h ih
        simp only [List.mem_cons] at h
        rcases h with rfl | h
        · have h0 := ih seg0 (by simp)
          have hc2 : ¬ sep = c := fun e => hc e.symm
          simp [hc2, h0]
        · exact ih seg (by simp [h])

theorem Decode_eq_none (dst src : List Byte) : Decode dst src = none ↔ decodeLoop src [] = none := by
  simp [Decode]

theorem deserializeLoop_nil_segment (rest : List (List Byte)) (acc : List HTTPHeader) :
    deserializeLoop ([] :: rest) acc = deserializeLoop rest acc := by
  simp [deserializeLoop]

theorem deserializeLoop_ok_segment (seg : List Byte) (rest : List (List Byte))
    (acc : List HTTPHeader) (hne : seg ≠ []) (hok : segmentOk seg) :
    ∃ entry, deserializeLoop (seg :: rest) acc = deserializeLoop rest (acc ++ [entry]) := by
  obtain ⟨h2, hn, hv⟩ := hok
  have hlen : seg.length ≠ 0 := by simpa [List.length_eq_zero] using hne
  obtain ⟨n, hn2⟩ := Option.ne_none_iff_exists'.mp hn
  obtain ⟨v, hv2⟩ := Option.ne_none_iff_exists'.mp hv
  refine ⟨HTTPHeader.mk
    (n ++ (List.replicate (DecodedLen ((Split 58 seg).getD 0 []).length) 0).drop n.length)
    (v ++ (List.replicate (DecodedLen ((Split 58 seg).getD 1 []).length) 0).drop v.length), ?_⟩
  simp only [deserializeLoop, hlen, if_false, h2, ne_eq, not_true_eq_false, Decode, hn2, hv2,
    Option.map_some']

theorem deserializeLoop_bad_segment (seg : List Byte) (rest : List (List Byte))
    (acc : List HTTPHeader) (hne : seg ≠ []) (hbad : ¬ segmentOk seg) :
    ∃ e, deserializeLoop (seg :: rest) acc = ([], some e) := by
  have hlen : seg.length ≠ 0 := by simpa [List.length_eq_zero] using hne
  by_cases h2 : (Split 58 seg).length = 2
  · cases hn : decodeLoop ((Split 58 seg).getD 0 []) [] with
    | none =>
      exact ⟨HeaderError.corruptInput, by
        simp only [deserializeLoop, hlen, if_false, h2, ne_eq, not_true_eq_false, Decode, hn,
          Option.map_none']⟩
    | some n =>
      cases hv : decodeLoop ((Split 58 seg).getD 1 []) [] with
      | none =>
        exact ⟨HeaderError.corruptInput, by
          simp only [deserializeLoop, hlen, if_false, h2, ne_eq, not_true_eq_false, Decode, hn,
            hv, Option.map_none', Option.map_some']⟩
      | some v =>
        exact absurd ⟨h2, by rw [hn]; exact Option.some_ne_none n,
          by rw [hv]; exact Option.some_ne_none v⟩ hbad
  · exact ⟨HeaderError.unableToDeserialize, by simp [deserializeLoop, hlen, h2]⟩

theorem deserializeLoop_error (segs : List (List Byte)) (acc : List HTTPHeader)
    (seg : List Byte) (hmem : seg ∈ segs) (hne : seg ≠ []) (hbad : ¬ segmentOk seg) :
    ∃ e, deserializeLoop segs acc = ([], some e) := by
  induction segs generalizing acc with
  | nil => simp at hmem
  | cons x rest ih =>
    by_cases hx : x = []
    · subst hx
      rw [deserializeLoop_nil_segment]
      rcases List.mem_cons.mp hmem with h | h
      · exact absurd h hne
      · exact ih acc h
    · by_cases hok : segmentOk x
      · obtain ⟨entry, hstep⟩ := deserializeLoop_ok_segment x rest acc hx hok
        rw [hstep]
        rcases List.mem_cons.mp hmem with h | h
        · exact absurd (h ▸ hok) hbad
        · exact ih _ h
      · exact deserializeLoop_bad_segment x rest acc hx hok

theorem deserializeLoop_success (segs : List (List Byte)) (acc : List HTTPHeader)
    (hall : ∀ seg ∈ segs, seg ≠ [] → segmentOk seg) :
    ∃ out, deserializeLoop segs acc = (acc ++ out, none) := by
  induction segs generalizing acc with
  | nil => exact ⟨[], by simp [deserializeLoop]⟩
  | cons x rest ih =>
    have hrest : ∀ seg ∈ rest, seg ≠ [] → segmentOk seg :=
      fun seg h => hall seg (List.mem_cons_of_mem _ h)
    by_cases hx : x = []
    · subst hx
      rw [deserializeLoop_nil_segment]
      exact ih acc hrest
    · obtain ⟨entry, hstep⟩ :=
        deserializeLoop_ok_segment x rest acc hx (hall x (List.mem_cons_self _ _) hx)
      obtain ⟨out, hout⟩ := ih (acc ++ [entry]) hrest
      exact ⟨entry :: out, by rw [hstep, hout]; simp⟩

theorem deserializeLoop_filter (segs : List (List Byte)) (acc : List HTTPHeader) :
    deserializeLoop (segs.filter (fun seg => decide (seg ≠ []))) acc =
      deserializeLoop segs acc := by
  induction segs generalizing acc with
  | nil => rfl
  | cons x rest ih =>
    by_cases hx : x = []
    · subst hx
      rw [List.filter_cons_of_neg (by simp), deserializeLoop_nil_segment]
      exact ih acc
    · have hlen : x.length ≠ 0 := by simpa [List.length_eq_zero] using hx
      rw [List.filter_cons_of_pos (by simpa using hx)]
      simp only [deserializeLoop, hlen, if_false]
      split
      · rfl
      · split
        · rfl
        · split
          · rfl
          · exact ih _

theorem decodeLoop_bad_byte (src : List Byte) (dbuf : List Nat) (c : Byte) (hc : c ∈ src)
    (h1 : c ∉ encodeStd) (h2 : c ≠ 10) (h3 : c ≠ 13) : decodeLoop src dbuf = none := by
  induction src generalizing dbuf with
  | nil => simp at hc
  | cons x xs ih =>
    by_cases hxc : c = x
    · subst hxc
      simp [decodeLoop, decodeMap, h1, h2, h3]
    · have hxs : c ∈ xs := by
        rcases List.mem_cons.mp hc with h | h
        · exact absurd h hxc
        · exact h
      simp only [decodeLoop]
      split
      · split
        · rw [ih [] hxs]
          rfl
        · exact ih _ hxs
      · split
        · exact ih _ hxs
        · rfl

theorem not_segmentOk_of_count (seg : List Byte) (h : seg.count 58 ≠ 1) : ¬ segmentOk seg := by
  intro hok
  have h2 := hok.1
  rw [Split_length] at h2
  omega

theorem deserializeLoop_all_empty (segs : List (List Byte)) (acc : List HTTPHeader)
    (hall : ∀ seg ∈ segs, seg = []) : deserializeLoop segs acc = (acc, none) := by
  induction segs with
  | nil => simp [deserializeLoop]
  | cons x rest ih =>
    have hx : x = [] := hall x (List.mem_cons_self _ _)
    subst hx
    rw [deserializeLoop_nil_segment]
    exact ih (fun seg h => hall seg (List.mem_cons_of_mem _ h))

theorem Split_replicate_sep (sep : Byte) (n : Nat) :
    ∀ seg ∈ Split sep (List.replicate n sep), seg = [] := by
  induction n with
  | zero => simp [Split]
  | succ n ih =>
    intro seg hseg
    simp only [List.replicate_succ, Split, if_true, List.mem_cons] at hseg
    rcases hseg with h | h
    · exact h
    · exact ih seg h

theorem DeserializeHeaders_error_or_ok (s : List Byte) :
    (∃ e, DeserializeHeaders s = ([], some e)) ∨ ∃ out, DeserializeHeaders s = (out, none) := by
  by_cases hall : ∀ seg ∈ Split 59 s, seg ≠ [] → segmentOk seg
  · obtain ⟨out, hout⟩ := deserializeLoop_success (Split 59 s) [] hall
    exact Or.inr ⟨out, by simpa [DeserializeHeaders] using hout⟩
  · push_neg at hall
    obtain ⟨seg, hmem, hne, hbad⟩ := hall
    exact Or.inl (deserializeLoop_error (Split 59 s) [] seg hmem hne hbad)

theorem exists_bad_segment_of_error (s : List Byte) (h : (DeserializeHeaders s).2 ≠ none) :
    ∃ seg ∈ Split 59 s, seg ≠ [] ∧ ¬ segmentOk seg := by
  by_contra hno
  push_neg at hno
  obtain ⟨out, hout⟩ := deserializeLoop_success (Split 59 s) [] hno
  exact h (by simp [DeserializeHeaders, hout])

/-! ### The header codec -/

/-- C1: whatever order `range` visits the map in, deserializing the serialized headers
succeeds and returns a list whose multiset of (Name, Value) pairs is the multiset of
the (name, value) occurrences of the header map. -/
theorem roundtrip_multiset (h order : Header) (hperm : order.Perm h) :
    ∃ out : List HTTPHeader,
      DeserializeHeaders (SerializeHeaders order) = (out, none) ∧
        (out : Multiset HTTPHeader) = (occurrences h : Multiset HTTPHeader) :=
  ⟨occurrences order, Deserialize_Serialize order,
    Multiset.coe_eq_coe.mpr (occurrences_perm h order hperm)⟩

/-- The round trip at a map with a repeated value, a name and a value that hold the
delimiters, an empty value and a name without values, visited in reverse order. -/
theorem roundtrip_multiset_witness :
    ∃ out : List HTTPHeader,
      DeserializeHeaders (SerializeHeaders
          [(bytes ":c", [[]]), (bytes "x", []), (bytes "a", [bytes "a", bytes "b;", bytes "a"])])
        = (out, none) ∧
        (out : Multiset HTTPHeader) =
          (occurrences
            [(bytes "a", [bytes "a", bytes "b;", bytes "a"]), (bytes "x", []), (bytes ":c", [[]])] :
            Multiset HTTPHeader) :=
  roundtrip_multiset _ _ (by decide)

/-- C2: the serialized text is the strings `b64(name) + ":" + b64(value)`, one per
occurrence in visiting order (the values of a name in slice order), joined with `";"`;
it is empty for the empty map and for a map whose names carry no value. -/
theorem SerializeHeaders_is_joined_pairs (h : Header) :
    SerializeHeaders h =
        Join [59] ((occurrences h).map (fun p => Encode p.Name ++ [58] ++ Encode p.Value)) ∧
      SerializeHeaders [] = [] ∧
      ∀ names : List (List Byte), SerializeHeaders (names.map (fun n => (n, []))) = [] := by
  refine ⟨SerializeHeaders_eq_Join h, rfl, ?_⟩
  intro names
  rw [SerializeHeaders_eq_Join]
  have : occurrences (names.map (fun n => (n, []))) = [] := by
    induction names with
    | nil => rfl
    | cons n ns ih => simp [occurrences]
  rw [this]
  rfl

/-- C3: with `n` occurrences, every byte of the serialized text is a base64 character,
`':'` or `';'`; there are exactly `n` bytes `':'` and `n - 1` bytes `';'`; the text
neither begins nor ends with `';'`, and unless it is empty none of its `';'`-separated
segments is empty. -/
theorem SerializeHeaders_delimiters (h : Header) :
    (∀ c ∈ SerializeHeaders h, c ∈ encodeStd ∨ c = 58 ∨ c = 59) ∧
      (SerializeHeaders h).count 58 = (occurrences h).length ∧
      (SerializeHeaders h).count 59 = (occurrences h).length - 1 ∧
      (SerializeHeaders h).head? ≠ some 59 ∧
      (SerializeHeaders h).getLast? ≠ some 59 ∧
      (SerializeHeaders h = [] ∨ [] ∉ Split 59 (SerializeHeaders h)) := by
  have hfree : ∀ x ∈ (occurrences h).map pairString, (59 : Byte) ∉ x := by
    intro x hx
    obtain ⟨q, _, rfl⟩ := List.mem_map.mp hx
    exact semicolon_not_mem_pairString q
  have hseg : SerializeHeaders h = [] ∨ [] ∉ Split 59 (SerializeHeaders h) := by
    rw [SerializeHeaders_eq_Join]
    cases hocc : occurrences h with
    | nil => exact Or.inl rfl
    | cons p ps =>
      right
      rw [← hocc, Split_Join 59 _ (by simp [hocc]) hfree]
      intro hmem
      obtain ⟨q, _, hq⟩ := List.mem_map.mp hmem
      exact pairString_ne_nil q hq
  refine ⟨?_, ?_, ?_, ?_, ?_, hseg⟩
  · intro c hc
    rw [SerializeHeaders_eq_Join] at hc
    rcases mem_Join _ _ c hc with hsep | ⟨x, hx, hcx⟩
    · exact Or.inr (Or.inr (by simpa using hsep))
    · obtain ⟨q, _, rfl⟩ := List.mem_map.mp hx
      simp only [pairString, List.mem_append, List.mem_singleton] at hcx
      rcases hcx with (hcx | hcx) | hcx
      · exact Or.inl (Encode_mem _ c hcx)
      · exact Or.inr (Or.inl hcx)
      · exact Or.inl (Encode_mem _ c hcx)
  · rw [SerializeHeaders_eq_Join, count_Join_other 59 58 (by decide)]
    · simp
    · intro x hx
      obtain ⟨q, _, rfl⟩ := List.mem_map.mp hx
      exact count_colon_pairString q
  · rw [SerializeHeaders_eq_Join, count_Join_sep 59 _ hfree]
    simp
  · intro hhead
    rcases hseg with hnil | hno
    · simp [hnil] at hhead
    · cases hs : SerializeHeaders h with
      | nil => simp [hs] at hhead
      | cons c cs =>
        rw [hs] at hhead hno
        have hc : c = 59 := by simpa using hhead
        exact hno (by simp [Split, hc])
  · intro hlast
    rcases hseg with hnil | hno
    · simp [hnil] at hlast
    · obtain ⟨init, hinit⟩ : ∃ init, SerializeHeaders h = init ++ [59] := by
        rcases List.getLast?_eq_some_iff.mp hlast with ⟨init, hinit⟩
        exact ⟨init, hinit⟩
      rw [hinit, Split_append_sep] at hno
      exact hno (by simp [Split])

/-- C4: a non-empty `';'`-separated segment whose number of `':'` is not exactly one
makes `DeserializeHeaders` return an error, whatever the other segments are. -/
theorem colon_count_error (s seg : List Byte) (hseg : seg ∈ Split 59 s) (hne : seg ≠ [])
    (hcolon : seg.count 58 ≠ 1) : ∃ e, (DeserializeHeaders s).2 = some e := by
  obtain ⟨e, he⟩ :=
    deserializeLoop_error (Split 59 s) [] seg hseg hne (not_segmentOk_of_count seg hcolon)
  exact ⟨e, by simp [DeserializeHeaders, he]⟩

/-- The strings `"abc"` (no colon) and `"YQ:YQ;YQ==:YQ==:extra"` (a well-formed segment,
then one with two colons) are rejected. -/
theorem colon_count_error_witness :
    (∃ e, (DeserializeHeaders (bytes "abc")).2 = some e) ∧
      ∃ e, (DeserializeHeaders (bytes "YQ:YQ;YQ==:YQ==:extra")).2 = some e :=
  ⟨colon_count_error (bytes "abc") (bytes "abc") (by decide) (by decide) (by decide),
    colon_count_error (bytes "YQ:YQ;YQ==:YQ==:extra") (bytes "YQ==:YQ==:extra") (by decide)
      (by decide) (by decide)⟩

/-- C5, as stated, fails: the segment `"YQ\n:YQ"` has exactly one `':'` and its name half
holds the line feed, a byte outside the alphabet, yet the call succeeds (the decoder skips
line feeds; the name returned is `"a"` followed by the unused byte of its buffer). -/
theorem line_feed_is_accepted :
    bytes "YQ" ++ [10] ++ bytes ":YQ" ∈ Split 59 (bytes "YQ" ++ [10] ++ bytes ":YQ") ∧
      (bytes "YQ" ++ [10] ++ bytes ":YQ").count 58 = 1 ∧
      (10 : Byte) ∈ bytes "YQ" ++ [10] ∧ (10 : Byte) ∉ encodeStd ∧
      DeserializeHeaders (bytes "YQ" ++ [10] ++ bytes ":YQ") =
        ([HTTPHeader.mk (bytes "a" ++ [0]) (bytes "a")], none) := by
  decide

/-- C5, amended: a segment `name ++ ":" ++ value` with one `':'` whose name half or value
half holds a byte that is neither of the alphabet nor `'\n'` nor `'\r'` makes
`DeserializeHeaders` return an error. -/
theorem corrupt_byte_error (s name value : List Byte) (c : Byte)
    (hseg : name ++ 58 :: value ∈ Split 59 s) (hname : (58 : Byte) ∉ name)
    (hvalue : (58 : Byte) ∉ value) (hc : c ∈ name ∨ c ∈ value) (halpha : c ∉ encodeStd)
    (hlf : c ≠ 10) (hcr : c ≠ 13) : ∃ e, (DeserializeHeaders s).2 = some e := by
  have hsplit : Split 58 (name ++ 58 :: value) = [name, value] := by
    rw [Split_append_sep, Split_of_not_mem _ _ hname, Split_of_not_mem _ _ hvalue]
    rfl
  have hbad : ¬ segmentOk (name ++ 58 :: value) := by
    intro hok
    rw [segmentOk, hsplit] at hok
    rcases hc with hc | hc
    · exact hok.2.1 (decodeLoop_bad_byte name [] c hc halpha hlf hcr)
    · exact hok.2.2 (decodeLoop_bad_byte value [] c hc halpha hlf hcr)
  obtain ⟨e, he⟩ := deserializeLoop_error (Split 59 s) [] _ hseg (by simp) hbad
  exact ⟨e, by simp [DeserializeHeaders, he]⟩

/-- The padded form `"YQ==:YQ"` is rejected: `'='` is not of the alphabet. -/
theorem corrupt_byte_error_witness :
    ∃ e, (DeserializeHeaders (bytes "YQ==:YQ")).2 = some e :=
  corrupt_byte_error (bytes "YQ==:YQ") (bytes "YQ==") (bytes "YQ") 61 (by decide) (by decide)
    (by decide) (by decide) (by decide) (by decide) (by decide)

/-- C6: when `DeserializeHeaders` returns an error the slice it returns is nil; a string
accepted by `DeserializeHeaders`, followed by `';'` and a string it rejects, gives the
error and no entry. -/
theorem error_returns_nil :
    (∀ s : List Byte, (DeserializeHeaders s).2 ≠ none → (DeserializeHeaders s).1 = []) ∧
      ∀ p m : List Byte, (DeserializeHeaders p).2 = none → (DeserializeHeaders m).2 ≠ none →
        ∃ e, DeserializeHeaders (p ++ 59 :: m) = ([], some e) := by
  constructor
  · intro s hs
    rcases DeserializeHeaders_error_or_ok s with ⟨e, he⟩ | ⟨out, hout⟩
    · simp [he]
    · exact absurd (by simp [hout]) hs
  · intro p m _ hm
    obtain ⟨seg, hmem, hne, hbad⟩ := exists_bad_segment_of_error m hm
    unfold DeserializeHeaders
    rw [Split_append_sep]
    exact deserializeLoop_error _ [] seg (List.mem_append_right _ hmem) hne hbad

/-- Two well-formed pairs followed by a malformed segment: no entry is returned. -/
theorem error_returns_nil_witness :
    (DeserializeHeaders (bytes "YQ:YQ;Yg:Yg")).2 = none ∧
      (DeserializeHeaders (bytes "abc")).2 ≠ none ∧
      ∃ e, DeserializeHeaders (bytes "YQ:YQ;Yg:Yg" ++ 59 :: bytes "abc") = ([], some e) :=
  ⟨by decide, by decide,
    error_returns_nil.2 (bytes "YQ:YQ;Yg:Yg") (bytes "abc") (by decide) (by decide)⟩

/-- C7: `DeserializeHeaders` gives the same result on a string and on the string with its
empty `';'`-separated segments removed; on the empty string and on a string made only of
`';'` it returns no entry and no error. -/
theorem skips_empty_segments :
    (∀ s : List Byte, DeserializeHeaders s =
        DeserializeHeaders (Join [59] ((Split 59 s).filter (fun seg => decide (seg ≠ []))))) ∧
      DeserializeHeaders [] = ([], none) ∧
      ∀ n : Nat, DeserializeHeaders (List.replicate n 59) = ([], none) := by
  refine ⟨?_, rfl, ?_⟩
  · intro s
    cases hf : (Split 59 s).filter (fun seg => decide (seg ≠ [])) with
    | nil =>
      have h1 := deserializeLoop_filter (Split 59 s) []
      rw [hf] at h1
      simp only [DeserializeHeaders, Join, Split, deserializeLoop_nil_segment]
      exact h1.symm
    | cons x rest =>
      have hfree : ∀ y ∈ x :: rest, (59 : Byte) ∉ y := by
        intro y hy
        rw [← hf] at hy
        exact not_mem_of_mem_Split 59 s y (List.mem_filter.mp hy).1
      unfold DeserializeHeaders
      rw [Split_Join 59 _ (by simp) hfree, ← hf]
      exact (deserializeLoop_filter (Split 59 s) []).symm
  · intro n
    exact deserializeLoop_all_empty _ [] (Split_replicate_sep 59 n)

/-- C8, as stated, fails: `"YQ:YQ; "` is rejected, its last segment `" "` being neither
empty nor trimmed. -/
theorem space_segment_is_rejected :
    bytes " " ∈ Split 59 (bytes "YQ:YQ; ") ∧ (∀ c ∈ bytes " ", isSpace c = true) ∧
      DeserializeHeaders (bytes "YQ:YQ; ") = ([], some HeaderError.unableToDeserialize) := by
  decide

/-- C8, amended: only segments of length zero are skipped; a non-empty segment made only
of white space is not trimmed, and `DeserializeHeaders` returns an error and no entry. -/
theorem whitespace_segment_error (s seg : List Byte) (hseg : seg ∈ Split 59 s)
    (hne : seg ≠ []) (hws : ∀ c ∈ seg, isSpace c = true) :
    ∃ e, DeserializeHeaders s = ([], some e) := by
  have hcolon : (58 : Byte) ∉ seg := by
    intro h
    have h58 := hws 58 h
    revert h58
    decide
  have hcount : seg.count 58 ≠ 1 := by
    rw [List.count_eq_zero.mpr hcolon]
    decide
  exact deserializeLoop_error (Split 59 s) [] seg hseg hne (not_segmentOk_of_count seg hcount)

/-- The string `"YQ:YQ; "`, whose last segment is one space. -/
theorem whitespace_segment_error_witness :
    ∃ e, DeserializeHeaders (bytes "YQ:YQ; ") = ([], some e) :=
  whitespace_segment_error (bytes "YQ:YQ; ") (bytes " ") (by decide) (by decide) (by decide)

/-! ### The connection tracker -/

theorem foldl_count_eq (l : List (Fin 256)) (ct : ConnTracker) (a : Nat) :
    l.foldl
      (fun active i =>
        match ct.connectionInfo i with
        | some ci => if ci.IsConnected then active + 1 else active
        | none => active) a = a + l.countP (fun i => ct.isConnectedAt i) := by
  induction l generalizing a with
  | nil => simp
  | cons x xs ih =>
    rw [List.foldl_cons, ih, List.countP_cons]
    cases hx : ct.connectionInfo x with
    | none => simp [ConnTracker.isConnectedAt, hx]
    | some ci =>
      cases hci : ci.IsConnected
      · simp [ConnTracker.isConnectedAt, hx, hci]
      · simp only [ConnTracker.isConnectedAt, hx, hci, if_true]
        generalize List.countP _ xs = n
        show a + 1 + n = a + (n + 1)
        omega

theorem CountActiveConns_eq_countP (ct : ConnTracker) :
    ct.CountActiveConns = (List.finRange 256).countP (fun i => ct.isConnectedAt i) := by
  simp [ConnTracker.CountActiveConns, foldl_count_eq]

theorem OnTunnelEvent_recognized (ct : ConnTracker) (e : Event)
    (h : e.EventType.recognized = true) :
    ct.OnTunnelEvent e =
      Except.ok ⟨fun j => if j = e.Index then slotAfter (ct.connectionInfo e.Index) e
        else ct.connectionInfo j, ct.log⟩ := by
  obtain ⟨idx, t, p⟩ := e
  cases t <;>
    first
    | rfl
    | simp [Status.recognized] at h

theorem OnTunnelEvent_logged (ct : ConnTracker) (e : Event) (lines : Logger)
    (h : e.EventType.recognized = false) (hl : ct.log = some lines) :
    ct.OnTunnelEvent e = Except.ok ⟨ct.connectionInfo, some (lines ++ [e])⟩ := by
  obtain ⟨idx, t, p⟩ := e
  cases t <;>
    first
    | (simp [Status.recognized] at h; done)
    | simp [ConnTracker.OnTunnelEvent, hl]

theorem OnTunnelEvent_nil_logger (ct : ConnTracker) (e : Event)
    (h : e.EventType.recognized = false) (hl : ct.log = none) :
    ct.OnTunnelEvent e = Except.error Panic.nilPointerDereference := by
  obtain ⟨idx, t, p⟩ := e
  cases t <;>
    first
    | (simp [Status.recognized] at h; done)
    | simp [ConnTracker.OnTunnelEvent, hl]

theorem slotAfter_unrecognized (old : Option ConnectionInfo) (e : Event)
    (h : e.EventType.recognized = false) : slotAfter old e = old := by
  obtain ⟨idx, t, p⟩ := e
  cases t <;>
    first
    | rfl
    | simp [Status.recognized] at h

theorem OnTunnelEvent_ok (ct : ConnTracker) (e : Event) (ct1 : ConnTracker)
    (h : ct.OnTunnelEvent e = Except.ok ct1) :
    (∀ i, ct1.connectionInfo i =
        if e.Index = i then slotAfter (ct.connectionInfo i) e else ct.connectionInfo i) ∧
      (ct1.log = none ↔ ct.log = none) := by
  cases hr : e.EventType.recognized with
  | true =>
    rw [OnTunnelEvent_recognized ct e hr] at h
    have h1 := Except.ok.inj h
    subst h1
    refine ⟨fun i => ?_, Iff.rfl⟩
    by_cases hi : e.Index = i
    · subst hi
      simp
    · have hi2 : ¬ i = e.Index := fun x => hi x.symm
      simp [hi, hi2]
  | false =>
    cases hl : ct.log with
    | none =>
      rw [OnTunnelEvent_nil_logger ct e hr hl] at h
      cases h
    | some lines =>
      rw [OnTunnelEvent_logged ct e lines hr hl] at h
      have h1 := Except.ok.inj h
      subst h1
      refine ⟨fun i => ?_, by simp⟩
      simp [slotAfter_unrecognized _ e hr]

theorem OnTunnelEvent_returns (ct : ConnTracker) (e : Event)
    (h : ct.log ≠ none ∨ e.EventType.recognized = true) :
    ∃ ct1, ct.OnTunnelEvent e = Except.ok ct1 := by
  cases hr : e.EventType.recognized with
  | true => exact ⟨_, OnTunnelEvent_recognized ct e hr⟩
  | false =>
    cases hl : ct.log with
    | none =>
      rcases h with h | h
      · exact absurd hl h
      · rw [hr] at h
        cases h
    | some lines => exact ⟨_, OnTunnelEvent_logged ct e lines hr hl⟩

theorem OnTunnelEvents_ok (events : List Event) (ct ct1 : ConnTracker)
    (h : ct.OnTunnelEvents events = Except.ok ct1) :
    (∀ i, ct1.connectionInfo i = slotAfterAll i events (ct.connectionInfo i)) ∧
      (ct1.log = none ↔ ct.log = none) := by
  induction events generalizing ct with
  | nil =>
    have h1 := Except.ok.inj h
    subst h1
    exact ⟨fun i => rfl, Iff.rfl⟩
  | cons e es ih =>
    simp only [ConnTracker.OnTunnelEvents] at h
    cases he : ct.OnTunnelEvent e with
    | error p =>
      rw [he] at h
      cases h
    | ok ct2 =>
      rw [he] at h
      obtain ⟨hmap, hlog⟩ := OnTunnelEvent_ok ct e ct2 he
      obtain ⟨hmap2, hlog2⟩ := ih ct2 h
      refine ⟨fun i => ?_, hlog2.trans hlog⟩
      rw [hmap2 i, hmap i]
      simp only [slotAfterAll, List.foldl_cons]

theorem OnTunnelEvents_returns (events : List Event) (ct : ConnTracker)
    (h : ct.log ≠ none ∨ ∀ e ∈ events, e.EventType.recognized = true) :
    ∃ ct1, ct.OnTunnelEvents events = Except.ok ct1 := by
  induction events generalizing ct with
  | nil => exact ⟨ct, rfl⟩
  | cons e es ih =>
    obtain ⟨ct2, he⟩ := OnTunnelEvent_returns ct e
      (h.imp id (fun hall => hall e (List.mem_cons_self _ _)))
    have hlog := (OnTunnelEvent_ok ct e ct2 he).2
    obtain ⟨ct3, h3⟩ := ih ct2
      (h.imp (fun hne hc => hne (hlog.mp hc))
        (fun hall x hx => hall x (List.mem_cons_of_mem _ hx)))
    exact ⟨ct3, by simp only [ConnTracker.OnTunnelEvents, he, h3]⟩

theorem OnTunnelEvents_nil_logger (events : List Event) (ct : ConnTracker)
    (hl : ct.log = none) (h : ∃ e ∈ events, e.EventType.recognized = false) :
    ct.OnTunnelEvents events = Except.error Panic.nilPointerDereference := by
  induction events generalizing ct with
  | nil =>
    obtain ⟨e, he, _⟩ := h
    cases he
  | cons e es ih =>
    simp only [ConnTracker.OnTunnelEvents]
    cases hr : e.EventType.recognized with
    | false => rw [OnTunnelEvent_nil_logger ct e hr hl]
    | true =>
      rw [OnTunnelEvent_recognized ct e hr]
      simp only
      apply ih
      · exact hl
      · obtain ⟨x, hx, hxr⟩ := h
        rcases List.mem_cons.mp hx with rfl | hx
        · rw [hr] at hxr
          cases hxr
        · exact ⟨x, hx, hxr⟩

theorem OnTunnelEvents_append (es1 es2 : List Event) (ct : ConnTracker) :
    ct.OnTunnelEvents (es1 ++ es2) =
      match ct.OnTunnelEvents es1 with
      | Except.ok ct1 => ct1.OnTunnelEvents es2
      | Except.error p => Except.error p := by
  induction es1 generalizing ct with
  | nil => rfl
  | cons e es ih =>
    simp only [List.cons_append, ConnTracker.OnTunnelEvents]
    cases he : ct.OnTunnelEvent e with
    | error p => rfl
    | ok ct2 => exact ih ct2

theorem slotAfterAll_append (i : Fin 256) (es1 es2 : List Event)
    (old : Option ConnectionInfo) :
    slotAfterAll i (es1 ++ es2) old = slotAfterAll i es2 (slotAfterAll i es1 old) := by
  simp [slotAfterAll, List.foldl_append]

theorem isConnected_slotAfter (old : Option ConnectionInfo) (e : Event) :
    (match slotAfter old e with
      | some ci => ci.IsConnected
      | none => false) =
      if e.EventType.recognized = true then decide (e.EventType = Status.Connected)
      else
        match old with
        | some ci => ci.IsConnected
        | none => false := by
  obtain ⟨idx, t, p⟩ := e
  cases t <;> simp [slotAfter, Status.recognized]

theorem isConnected_slotAfterAll (i : Fin 256) (events : List Event) :
    (match slotAfterAll i events none with
      | some ci => ci.IsConnected
      | none => false) = decide (lastRecognized i events = some Status.Connected) := by
  induction events using List.reverseRecOn with
  | nil => simp [slotAfterAll, lastRecognized]
  | append_singleton es e ih =>
    have hlast : lastRecognized i (es ++ [e]) =
        if e.Index = i ∧ e.EventType.recognized = true then some e.EventType
        else lastRecognized i es := by
      simp [lastRecognized]
    rw [slotAfterAll_append, hlast]
    by_cases hi : e.Index = i
    · have h1 : slotAfterAll i [e] (slotAfterAll i es none) =
          slotAfter (slotAfterAll i es none) e := by
        simp [slotAfterAll, hi]
      rw [h1, isConnected_slotAfter, ih]
      by_cases hr : e.EventType.recognized = true
      · simp [hi, hr]
      · simp [hi, hr]
    · have h1 : slotAfterAll i [e] (slotAfterAll i es none) = slotAfterAll i es none := by
        simp [slotAfterAll, hi]
      rw [h1, ih]
      simp [hi]

theorem isConnectedAt_runEvents (log : Option Logger) (events : List Event)
    (ct : ConnTracker) (h : runEvents log events = Except.ok ct) (i : Fin 256) :
    ct.isConnectedAt i = decide (lastRecognized i events = some Status.Connected) := by
  have hmap := (OnTunnelEvents_ok events (NewConnTracker log) ct h).1 i
  rw [← isConnected_slotAfterAll i events]
  simp only [ConnTracker.isConnectedAt, hmap, NewConnTracker]

theorem CountActiveConns_of_runEvents (log : Option Logger) (events : List Event)
    (ct : ConnTracker) (h : runEvents log events = Except.ok ct) :
    ct.CountActiveConns =
      (List.finRange 256).countP
        (fun i => decide (lastRecognized i events = some Status.Connected)) := by
  rw [CountActiveConns_eq_countP]
  congr 1
  funext i
  exact isConnectedAt_runEvents log events ct h i

theorem runEvents_returns (log : Option Logger) (events : List Event)
    (h : log ≠ none ∨ ∀ e ∈ events, e.EventType.recognized = true) :
    ∃ ct, runEvents log events = Except.ok ct :=
  OnTunnelEvents_returns events (NewConnTracker log) h

/-- C9: after a Connected event slot `i` holds `{IsConnected: true, Protocol: p}` with
the protocol of the event; after a Disconnected, Reconnecting, RegisteringTunnel or
Unregistering event it holds `IsConnected = false` and the protocol that
`ct.connectionInfo[i]` read before the event (the zero value when the slot had no entry),
whatever protocol the event carries. In each case the call returns. -/
theorem OnTunnelEvent_slot (ct : ConnTracker) (i : Fin 256) (p : Protocol) :
    (∃ ct1, ct.OnTunnelEvent ⟨i, Status.Connected, p⟩ = Except.ok ct1 ∧
        ct1.connectionInfo i = some ⟨true, p⟩) ∧
      ∀ t : Status,
        t ∈ [Status.Disconnected, Status.Reconnecting, Status.RegisteringTunnel,
          Status.Unregistering] →
        ∃ ct1, ct.OnTunnelEvent ⟨i, t, p⟩ = Except.ok ct1 ∧
          ct1.connectionInfo i = some ⟨false, (ct.lookup i).Protocol⟩ := by
  constructor
  · exact ⟨_, rfl, by simp [ConnTracker.store]⟩
  · intro t ht
    simp only [List.mem_cons, List.mem_singleton, List.not_mem_nil, or_false] at ht
    rcases ht with rfl | rfl | rfl | rfl <;>
      exact ⟨_, rfl, by simp [ConnTracker.store]⟩

/-- C10: after any sequence of events applied one at a time to a fresh tracker,
`CountActiveConns` is the number of slot indices whose most recent recognized event is
Connected; the sequence is applied, no call panicking, when the tracker has a logger or
every event is of a recognized type. The count is 0 for the empty sequence, and
Connected(1), Connected(2), Reconnecting(2), RegisteringTunnel(1) gives 2, then 1, then 0. -/
theorem CountActiveConns_runEvents (log : Option Logger) (events : List Event) :
    ((log ≠ none ∨ ∀ e ∈ events, e.EventType.recognized = true) →
        ∃ ct, runEvents log events = Except.ok ct ∧
          ct.CountActiveConns =
            (List.finRange 256).countP
              (fun i => decide (lastRecognized i events = some Status.Connected))) ∧
      (∀ ct, runEvents log events = Except.ok ct →
        ct.CountActiveConns =
          (List.finRange 256).countP
            (fun i => decide (lastRecognized i events = some Status.Connected))) ∧
      (∃ ct, runEvents log [] = Except.ok ct ∧ ct.CountActiveConns = 0) ∧
      (∃ ct, runEvents log [⟨1, Status.Connected, 0⟩, ⟨2, Status.Connected, 0⟩] =
          Except.ok ct ∧ ct.CountActiveConns = 2) ∧
      (∃ ct, runEvents log [⟨1, Status.Connected, 0⟩, ⟨2, Status.Connected, 0⟩,
          ⟨2, Status.Reconnecting, 0⟩] = Except.ok ct ∧ ct.CountActiveConns = 1) ∧
      (∃ ct, runEvents log [⟨1, Status.Connected, 0⟩, ⟨2, Status.Connected, 0⟩,
          ⟨2, Status.Reconnecting, 0⟩, ⟨1, Status.RegisteringTunnel, 0⟩] = Except.ok ct ∧
        ct.CountActiveConns = 0) := by
  have hcount := CountActiveConns_of_runEvents log
  refine ⟨?_, hcount events, ?_, ?_, ?_, ?_⟩
  · intro h
    obtain ⟨ct, hct⟩ := runEvents_returns log events h
    exact ⟨ct, hct, hcount events ct hct⟩
  · exact ⟨_, rfl, by rw [hcount [] _ rfl]; decide⟩
  · exact ⟨_, rfl, by
      rw [hcount [⟨1, Status.Connected, 0⟩, ⟨2, Status.Connected, 0⟩] _ rfl]; decide⟩
  · exact ⟨_, rfl, by
      rw [hcount [⟨1, Status.Connected, 0⟩, ⟨2, Status.Connected, 0⟩,
        ⟨2, Status.Reconnecting, 0⟩] _ rfl]; decide⟩
  · exact ⟨_, rfl, by
      rw [hcount [⟨1, Status.Connected, 0⟩, ⟨2, Status.Connected, 0⟩,
        ⟨2, Status.Reconnecting, 0⟩, ⟨1, Status.RegisteringTunnel, 0⟩] _ rfl]; decide⟩

theorem HasConnectedWith_iff (ct : ConnTracker) (p : Protocol) :
    ct.HasConnectedWith p = true ↔
      ∃ i ci, ct.connectionInfo i = some ci ∧ ci.Protocol = p := by
  simp only [ConnTracker.HasConnectedWith, List.any_eq_true, List.mem_finRange, true_and]
  constructor
  · rintro ⟨i, hi⟩
    cases hci : ct.connectionInfo i with
    | none => simp [hci] at hi
    | some ci => exact ⟨i, ci, hci, by simpa [hci] using hi⟩
  · rintro ⟨i, ci, hci, hp⟩
    exact ⟨i, by simp [hci, hp]⟩

theorem protocol_kept_by_disconnect (old : Option ConnectionInfo) (e : Event)
    (p : Protocol) (he : e.EventType ≠ Status.Connected)
    (hslot : ∃ ci, old = some ci ∧ ci.Protocol = p) :
    ∃ ci, slotAfter old e = some ci ∧ ci.Protocol = p := by
  obtain ⟨ci, hci, hp⟩ := hslot
  obtain ⟨idx, t, q⟩ := e
  cases t <;> simp_all [slotAfter]

theorem protocol_kept_by_disconnects (events : List Event) (slot : Fin 256)
    (old : Option ConnectionInfo) (p : Protocol)
    (hall : ∀ e ∈ events, e.EventType ≠ Status.Connected)
    (hslot : ∃ ci, old = some ci ∧ ci.Protocol = p) :
    ∃ ci, slotAfterAll slot events old = some ci ∧ ci.Protocol = p := by
  induction events generalizing old with
  | nil => exact hslot
  | cons e es ih =>
    simp only [slotAfterAll, List.foldl_cons]
    apply ih _ (fun x hx => hall x (List.mem_cons_of_mem _ hx))
    split
    · exact protocol_kept_by_disconnect old e p (hall e (List.mem_cons_self _ _)) hslot
    · exact hslot

/-- C11: `HasConnectedWith(p)` is true exactly when some slot has an entry whose
`Protocol` is `p`, whatever its `IsConnected` flag; after Connected(slot, p) and then any
number of Disconnected, Reconnecting, RegisteringTunnel or Unregistering events on any
slots, all of which return, it is still true. -/
theorem HasConnectedWith_spec (ct : ConnTracker) (p : Protocol) :
    (ct.HasConnectedWith p = true ↔
        ∃ i ci, ct.connectionInfo i = some ci ∧ ci.Protocol = p) ∧
      ∀ (slot : Fin 256) (events : List Event),
        (∀ e ∈ events, e.EventType ∈ [Status.Disconnected, Status.Reconnecting,
          Status.RegisteringTunnel, Status.Unregistering]) →
        ∃ ct1 ct2, ct.OnTunnelEvent ⟨slot, Status.Connected, p⟩ = Except.ok ct1 ∧
          ct1.OnTunnelEvents events = Except.ok ct2 ∧ ct2.HasConnectedWith p = true := by
  refine ⟨HasConnectedWith_iff ct p, ?_⟩
  intro slot events hall
  have hne : ∀ e ∈ events, e.EventType ≠ Status.Connected := by
    intro e he hc
    have := hall e he
    rw [hc] at this
    revert this
    decide
  have hrec : ∀ e ∈ events, e.EventType.recognized = true := by
    intro e he
    have := hall e he
    simp only [List.mem_cons, List.mem_singleton, List.not_mem_nil, or_false] at this
    rcases this with h | h | h | h <;> rw [h] <;> rfl
  obtain ⟨ct2, h2⟩ := OnTunnelEvents_returns events (ct.store slot ⟨true, p⟩) (Or.inr hrec)
  refine ⟨ct.store slot ⟨true, p⟩, ct2, rfl, h2, ?_⟩
  rw [HasConnectedWith_iff]
  obtain ⟨ci, hci, hp⟩ := protocol_kept_by_disconnects events slot
    ((ct.store slot ⟨true, p⟩).connectionInfo slot) p hne
    ⟨⟨true, p⟩, by simp [ConnTracker.store], rfl⟩
  exact ⟨slot, ci, by rw [(OnTunnelEvents_ok events _ ct2 h2).1 slot]; exact hci, hp⟩

/-- The state-machine test of the specification: after Connected(1, 7) and
Reconnecting(1) no connection is active and `HasConnectedWith(7)` is still true, also
when other slots disconnect and register meanwhile. -/
theorem HasConnectedWith_spec_witness :
    (∃ ct, runEvents none [⟨1, Status.Connected, 7⟩, ⟨1, Status.Reconnecting, 0⟩] =
        Except.ok ct ∧ ct.CountActiveConns = 0) ∧
      ∃ ct1 ct2, (NewConnTracker none).OnTunnelEvent ⟨1, Status.Connected, 7⟩ = Except.ok ct1 ∧
        ct1.OnTunnelEvents [⟨1, Status.Reconnecting, 0⟩, ⟨2, Status.Disconnected, 3⟩,
          ⟨1, Status.Unregistering, 4⟩, ⟨9, Status.RegisteringTunnel, 0⟩] = Except.ok ct2 ∧
        ct2.HasConnectedWith 7 = true :=
  ⟨⟨_, rfl, by decide⟩, (HasConnectedWith_spec (NewConnTracker none) 7).2 1 _ (by decide)⟩

/-- C12, evaluated on the code: after a lone RegisteringTunnel event on slot 0 of a fresh
tracker `HasConnectedWith(0)` is true although the sequence holds no Connected event; and
after Connected(1, 5), Connected(1, 7) `HasConnectedWith(5)` is false although the sequence
holds a Connected event with protocol 5. -/
theorem HasConnectedWith_not_ever_connected :
    (∃ ct, runEvents (some []) [⟨0, Status.RegisteringTunnel, 0⟩] = Except.ok ct ∧
        ct.HasConnectedWith 0 = true) ∧
      everConnectedWith 0 [⟨0, Status.RegisteringTunnel, 0⟩] = false ∧
      (∃ ct, runEvents (some []) [⟨1, Status.Connected, 5⟩, ⟨1, Status.Connected, 7⟩] =
          Except.ok ct ∧ ct.HasConnectedWith 5 = false) ∧
      everConnectedWith 5 [⟨1, Status.Connected, 5⟩, ⟨1, Status.Connected, 7⟩] = true :=
  ⟨⟨_, rfl, by decide⟩, by decide, ⟨_, rfl, by decide⟩, by decide⟩

/-- C13, as stated, fails: on a tracker built with a nil logger, `NewConnTracker(nil)`,
an event of an unknown type reaches `ct.log.Error()`, and the call panics instead of
returning. -/
theorem OnTunnelEvent_nil_logger_panics :
    (⟨0, Status.Other 9, 0⟩ : Event).EventType ∉ [Status.Connected, Status.Disconnected,
        Status.Reconnecting, Status.RegisteringTunnel, Status.Unregistering] ∧
      (NewConnTracker none).OnTunnelEvent ⟨0, Status.Other 9, 0⟩ =
        Except.error Panic.nilPointerDereference :=
  ⟨by decide, rfl⟩

/-- C13, amended: for an event whose type is none of Connected, Disconnected,
Reconnecting, RegisteringTunnel, Unregistering: on a tracker whose logger is not nil
`OnTunnelEvent` returns, leaves the whole connection map as it was and hands the event to
the logger; on a tracker whose logger is nil the call panics; and whenever the call
returns the connection map is the one before it. -/
theorem OnTunnelEvent_unrecognized (ct : ConnTracker) (c : Event)
    (h1 : c.EventType ≠ Status.Connected) (h2 : c.EventType ≠ Status.Disconnected)
    (h3 : c.EventType ≠ Status.Reconnecting) (h4 : c.EventType ≠ Status.RegisteringTunnel)
    (h5 : c.EventType ≠ Status.Unregistering) :
    (∀ lines : Logger, ct.log = some lines →
        ct.OnTunnelEvent c = Except.ok ⟨ct.connectionInfo, some (lines ++ [c])⟩) ∧
      (ct.log = none → ct.OnTunnelEvent c = Except.error Panic.nilPointerDereference) ∧
      (ct.log ≠ none → ∃ ct1, ct.OnTunnelEvent c = Except.ok ct1 ∧
        ct1.connectionInfo = ct.connectionInfo) := by
  have hr : c.EventType.recognized = false := by
    obtain ⟨idx, t, p⟩ := c
    cases t <;> simp_all [Status.recognized]
  refine ⟨fun lines hl => OnTunnelEvent_logged ct c lines hr hl,
    fun hl => OnTunnelEvent_nil_logger ct c hr hl, ?_⟩
  intro hl
  cases hlog : ct.log with
  | none => exact absurd hlog hl
  | some lines => exact ⟨_, OnTunnelEvent_logged ct c lines hr hlog, rfl⟩

/-- An event of an unknown type on a tracker with a logger and one connected slot: the
call returns, the slot of the event gets no entry, the connected slot keeps its entry and
the logger holds the event. -/
theorem OnTunnelEvent_unrecognized_witness :
    ConnTracker.OnTunnelEvent ⟨fun j => if j = 1 then some ⟨true, 1⟩ else none, some []⟩
        ⟨2, Status.Other 3, 0⟩ =
      Except.ok ⟨fun j => if j = 1 then some ⟨true, 1⟩ else none,
        some [⟨2, Status.Other 3, 0⟩]⟩ :=
  (OnTunnelEvent_unrecognized ⟨fun j => if j = 1 then some ⟨true, 1⟩ else none, some []⟩
    ⟨2, Status.Other 3, 0⟩ (by decide) (by decide) (by decide) (by decide) (by decide)).1 []
    rfl

/-! ### The readiness endpoint -/

theorem ReadyServer_OnTunnelEvents (events : List Event) (rs : ReadyServer) :
    rs.OnTunnelEvents events =
      match rs.tracker.OnTunnelEvents events with
      | Except.ok tracker => Except.ok { rs with tracker := tracker }
      | Except.error p => Except.error p := by
  induction events generalizing rs with
  | nil => rfl
  | cons e es ih =>
    simp only [ReadyServer.OnTunnelEvents, ConnTracker.OnTunnelEvents,
      ReadyServer.OnTunnelEvent]
    cases he : rs.tracker.OnTunnelEvent e with
    | error p => rfl
    | ok t => exact ih _

theorem ServeHTTP_congr (rs1 rs2 : ReadyServer)
    (h : rs1.tracker.connectionInfo = rs2.tracker.connectionInfo) :
    rs1.ServeHTTP.Code = rs2.ServeHTTP.Code ∧
      rs1.ServeHTTP.ReadyConnections = rs2.ServeHTTP.ReadyConnections := by
  have hc : rs1.tracker.CountActiveConns = rs2.tracker.CountActiveConns := by
    simp [ConnTracker.CountActiveConns, h]
  simp only [ReadyServer.ServeHTTP, hc]
  split <;> simp

theorem runReadinessTest_congr (steps : List (Event × Bool × Nat))
    (hrec : ∀ st ∈ steps, st.1.EventType.recognized = true) (rs1 rs2 : ReadyServer)
    (h : rs1.tracker.connectionInfo = rs2.tracker.connectionInfo) :
    runReadinessTest rs1 steps = runReadinessTest rs2 steps := by
  induction steps generalizing rs1 rs2 with
  | nil => rfl
  | cons st rest ih =>
    obtain ⟨e, ok, n⟩ := st
    have hr : e.EventType.recognized = true := hrec (e, ok, n) (List.mem_cons_self _ _)
    have hrest : ∀ st ∈ rest, st.1.EventType.recognized = true :=
      fun x hx => hrec x (List.mem_cons_of_mem _ hx)
    simp only [runReadinessTest, ReadyServer.OnTunnelEvent, OnTunnelEvent_recognized _ e hr]
    have h1 : ∀ rs : ReadyServer, ({ rs with tracker := ⟨fun j => if j = e.Index then
        slotAfter (rs.tracker.connectionInfo e.Index) e else rs.tracker.connectionInfo j,
        rs.tracker.log⟩ } : ReadyServer).tracker.connectionInfo =
        fun j => if j = e.Index then slotAfter (rs.tracker.connectionInfo e.Index) e
          else rs.tracker.connectionInfo j := fun _ => rfl
    have h2 := (h1 rs1).trans ((by rw [h] : _ = _).trans (h1 rs2).symm)
    obtain ⟨hc, hn⟩ := ServeHTTP_congr _ _ h2
    rw [hc, hn, ih hrest _ _ h2]

/-- C14: after any sequence of events, applied when the tracker has a logger or every
event is of a recognized type, the readiness endpoint reports HTTP 200 exactly when
`CountActiveConns() > 0`, and reports `CountActiveConns()` as the number of ready
connections; a fresh tracker is not ready and reports 0; the steps of
`TestReadinessEventHandling` pass. -/
theorem readiness_reports_active_conns (clientID : Nat) (log : Option Logger)
    (events : List Event) :
    ((log ≠ none ∨ ∀ e ∈ events, e.EventType.recognized = true) →
        ∃ rs, (NewReadyServer clientID (NewConnTracker log)).OnTunnelEvents events =
            Except.ok rs ∧
          runEvents log events = Except.ok rs.tracker ∧
          (rs.ServeHTTP.Code = 200 ↔ 0 < rs.tracker.CountActiveConns) ∧
          rs.ServeHTTP.ReadyConnections = rs.tracker.CountActiveConns) ∧
      (NewReadyServer clientID (NewConnTracker log)).ServeHTTP.Code ≠ 200 ∧
      (NewReadyServer clientID (NewConnTracker log)).ServeHTTP.ReadyConnections = 0 ∧
      runReadinessTest (NewReadyServer clientID (NewConnTracker log)) readinessTestSteps =
        true := by
  have hfresh : (NewReadyServer clientID (NewConnTracker log)).tracker.CountActiveConns = 0 := by
    show (NewConnTracker log).CountActiveConns = 0
    rw [CountActiveConns_of_runEvents log [] _ rfl]
    decide
  have hserve : ∀ rs : ReadyServer, (rs.ServeHTTP.Code = 200 ↔ 0 < rs.tracker.CountActiveConns) ∧
      rs.ServeHTTP.ReadyConnections = rs.tracker.CountActiveConns := by
    intro rs
    simp only [ReadyServer.ServeHTTP]
    split <;> simp_all
  refine ⟨?_, ?_, ?_, ?_⟩
  · intro h
    obtain ⟨ct, hct⟩ := runEvents_returns log events h
    refine ⟨⟨clientID, ct⟩, ?_, hct, hserve _⟩
    rw [ReadyServer_OnTunnelEvents]
    have hct2 : (NewReadyServer clientID (NewConnTracker log)).tracker.OnTunnelEvents events =
        Except.ok ct := hct
    rw [hct2]
    rfl
  · simp [ReadyServer.ServeHTTP, hfresh]
  · simp [ReadyServer.ServeHTTP, hfresh]
  · rw [runReadinessTest_congr readinessTestSteps (by decide)
      (NewReadyServer clientID (NewConnTracker log)) ⟨0, NewConnTracker none⟩ rfl]
    decide

/-! ### The stream server -/

theorem Serve_of_data (s : TunnellinkServer) (sigs : Signatures)
    (dp : ReadWriteCloser → Except Error ProtocolSignature × ReadWriteCloser) (run : RPCRun)
    (ctx : Context) (stream after : ReadWriteCloser)
    (h : dp stream = (Except.ok sigs.dataStreamProtocolSignature, after)) :
    s.Serve sigs dp run ctx stream =
      (s.handleRequest ctx after, [ServerStep.handleRequest ctx after]) := by
  simp [TunnellinkServer.Serve, h]

theorem determineProtocol_reads_signature (sigs : Signatures) (rest : List Byte) (err : Error) :
    determineProtocol sigs ⟨sigs.dataStreamProtocolSignature ++ rest, err⟩ =
      (Except.ok sigs.dataStreamProtocolSignature, ⟨rest, err⟩) := by
  simp [determineProtocol]

/-- C15: when `determineProtocol` returns the data-stream signature, `Serve` invokes
`handleRequest` once, with the stream as `determineProtocol` left it, takes no step of the
RPC path and returns what the handler returns; with the classification read of section
4.2 the handler receives the stream without its signature bytes. -/
theorem Serve_data_stream (s : TunnellinkServer) (sigs : Signatures)
    (dp : ReadWriteCloser → Except Error ProtocolSignature × ReadWriteCloser) (run : RPCRun)
    (ctx : Context) (stream after : ReadWriteCloser)
    (h : dp stream = (Except.ok sigs.dataStreamProtocolSignature, after)) :
    s.Serve sigs dp run ctx stream =
        (s.handleRequest ctx after, [ServerStep.handleRequest ctx after]) ∧
      ∀ (rest : List Byte) (err : Error),
        s.Serve sigs (determineProtocol sigs) run ctx
            ⟨sigs.dataStreamProtocolSignature ++ rest, err⟩ =
          (s.handleRequest ctx ⟨rest, err⟩, [ServerStep.handleRequest ctx ⟨rest, err⟩]) :=
  ⟨Serve_of_data s sigs dp run ctx stream after h, fun rest err =>
    Serve_of_data s sigs _ run ctx _ _ (determineProtocol_reads_signature sigs rest err)⟩

/-- A data stream carrying `"GET"` after its signature, served by a handler that fails
with code 3 on a non-empty stream: the handler is invoked once, on `"GET"`, and its error
is returned. -/
theorem Serve_data_stream_witness :
    exampleServer.Serve exampleSignatures (determineProtocol exampleSignatures)
        ⟨0, SelectCase.ctxDone, none, none⟩ ⟨none⟩
        ⟨[10, 54, 205, 18, 161, 62] ++ bytes "GET", Error.external 1⟩ =
      (some (Error.external 3),
        [ServerStep.handleRequest ⟨none⟩ ⟨bytes "GET", Error.external 1⟩]) :=
  (Serve_data_stream exampleServer exampleSignatures (determineProtocol exampleSignatures)
    ⟨0, SelectCase.ctxDone, none, none⟩ ⟨none⟩
    ⟨[10, 54, 205, 18, 161, 62] ++ bytes "GET", Error.external 1⟩
    ⟨bytes "GET", Error.external 1⟩ (by rfl)).1

/-- C16: when `determineProtocol` returns an error `Serve` returns that error, and when
it returns a signature that is neither the data-stream nor the RPC signature `Serve`
returns the unknown-protocol error; in both cases no handler is invoked and no step of
the RPC path is taken. -/
theorem Serve_classification_failure (s : TunnellinkServer) (sigs : Signatures)
    (dp : ReadWriteCloser → Except Error ProtocolSignature × ReadWriteCloser) (run : RPCRun)
    (ctx : Context) (stream : ReadWriteCloser) :
    (∀ (err : Error) (after : ReadWriteCloser), dp stream = (Except.error err, after) →
        s.Serve sigs dp run ctx stream = (some err, [])) ∧
      ∀ (signature : ProtocolSignature) (after : ReadWriteCloser),
        dp stream = (Except.ok signature, after) →
        signature ≠ sigs.dataStreamProtocolSignature →
        signature ≠ sigs.rpcStreamProtocolSignature →
        s.Serve sigs dp run ctx stream = (some (Error.unknownProtocol signature), []) := by
  constructor
  · intro err after h
    simp [TunnellinkServer.Serve, h]
  · intro signature after h hd hr
    simp [TunnellinkServer.Serve, h, hd, hr]

/-- A stream that closes after three bytes gives the read error, and a stream that begins
with six bytes of no known signature gives the unknown-protocol error; neither reaches a
handler. -/
theorem Serve_classification_failure_witness :
    exampleServer.Serve exampleSignatures (determineProtocol exampleSignatures)
        ⟨0, SelectCase.ctxDone, none, none⟩ ⟨none⟩ ⟨[10, 54, 205], Error.external 1⟩ =
      (some (Error.external 1), []) ∧
    exampleServer.Serve exampleSignatures (determineProtocol exampleSignatures)
        ⟨0, SelectCase.ctxDone, none, none⟩ ⟨none⟩ ⟨bytes "GET / HTTP", Error.external 1⟩ =
      (some (Error.unknownProtocol (bytes "GET / ")), []) :=
  ⟨(Serve_classification_failure exampleServer exampleSignatures
      (determineProtocol exampleSignatures) ⟨0, SelectCase.ctxDone, none, none⟩ ⟨none⟩
      ⟨[10, 54, 205], Error.external 1⟩).1 (Error.external 1) ⟨[], Error.external 1⟩ (by rfl),
    (Serve_classification_failure exampleServer exampleSignatures
      (determineProtocol exampleSignatures) ⟨0, SelectCase.ctxDone, none, none⟩ ⟨none⟩
      ⟨bytes "GET / HTTP", Error.external 1⟩).2 (bytes "GET / ")
      ⟨bytes "HTTP", Error.external 1⟩ (by rfl) (by decide) (by decide)⟩

/-- C17: on a stream classified as RPC, `Serve` returns nil whichever case of the `select`
proceeds, the completion of the RPC connection or the end of the context, and whatever
the deferred `Close` calls return; the data handler is not invoked. -/
theorem Serve_rpc_returns_nil (s : TunnellinkServer) (sigs : Signatures)
    (dp : ReadWriteCloser → Except Error ProtocolSignature × ReadWriteCloser) (run : RPCRun)
    (ctx : Context) (stream after : ReadWriteCloser)
    (h : dp stream = (Except.ok sigs.rpcStreamProtocolSignature, after))
    (hne : sigs.rpcStreamProtocolSignature ≠ sigs.dataStreamProtocolSignature) :
    (s.Serve sigs dp run ctx stream).1 = none ∧
      (s.Serve sigs dp run ctx stream).2 =
        [ServerStep.SafeTransport after, ServerStep.NewServerConn,
          ServerStep.select (WithTimeout ctx run.now s.responseTimeout) run.proceeds,
          ServerStep.rpcConnClose run.rpcConnClose,
          ServerStep.transportClose run.transportClose, ServerStep.cancel] := by
  simp [TunnellinkServer.Serve, TunnellinkServer.handleRPC, h, hne]

/-- An RPC stream whose connection completes while closing it fails, and an RPC stream
whose context ends: `Serve` returns nil both times. -/
theorem Serve_rpc_returns_nil_witness :
    (exampleServer.Serve exampleSignatures (determineProtocol exampleSignatures)
        ⟨0, SelectCase.rpcConnDone, some (Error.external 7), some (Error.external 8)⟩ ⟨none⟩
        ⟨[82, 187, 130, 92, 219, 101] ++ bytes "rpc", Error.external 1⟩).1 = none ∧
    (exampleServer.Serve exampleSignatures (determineProtocol exampleSignatures)
        ⟨0, SelectCase.ctxDone, none, none⟩ ⟨some 5⟩
        ⟨[82, 187, 130, 92, 219, 101] ++ bytes "rpc", Error.external 1⟩).1 = none :=
  ⟨(Serve_rpc_returns_nil exampleServer exampleSignatures (determineProtocol exampleSignatures)
      ⟨0, SelectCase.rpcConnDone, some (Error.external 7), some (Error.external 8)⟩ ⟨none⟩
      ⟨[82, 187, 130, 92, 219, 101] ++ bytes "rpc", Error.external 1⟩
      ⟨bytes "rpc", Error.external 1⟩ (by rfl) (by decide)).1,
    (Serve_rpc_returns_nil exampleServer exampleSignatures (determineProtocol exampleSignatures)
      ⟨0, SelectCase.ctxDone, none, none⟩ ⟨some 5⟩
      ⟨[82, 187, 130, 92, 219, 101] ++ bytes "rpc", Error.external 1⟩
      ⟨bytes "rpc", Error.external 1⟩ (by rfl) (by decide)).1⟩

/-! ### The RPC client -/

/-- C18: `NewTunnellinkClient` first hands exactly the RPC stream signature to
`stream.Write`; when the write reports an error that error is returned, and when it
reports a byte count other than the length of the signature an error is returned, in both
cases without a client and before any transport is built; a client is returned exactly
when the write reports the whole signature written and no error. -/
theorem NewTunnellinkClient_signature (sigs : Signatures)
    (write : List Byte → Int × Option Error) (ctx : Context) (requestTimeout : Int) :
    (NewTunnellinkClient sigs write ctx requestTimeout).2.2.head? =
        some (ClientStep.Write sigs.rpcStreamProtocolSignature) ∧
      (∀ e : Error, (write sigs.rpcStreamProtocolSignature).2 = some e →
        NewTunnellinkClient sigs write ctx requestTimeout =
          (none, some e, [ClientStep.Write sigs.rpcStreamProtocolSignature])) ∧
      (∀ n : Int, write sigs.rpcStreamProtocolSignature = (n, none) →
        n ≠ (sigs.rpcStreamProtocolSignature.length : Int) →
        NewTunnellinkClient sigs write ctx requestTimeout =
          (none, some (Error.shortWrite sigs.rpcStreamProtocolSignature.length n),
            [ClientStep.Write sigs.rpcStreamProtocolSignature])) ∧
      ((NewTunnellinkClient sigs write ctx requestTimeout).1.isSome = true ↔
        write sigs.rpcStreamProtocolSignature =
          ((sigs.rpcStreamProtocolSignature.length : Int), none)) ∧
      (write sigs.rpcStreamProtocolSignature =
          ((sigs.rpcStreamProtocolSignature.length : Int), none) →
        NewTunnellinkClient sigs write ctx requestTimeout =
          (some ⟨requestTimeout⟩, none,
            [ClientStep.Write sigs.rpcStreamProtocolSignature, ClientStep.SafeTransport,
              ClientStep.NewClientConn, ClientStep.Bootstrap ctx])) := by
  rcases hw : write sigs.rpcStreamProtocolSignature with ⟨n, err⟩
  cases err with
  | some e => simp [NewTunnellinkClient, hw]
  | none =>
    by_cases hn : n = (sigs.rpcStreamProtocolSignature.length : Int)
    · simp [NewTunnellinkClient, hw, hn]
    · simp [NewTunnellinkClient, hw, hn]

/-- A stream that takes the whole signature, one that reports an error, and one that
reports four of the six bytes written. -/
theorem NewTunnellinkClient_signature_witness :
    NewTunnellinkClient exampleSignatures (fun p => ((p.length : Int), none)) ⟨none⟩ 5 =
        (some ⟨5⟩, none,
          [ClientStep.Write [82, 187, 130, 92, 219, 101], ClientStep.SafeTransport,
            ClientStep.NewClientConn, ClientStep.Bootstrap ⟨none⟩]) ∧
      NewTunnellinkClient exampleSignatures (fun _ => (0, some (Error.external 9))) ⟨none⟩ 5 =
        (none, some (Error.external 9), [ClientStep.Write [82, 187, 130, 92, 219, 101]]) ∧
      NewTunnellinkClient exampleSignatures (fun _ => (4, none)) ⟨none⟩ 5 =
        (none, some (Error.shortWrite 6 4), [ClientStep.Write [82, 187, 130, 92, 219, 101]]) :=
  ⟨(NewTunnellinkClient_signature exampleSignatures (fun p => ((p.length : Int), none))
      ⟨none⟩ 5).2.2.2.2 (by rfl),
    (NewTunnellinkClient_signature exampleSignatures (fun _ => (0, some (Error.external 9)))
      ⟨none⟩ 5).2.1 (Error.external 9) (by rfl),
    (NewTunnellinkClient_signature exampleSignatures (fun _ => (4, none)) ⟨none⟩ 5).2.2.1 4
      (by rfl) (by decide)⟩

theorem WithTimeout_eq (parent : Context) (now timeout : Int) :
    WithTimeout parent now timeout = ⟨some (minDeadline parent.deadline (now + timeout))⟩ := by
  obtain ⟨deadline⟩ := parent
  cases deadline with
  | none => rfl
  | some cur =>
    simp only [WithTimeout, minDeadline]
    split
    · rename_i h
      rw [min_eq_left (le_of_lt h)]
    · rename_i h
      rw [min_eq_right (not_lt.mp h)]

/-- C19: each client operation hands to the underlying call a context whose deadline is
the earlier of the caller's deadline and `now + requestTimeout`, an absent caller deadline
counting as unbounded; that deadline is never later than the caller's. -/
theorem client_call_deadline {ρ σ : Type} (c : TunnellinkClient) (L : MetricLabels)
    (callR : Context → Nat → List Byte → Nat → Int → List Byte → ρ × Option Error)
    (callU : Context → Nat → List Byte → Option Error)
    (callC : Context → Int → List Byte → σ × Option Error)
    (clock : CallClock) (m : CapnpMetrics) (ctx : Context) (sessionID : Nat)
    (dstIP : List Byte) (dstPort : Nat) (closeIdleAfterHint : Int)
    (traceContext message : List Byte) (version : Int) (config : List Byte) :
    (c.RegisterUdpSession L callR clock m ctx sessionID dstIP dstPort closeIdleAfterHint
          traceContext).1 =
        callR ⟨some (minDeadline ctx.deadline (clock.now + c.requestTimeout))⟩ sessionID dstIP
          dstPort closeIdleAfterHint traceContext ∧
      (c.UnregisterUdpSession L callU clock m ctx sessionID message).1 =
        callU ⟨some (minDeadline ctx.deadline (clock.now + c.requestTimeout))⟩ sessionID
          message ∧
      (c.UpdateConfiguration L callC clock m ctx version config).1 =
        callC ⟨some (minDeadline ctx.deadline (clock.now + c.requestTimeout))⟩ version
          config ∧
      minDeadline ctx.deadline (clock.now + c.requestTimeout) ≤ clock.now + c.requestTimeout ∧
      ∀ d : Int, ctx.deadline = some d →
        minDeadline ctx.deadline (clock.now + c.requestTimeout) ≤ d := by
  refine ⟨?_, ?_, ?_, ?_, ?_⟩
  · simp only [TunnellinkClient.RegisterUdpSession, WithTimeout_eq]
  · simp only [TunnellinkClient.UnregisterUdpSession, WithTimeout_eq]
  · simp only [TunnellinkClient.UpdateConfiguration, WithTimeout_eq]
  · cases h : ctx.deadline with
    | none => simp [minDeadline]
    | some d => simp [minDeadline]
  · intro d hd
    simp [minDeadline, hd]

/-- Three calls at the instant 10 with a request timeout of 50: a caller deadline of 100
gives 60, a caller deadline of 30 stays 30, no caller deadline gives 60. The underlying
calls answer with the deadline of the context they receive. -/
theorem client_call_deadline_witness :
    ((TunnellinkClient.mk 50).RegisterUdpSession exampleLabels
        (fun ctx _ _ _ _ _ => (ctx.deadline, none)) ⟨10, 1⟩ emptyMetrics ⟨some 100⟩ 1 [] 53 30
        []).1 = (some 60, none) ∧
      ((TunnellinkClient.mk 50).UnregisterUdpSession exampleLabels
        (fun ctx _ _ => if ctx.deadline = some 30 then none else some (Error.external 1))
        ⟨10, 1⟩ emptyMetrics ⟨some 30⟩ 1 []).1 = none ∧
      ((TunnellinkClient.mk 50).UpdateConfiguration exampleLabels
        (fun ctx _ _ => (ctx.deadline, none)) ⟨10, 1⟩ emptyMetrics ⟨none⟩ 2 []).1 =
        (some 60, none) :=
  ⟨(@client_call_deadline (Option Int) (Option Int) (TunnellinkClient.mk 50) exampleLabels
      (fun ctx _ _ _ _ _ => (ctx.deadline, none))
      (fun ctx _ _ => if ctx.deadline = some 30 then none else some (Error.external 1))
      (fun ctx _ _ => (ctx.deadline, none)) ⟨10, 1⟩ emptyMetrics ⟨some 100⟩ 1 [] 53 30 [] []
      2 []).1,
    (@client_call_deadline (Option Int) (Option Int) (TunnellinkClient.mk 50)
      exampleLabels (fun ctx _ _ _ _ _ => (ctx.deadline, none))
      (fun ctx _ _ => if ctx.deadline = some 30 then none else some (Error.external 1))
      (fun ctx _ _ => (ctx.deadline, none)) ⟨10, 1⟩ emptyMetrics ⟨some 30⟩ 1 [] 53 30 [] []
      2 []).2.1,
    (@client_call_deadline (Option Int) (Option Int) (TunnellinkClient.mk 50) exampleLabels
      (fun ctx _ _ _ _ _ => (ctx.deadline, none))
      (fun ctx _ _ => if ctx.deadline = some 30 then none else some (Error.external 1))
      (fun ctx _ _ => (ctx.deadline, none)) ⟨10, 1⟩ emptyMetrics ⟨none⟩ 1 [] 53 30 [] []
      2 []).2.2.1⟩

theorem AttemptRecorded_steps (m : CapnpMetrics) (labels : List (List Byte))
    (err : Option Error) (elapsed : Int) :
    AttemptRecorded m
      (((if err ≠ none then m.incClientFailures labels else m).observeClientLatency labels
        elapsed).incClientOperations labels) labels err.isSome elapsed := by
  cases err with
  | none =>
    refine ⟨?_, ?_, ?_, ?_⟩
    · simp [CapnpMetrics.incClientOperations, CapnpMetrics.observeClientLatency]
    · simp [CapnpMetrics.incClientOperations, CapnpMetrics.observeClientLatency]
    · simp [CapnpMetrics.incClientOperations, CapnpMetrics.observeClientLatency]
    · intro l hl
      simp [CapnpMetrics.incClientOperations, CapnpMetrics.observeClientLatency, hl]
  | some e =>
    refine ⟨?_, ?_, ?_, ?_⟩
    · simp [CapnpMetrics.incClientOperations, CapnpMetrics.observeClientLatency,
        CapnpMetrics.incClientFailures]
    · simp [CapnpMetrics.incClientOperations, CapnpMetrics.observeClientLatency,
        CapnpMetrics.incClientFailures]
    · simp [CapnpMetrics.incClientOperations, CapnpMetrics.observeClientLatency,
        CapnpMetrics.incClientFailures]
    · intro l hl
      simp [CapnpMetrics.incClientOperations, CapnpMetrics.observeClientLatency,
        CapnpMetrics.incClientFailures, hl]

theorem OthersUnchanged_of_AttemptRecorded (before after : CapnpMetrics)
    (handler op : List Byte) (others : List (List Byte)) (failed : Bool) (elapsed : Int)
    (h : AttemptRecorded before after [handler, op] failed elapsed) (hop : op ∉ others) :
    OthersUnchanged before after handler others := by
  intro o ho
  have hne : [handler, o] ≠ [handler, op] := by
    intro heq
    have : o = op := by simpa using heq
    exact hop (this ▸ ho)
  exact h.2.2.2 _ hne

/-- C20: one attempt of a client operation counts one call and records one latency
observation under the labels of that operation, whether the underlying call fails or not,
and counts one failure under the same labels exactly when the underlying call returns an
error; every other counter, those of the two other operations among them, is unchanged. -/
theorem client_attempt_metrics {ρ σ : Type} (c : TunnellinkClient) (L : MetricLabels)
    (hnames : [L.OperationRegisterUdpSession, L.OperationUnregisterUdpSession,
      L.OperationUpdateConfiguration].Nodup)
    (callR : Context → Nat → List Byte → Nat → Int → List Byte → ρ × Option Error)
    (callU : Context → Nat → List Byte → Option Error)
    (callC : Context → Int → List Byte → σ × Option Error)
    (clock : CallClock) (m : CapnpMetrics) (ctx : Context) (sessionID : Nat)
    (dstIP : List Byte) (dstPort : Nat) (closeIdleAfterHint : Int)
    (traceContext message : List Byte) (version : Int) (config : List Byte) :
    (AttemptRecorded m
        (c.RegisterUdpSession L callR clock m ctx sessionID dstIP dstPort closeIdleAfterHint
          traceContext).2 [L.Tunnellink, L.OperationRegisterUdpSession]
        (c.RegisterUdpSession L callR clock m ctx sessionID dstIP dstPort closeIdleAfterHint
          traceContext).1.2.isSome clock.elapsed ∧
      OthersUnchanged m
        (c.RegisterUdpSession L callR clock m ctx sessionID dstIP dstPort closeIdleAfterHint
          traceContext).2 L.Tunnellink
        [L.OperationUnregisterUdpSession, L.OperationUpdateConfiguration]) ∧
    (AttemptRecorded m (c.UnregisterUdpSession L callU clock m ctx sessionID message).2
        [L.Tunnellink, L.OperationUnregisterUdpSession]
        (c.UnregisterUdpSession L callU clock m ctx sessionID message).1.isSome
        clock.elapsed ∧
      OthersUnchanged m (c.UnregisterUdpSession L callU clock m ctx sessionID message).2
        L.Tunnellink [L.OperationRegisterUdpSession, L.OperationUpdateConfiguration]) ∧
    (AttemptRecorded m (c.UpdateConfiguration L callC clock m ctx version config).2
        [L.Tunnellink, L.OperationUpdateConfiguration]
        (c.UpdateConfiguration L callC clock m ctx version config).1.2.isSome clock.elapsed ∧
      OthersUnchanged m (c.UpdateConfiguration L callC clock m ctx version config).2
        L.Tunnellink [L.OperationRegisterUdpSession, L.OperationUnregisterUdpSession]) := by
  simp only [List.nodup_cons, List.mem_cons, List.mem_singleton, List.not_mem_nil, or_false,
    not_or, List.nodup_nil, and_true, not_false_eq_true] at hnames
  obtain ⟨⟨hRU, hRC⟩, hUC⟩ := hnames
  have hR := AttemptRecorded_steps m [L.Tunnellink, L.OperationRegisterUdpSession]
    (callR (WithTimeout ctx clock.now c.requestTimeout) sessionID dstIP dstPort
      closeIdleAfterHint traceContext).2 clock.elapsed
  have hU := AttemptRecorded_steps m [L.Tunnellink, L.OperationUnregisterUdpSession]
    (callU (WithTimeout ctx clock.now c.requestTimeout) sessionID message) clock.elapsed
  have hC := AttemptRecorded_steps m [L.Tunnellink, L.OperationUpdateConfiguration]
    (callC (WithTimeout ctx clock.now c.requestTimeout) version config).2 clock.elapsed
  refine ⟨⟨hR, OthersUnchanged_of_AttemptRecorded _ _ _ _ _ _ _ hR ?_⟩,
    ⟨hU, OthersUnchanged_of_AttemptRecorded _ _ _ _ _ _ _ hU ?_⟩,
    ⟨hC, OthersUnchanged_of_AttemptRecorded _ _ _ _ _ _ _ hC ?_⟩⟩
  · simp [hRU, hRC]
  · simp [Ne.symm hRU, hUC]
  · simp [Ne.symm hRC, Ne.symm hUC]

/-- On an empty registry, an `UnregisterUdpSession` attempt that fails and lasts 7: one
call, one failure and the observation 7 under its own labels, nothing under the labels of
`RegisterUdpSession`; and a `RegisterUdpSession` attempt that succeeds: one call, no
failure. -/
theorem client_attempt_metrics_witness :
    (((TunnellinkClient.mk 50).UnregisterUdpSession exampleLabels
          (fun _ _ _ => some (Error.external 1)) ⟨10, 7⟩ emptyMetrics ⟨none⟩ 1 []).2.ClientOperations
        [exampleLabels.Tunnellink, exampleLabels.OperationUnregisterUdpSession] = 1 ∧
      ((TunnellinkClient.mk 50).UnregisterUdpSession exampleLabels
          (fun _ _ _ => some (Error.external 1)) ⟨10, 7⟩ emptyMetrics ⟨none⟩ 1 []).2.ClientLatency
        [exampleLabels.Tunnellink, exampleLabels.OperationUnregisterUdpSession] = [7] ∧
      ((TunnellinkClient.mk 50).UnregisterUdpSession exampleLabels
          (fun _ _ _ => some (Error.external 1)) ⟨10, 7⟩ emptyMetrics ⟨none⟩ 1 []).2.ClientFailures
        [exampleLabels.Tunnellink, exampleLabels.OperationUnregisterUdpSession] = 1) ∧
    ((TunnellinkClient.mk 50).UnregisterUdpSession exampleLabels
          (fun _ _ _ => some (Error.external 1)) ⟨10, 7⟩ emptyMetrics ⟨none⟩ 1 []).2.ClientOperations
        [exampleLabels.Tunnellink, exampleLabels.OperationRegisterUdpSession] = 0 ∧
    (((TunnellinkClient.mk 50).RegisterUdpSession exampleLabels
          (fun _ _ _ _ _ _ => ((), none)) ⟨10, 7⟩ emptyMetrics ⟨none⟩ 1 [] 53 30
          []).2.ClientOperations
        [exampleLabels.Tunnellink, exampleLabels.OperationRegisterUdpSession] = 1 ∧
      ((TunnellinkClient.mk 50).RegisterUdpSession exampleLabels
          (fun _ _ _ _ _ _ => ((), none)) ⟨10, 7⟩ emptyMetrics ⟨none⟩ 1 [] 53 30
          []).2.ClientFailures
        [exampleLabels.Tunnellink, exampleLabels.OperationRegisterUdpSession] = 0) :=
  have h := @client_attempt_metrics Unit Unit (TunnellinkClient.mk 50) exampleLabels
    (by decide) (fun _ _ _ _ _ _ => ((), none)) (fun _ _ _ => some (Error.external 1))
    (fun _ _ _ => ((), none)) ⟨10, 7⟩ emptyMetrics ⟨none⟩ 1 [] 53 30 [] [] 2 []
  ⟨⟨h.2.1.1.1, h.2.1.1.2.1, h.2.1.1.2.2.1⟩,
    (h.2.1.2 exampleLabels.OperationRegisterUdpSession (by decide)).1,
    ⟨h.1.1.1, h.1.1.2.2.1⟩⟩

/-! ### Closing the RPC client -/

/-- C21: every call of `TunnellinkClient.Close` closes the capability client, then the
`rpc.Conn`, then the transport, whatever the earlier `Close` calls return. -/
theorem Close_closes_all (c : TunnellinkClient) (run : CloseRun) :
    (c.Close run).2 =
      [CloseStep.ClientClose run.capabilityClose, CloseStep.ConnClose run.connClose,
        CloseStep.TransportClose run.transportClose] := by
  rfl

/-- C22, as stated, fails: when closing the RPC connection fails with an error,
`TunnellinkServer_PogsClient.Close` returns it, and `TunnellinkClient.Close` goes on to
close the transport and hands its caller nothing, the same empty result as when every
close succeeds. -/
theorem Close_surfaces_nothing :
    (TunnellinkServer_PogsClient.Close ⟨none, some (Error.external 1), none⟩).1 =
        some (Error.external 1) ∧
      (TunnellinkClient.mk 5).Close ⟨none, some (Error.external 1), none⟩ =
        ((), [CloseStep.ClientClose none, CloseStep.ConnClose (some (Error.external 1)),
          CloseStep.TransportClose none]) ∧
      ((TunnellinkClient.mk 5).Close ⟨none, some (Error.external 1), none⟩).1 =
        ((TunnellinkClient.mk 5).Close ⟨none, none, none⟩).1 := by
  decide

/-- C22, amended: `TunnellinkClient.Close` has no result and surfaces no close error:
what it hands its caller does not depend on what the three `Close` calls return;
`TunnellinkServer_PogsClient.Close` returns the error of `rpc.Conn.Close` and drops the
one of the capability client, and `TunnellinkClient.Close` discards both that error and
the error of the transport's `Close`. -/
theorem Close_discards_errors (c : TunnellinkClient) (run other : CloseRun) :
    (c.Close run).1 = (c.Close other).1 ∧
      (TunnellinkServer_PogsClient.Close run).1 = run.connClose ∧
      (c.Close run).2 =
        (TunnellinkServer_PogsClient.Close run).2 ++
          [CloseStep.TransportClose run.transportClose] := by
  exact ⟨rfl, rfl, rfl⟩

/-! ### The header predicates -/

theorem HasPrefix_iff (s pre : List Byte) :
    HasPrefix s pre = true ↔ ∃ rest, s = pre ++ rest := by
  simp only [HasPrefix, Bool.and_eq_true, decide_eq_true_eq]
  constructor
  · rintro ⟨_, h⟩
    have htd := List.take_append_drop pre.length s
    rw [h] at htd
    exact ⟨s.drop pre.length, htd.symm⟩
  · rintro ⟨rest, rfl⟩
    simp

/-- C23: `IsControlResponseHeader(name)` is true exactly when `name` starts with `":"`,
with `"cf-int-"` or with `"cf-tunnellink-"`, byte for byte; the three internal header
names are control headers and an upper-case `"CF-INT-"` name is not. -/
theorem IsControlResponseHeader_iff (name : List Byte) :
    (IsControlResponseHeader name = true ↔
        (∃ rest, name = bytes ":" ++ rest) ∨ (∃ rest, name = bytes "cf-int-" ++ rest) ∨
          ∃ rest, name = bytes "cf-tunnellink-" ++ rest) ∧
      IsControlResponseHeader RequestUserHeaders = true ∧
      IsControlResponseHeader ResponseUserHeaders = true ∧
      IsControlResponseHeader ResponseMetaHeader = true ∧
      IsControlResponseHeader (bytes "CF-INT-x") = false := by
  refine ⟨?_, by decide, by decide, by decide, by decide⟩
  simp only [IsControlResponseHeader, Bool.or_eq_true, HasPrefix_iff, or_assoc]

theorem IsWebsocketClientHeader_iff_aux (name : List Byte) :
    IsWebsocketClientHeader name = true ↔
      name = bytes "sec-websocket-accept" ∨ name = bytes "connection" ∨
        name = bytes "upgrade" := by
  simp only [IsWebsocketClientHeader, Bool.or_eq_true, decide_eq_true_eq, or_assoc]

/-- C24: `IsWebsocketClientHeader(name)` is true exactly when `name` is
`"sec-websocket-accept"`, `"connection"` or `"upgrade"`, and such a name is never a
control header. -/
theorem IsWebsocketClientHeader_iff (name : List Byte) :
    (IsWebsocketClientHeader name = true ↔
        name = bytes "sec-websocket-accept" ∨ name = bytes "connection" ∨
          name = bytes "upgrade") ∧
      (IsWebsocketClientHeader name = true → IsControlResponseHeader name = false) := by
  refine ⟨IsWebsocketClientHeader_iff_aux name, ?_⟩
  intro h
  rcases (IsWebsocketClientHeader_iff_aux name).mp h with rfl | rfl | rfl <;> decide

/-! ### Independence of slots and presence of entries -/

theorem slotAfterAll_swap (i : Fin 256) (e1 e2 : Event) (h : e1.Index ≠ e2.Index)
    (old : Option ConnectionInfo) :
    slotAfterAll i [e1, e2] old = slotAfterAll i [e2, e1] old := by
  simp only [slotAfterAll, List.foldl_cons, List.foldl_nil]
  by_cases h1 : e1.Index = i
  · have h2 : ¬ e2.Index = i := fun x => h (h1.trans x.symm)
    simp [h1, h2]
  · simp [h1]

theorem OnTunnelEvents_swap (ct : ConnTracker) (e1 e2 : Event) (h : e1.Index ≠ e2.Index) :
    (ct.OnTunnelEvents [e1, e2]).map (fun c => c.connectionInfo) =
      (ct.OnTunnelEvents [e2, e1]).map (fun c => c.connectionInfo) := by
  by_cases hret : ct.log ≠ none ∨ ∀ e ∈ [e1, e2], e.EventType.recognized = true
  · obtain ⟨ct12, h12⟩ := OnTunnelEvents_returns [e1, e2] ct hret
    obtain ⟨ct21, h21⟩ := OnTunnelEvents_returns [e2, e1] ct
      (hret.imp id (fun hall e he => hall e (by
        simp only [List.mem_cons, List.mem_singleton, List.not_mem_nil, or_false] at he ⊢
        exact he.symm)))
    rw [h12, h21]
    show Except.ok ct12.connectionInfo = Except.ok ct21.connectionInfo
    congr 1
    funext i
    rw [(OnTunnelEvents_ok _ ct ct12 h12).1 i, (OnTunnelEvents_ok _ ct ct21 h21).1 i]
    exact slotAfterAll_swap i e1 e2 h _
  · have hl : ct.log = none := by
      by_contra hne
      exact hret (Or.inl hne)
    have hun : ∃ e ∈ [e1, e2], e.EventType.recognized = false := by
      by_contra hno
      apply hret
      right
      intro e he
      cases hr : e.EventType.recognized with
      | true => rfl
      | false => exact absurd ⟨e, he, hr⟩ hno
    have hun2 : ∃ e ∈ [e2, e1], e.EventType.recognized = false := by
      obtain ⟨e, he, hr⟩ := hun
      refine ⟨e, ?_, hr⟩
      simp only [List.mem_cons, List.mem_singleton, List.not_mem_nil, or_false] at he ⊢
      exact he.symm
    rw [OnTunnelEvents_nil_logger _ ct hl hun, OnTunnelEvents_nil_logger _ ct hl hun2]

/-- C27: an event leaves the entry of every slot other than its own as it was, and two
events on different slots give the same connection map in either order; the calls
return when the tracker has a logger or the events are of a recognized type, and when a
call panics in one order, one panics in the other. -/
theorem OnTunnelEvent_independent (ct : ConnTracker) (e1 e2 : Event)
    (h : e1.Index ≠ e2.Index) :
    (∀ ct1, ct.OnTunnelEvent e1 = Except.ok ct1 →
        ∀ i : Fin 256, i ≠ e1.Index → ct1.connectionInfo i = ct.connectionInfo i) ∧
      ((ct.log ≠ none ∨ e1.EventType.recognized = true) →
        ∃ ct1, ct.OnTunnelEvent e1 = Except.ok ct1 ∧
          ct1.connectionInfo e2.Index = ct.connectionInfo e2.Index) ∧
      ((ct.log ≠ none ∨
          (e1.EventType.recognized = true ∧ e2.EventType.recognized = true)) →
        ∃ ct12 ct21, ct.OnTunnelEvents [e1, e2] = Except.ok ct12 ∧
          ct.OnTunnelEvents [e2, e1] = Except.ok ct21 ∧
          ct12.connectionInfo = ct21.connectionInfo) ∧
      (ct.OnTunnelEvents [e1, e2]).map (fun c => c.connectionInfo) =
        (ct.OnTunnelEvents [e2, e1]).map (fun c => c.connectionInfo) := by
  have hframe : ∀ ct1, ct.OnTunnelEvent e1 = Except.ok ct1 →
      ∀ i : Fin 256, i ≠ e1.Index → ct1.connectionInfo i = ct.connectionInfo i := by
    intro ct1 h1 i hi
    rw [(OnTunnelEvent_ok ct e1 ct1 h1).1 i, if_neg (fun x => hi x.symm)]
  refine ⟨hframe, ?_, ?_, OnTunnelEvents_swap ct e1 e2 h⟩
  · intro hret
    obtain ⟨ct1, h1⟩ := OnTunnelEvent_returns ct e1 hret
    exact ⟨ct1, h1, hframe ct1 h1 e2.Index (fun x => h x.symm)⟩
  · intro hret
    have hret1 : ct.log ≠ none ∨ ∀ e ∈ [e1, e2], e.EventType.recognized = true := by
      refine hret.imp id (fun hb e he => ?_)
      simp only [List.mem_cons, List.mem_singleton, List.not_mem_nil, or_false] at he
      rcases he with rfl | rfl
      · exact hb.1
      · exact hb.2
    have hret2 : ct.log ≠ none ∨ ∀ e ∈ [e2, e1], e.EventType.recognized = true := by
      refine hret.imp id (fun hb e he => ?_)
      simp only [List.mem_cons, List.mem_singleton, List.not_mem_nil, or_false] at he
      rcases he with rfl | rfl
      · exact hb.2
      · exact hb.1
    obtain ⟨ct12, h12⟩ := OnTunnelEvents_returns [e1, e2] ct hret1
    obtain ⟨ct21, h21⟩ := OnTunnelEvents_returns [e2, e1] ct hret2
    refine ⟨ct12, ct21, h12, h21, ?_⟩
    funext i
    rw [(OnTunnelEvents_ok _ ct ct12 h12).1 i, (OnTunnelEvents_ok _ ct ct21 h21).1 i]
    exact slotAfterAll_swap i e1 e2 h _

/-- Connected(1, 7) and Reconnecting(2) on a tracker where slot 2 is connected: either
order returns and leaves the same connection map. -/
theorem OnTunnelEvent_independent_witness :
    ∃ ct12 ct21,
      ConnTracker.OnTunnelEvents ⟨fun j => if j = 2 then some ⟨true, 3⟩ else none, none⟩
          [⟨1, Status.Connected, 7⟩, ⟨2, Status.Reconnecting, 0⟩] = Except.ok ct12 ∧
        ConnTracker.OnTunnelEvents ⟨fun j => if j = 2 then some ⟨true, 3⟩ else none, none⟩
          [⟨2, Status.Reconnecting, 0⟩, ⟨1, Status.Connected, 7⟩] = Except.ok ct21 ∧
        ct12.connectionInfo = ct21.connectionInfo :=
  (OnTunnelEvent_independent ⟨fun j => if j = 2 then some ⟨true, 3⟩ else none, none⟩
    ⟨1, Status.Connected, 7⟩ ⟨2, Status.Reconnecting, 0⟩ (by decide)).2.2.1
    (Or.inr ⟨rfl, rfl⟩)

theorem isSome_slotAfter (old : Option ConnectionInfo) (e : Event) :
    (slotAfter old e).isSome = (old.isSome || e.EventType.recognized) := by
  obtain ⟨idx, t, p⟩ := e
  cases t <;> simp [slotAfter, Status.recognized]

theorem isSome_slotAfterAll (i : Fin 256) (events : List Event)
    (old : Option ConnectionInfo) :
    (slotAfterAll i events old).isSome = true ↔
      (old.isSome = true ∨ ∃ e ∈ events, e.Index = i ∧ e.EventType.recognized = true) := by
  induction events generalizing old with
  | nil => simp [slotAfterAll]
  | cons e es ih =>
    have hstep : slotAfterAll i (e :: es) old =
        slotAfterAll i es (if e.Index = i then slotAfter old e else old) := rfl
    rw [hstep, ih]
    by_cases hi : e.Index = i
    · simp only [hi, if_true, isSome_slotAfter, Bool.or_eq_true, List.mem_cons]
      constructor
      · rintro ((ho | hr) | ⟨x, hx, hxi, hxr⟩)
        · exact Or.inl ho
        · exact Or.inr ⟨e, Or.inl rfl, hi, hr⟩
        · exact Or.inr ⟨x, Or.inr hx, hxi, hxr⟩
      · rintro (ho | ⟨x, hx | hx, hxi, hxr⟩)
        · exact Or.inl (Or.inl ho)
        · subst hx
          exact Or.inl (Or.inr hxr)
        · exact Or.inr ⟨x, hx, hxi, hxr⟩
    · simp only [hi, if_false, List.mem_cons]
      constructor
      · rintro (ho | ⟨x, hx, hxi, hxr⟩)
        · exact Or.inl ho
        · exact Or.inr ⟨x, Or.inr hx, hxi, hxr⟩
      · rintro (ho | ⟨x, hx | hx, hxi, hxr⟩)
        · exact Or.inl ho
        · subst hx
          exact absurd hxi hi
        · exact Or.inr ⟨x, hx, hxi, hxr⟩

theorem isSome_runEvents (log : Option Logger) (events : List Event) (ct : ConnTracker)
    (h : runEvents log events = Except.ok ct) (i : Fin 256) :
    (ct.connectionInfo i).isSome = true ↔
      ∃ e ∈ events, e.Index = i ∧ e.EventType.recognized = true := by
  rw [(OnTunnelEvents_ok events (NewConnTracker log) ct h).1 i, isSome_slotAfterAll]
  simp [NewConnTracker]

/-- C28: after any sequence of events on a fresh tracker, applied when the tracker has a
logger or every event is of a recognized type, the map holds an entry for slot `i`
exactly when the sequence holds a recognized event with index `i`; a fresh tracker holds
none, and no event removes an entry. -/
theorem entry_iff_observed (log : Option Logger) (events : List Event) (i : Fin 256) :
    ((log ≠ none ∨ ∀ e ∈ events, e.EventType.recognized = true) →
        ∃ ct, runEvents log events = Except.ok ct ∧
          ((ct.connectionInfo i).isSome = true ↔
            ∃ e ∈ events, e.Index = i ∧
              e.EventType ∈ [Status.Connected, Status.Disconnected, Status.Reconnecting,
                Status.RegisteringTunnel, Status.Unregistering])) ∧
      (∀ ct, runEvents log events = Except.ok ct →
        ((ct.connectionInfo i).isSome = true ↔
          ∃ e ∈ events, e.Index = i ∧
            e.EventType ∈ [Status.Connected, Status.Disconnected, Status.Reconnecting,
              Status.RegisteringTunnel, Status.Unregistering])) ∧
      (NewConnTracker log).connectionInfo i = none ∧
      ∀ (ct ct1 : ConnTracker) (e : Event), ct.OnTunnelEvent e = Except.ok ct1 →
        (ct.connectionInfo i).isSome = true → (ct1.connectionInfo i).isSome = true := by
  have hrec : ∀ t : Status, t.recognized = true ↔
      t ∈ [Status.Connected, Status.Disconnected, Status.Reconnecting,
        Status.RegisteringTunnel, Status.Unregistering] := by
    intro t
    cases t <;> simp [Status.recognized]
  have hiff : ∀ ct, runEvents log events = Except.ok ct →
      ((ct.connectionInfo i).isSome = true ↔
        ∃ e ∈ events, e.Index = i ∧
          e.EventType ∈ [Status.Connected, Status.Disconnected, Status.Reconnecting,
            Status.RegisteringTunnel, Status.Unregistering]) := by
    intro ct hct
    rw [isSome_runEvents log events ct hct i]
    constructor
    · rintro ⟨e, he, hi, hr⟩
      exact ⟨e, he, hi, (hrec _).mp hr⟩
    · rintro ⟨e, he, hi, hr⟩
      exact ⟨e, he, hi, (hrec _).mpr hr⟩
  refine ⟨?_, hiff, rfl, ?_⟩
  · intro hret
    obtain ⟨ct, hct⟩ := runEvents_returns log events hret
    exact ⟨ct, hct, hiff ct hct⟩
  · intro ct ct1 e h1 hsome
    rw [(OnTunnelEvent_ok ct e ct1 h1).1 i]
    split
    · rw [isSome_slotAfter, hsome]
      rfl
    · exact hsome

/-! ### What `DeserializeHeaders` returns on success -/

theorem deserializeLoop_entries (segs : List (List Byte)) (acc out : List HTTPHeader)
    (h : deserializeLoop segs acc = (out, none)) :
    ∃ entries, out = acc ++ entries ∧
      (segs.filter (fun seg => decide (seg ≠ []))).map segmentEntry = entries.map some := by
  induction segs generalizing acc with
  | nil =>
    simp only [deserializeLoop, Prod.mk.injEq, and_true] at h
    exact ⟨[], by simp [h]⟩
  | cons x rest ih =>
    by_cases hx : x = []
    · subst hx
      rw [deserializeLoop_nil_segment] at h
      rw [List.filter_cons_of_neg (by simp)]
      exact ih acc h
    · have hlen : x.length ≠ 0 := by simpa [List.length_eq_zero] using hx
      rw [List.filter_cons_of_pos (by simpa using hx)]
      simp only [deserializeLoop, hlen, if_false] at h
      split at h
      · simp at h
      · rename_i h2
        split at h
        · simp at h
        · rename_i name hname
          split at h
          · simp at h
          · rename_i value hvalue
            obtain ⟨entries, hout, hmap⟩ := ih _ h
            refine ⟨HTTPHeader.mk name value :: entries, by simpa using hout, ?_⟩
            have hseg : segmentEntry x = some ⟨name, value⟩ := by
              simp only [segmentEntry, h2, if_false, hname, hvalue]
            simp only [List.map_cons, hseg, hmap]

theorem Decode_length (src w : List Byte) (h : Decode (List.replicate (DecodedLen src.length) 0)
    src = some w) : w.length = DecodedLen src.length := by
  simp only [Decode, Option.map_eq_some'] at h
  obtain ⟨d, hd, rfl⟩ := h
  have hle := decodeLoop_length_le src [] d (by simp) hd
  simp only [List.length_nil, Nat.zero_add] at hle
  simp only [List.length_append, List.length_drop, List.length_replicate]
  omega

/-- C29, evaluated on the code: on `"YQ\n:YQ"` the decoder produces the one byte `"a"`
for the name half `"YQ\n"`, and `DeserializeHeaders` succeeds with a name of two bytes,
`"a"` followed by a zero byte. In general, on success there is one entry per non-empty
segment, in order, and each name and value is the whole buffer of `DecodedLen(len(half))`
bytes, whatever number of bytes the decoder produced. -/
theorem DeserializeHeaders_keeps_buffer :
    decodeLoop (bytes "YQ" ++ [10]) [] = some (bytes "a") ∧
      DeserializeHeaders (bytes "YQ" ++ [10] ++ bytes ":YQ") =
        ([HTTPHeader.mk (bytes "a" ++ [0]) (bytes "a")], none) ∧
      (∀ (s : List Byte) (out : List HTTPHeader), DeserializeHeaders s = (out, none) →
        ((Split 59 s).filter (fun seg => decide (seg ≠ []))).map segmentEntry =
          out.map some) ∧
      ∀ (seg : List Byte) (entry : HTTPHeader), segmentEntry seg = some entry →
        entry.Name.length = DecodedLen ((Split 58 seg).getD 0 []).length ∧
          entry.Value.length = DecodedLen ((Split 58 seg).getD 1 []).length := by
  refine ⟨by decide, by decide, ?_, ?_⟩
  · intro s out h
    obtain ⟨entries, hout, hmap⟩ := deserializeLoop_entries (Split 59 s) [] out h
    rw [hmap, hout]
    rfl
  · intro seg entry h
    simp only [segmentEntry] at h
    split at h
    · simp at h
    · split at h
      · simp at h
      · rename_i name hname
        split at h
        · simp at h
        · rename_i value hvalue
          simp only [Option.some.injEq] at h
          subst h
          exact ⟨Decode_length _ _ hname, Decode_length _ _ hvalue⟩

/-! ### URL validation -/

theorem LastIndexByte_split (s : List Byte) (c : Byte) (i : Nat)
    (h : LastIndexByte s c = some i) : s = s.take i ++ c :: s.drop (i + 1) := by
  induction s generalizing i with
  | nil => simp [LastIndexByte] at h
  | cons x xs ih =>
    simp only [LastIndexByte] at h
    cases hxs : LastIndexByte xs c with
    | some j =>
      rw [hxs] at h
      simp only [Option.some.injEq] at h
      subst h
      have := ih j hxs
      simp only [List.take_succ_cons, List.drop_succ_cons, List.cons_append]
      rw [← this]
    | none =>
      rw [hxs] at h
      by_cases hx : x = c
      · simp only [hx, if_true, Option.some.injEq] at h
        subst h
        simp [hx]
      · simp [hx] at h

theorem SplitHostPort_unbracketed (s host port : List Byte)
    (h : SplitHostPort s = some (host, port)) (hbr : s.head? ≠ some 91) :
    s = host ++ [58] ++ port ∧ (58 : Byte) ∉ host := by
  simp only [SplitHostPort] at h
  cases hi : LastIndexByte s 58 with
  | none => simp [hi] at h
  | some i =>
    simp only [hi, hbr, if_false] at h
    split at h
    · simp at h
    · rename_i hcolon
      split at h
      · simp at h
      · split at h
        · simp at h
        · simp only [Option.some.injEq, Prod.mk.injEq] at h
          obtain ⟨h1, h2⟩ := h
          subst h1 h2
          refine ⟨?_, hcolon⟩
          have := LastIndexByte_split s 58 i hi
          simpa using this

theorem JoinHostPort_no_colon (host port : List Byte) (h : (58 : Byte) ∉ host) :
    JoinHostPort host port = host ++ [58] ++ port := by
  simp [JoinHostPort, h]

theorem HasPrefix_bracket (s : List Byte) (hbr : s.head? ≠ some 91) :
    HasPrefix s (bytes "[") = false := by
  cases s with
  | nil => rfl
  | cons x xs =>
    have hx : x ≠ 91 := by simpa using hbr
    have hb : bytes "[" = [91] := by decide
    simp [HasPrefix, hb, hx]

theorem validateScheme_supported (scheme : List Byte) (h : scheme ∈ supportedProtocols) :
    validateScheme scheme = none := by
  have : supportedProtocols.any (fun protocol => decide (scheme = protocol)) = true :=
    List.any_eq_true.mpr ⟨scheme, h, by simp⟩
  simp [validateScheme, this]

theorem validateScheme_unsupported (scheme : List Byte) (h : scheme ∉ supportedProtocols) :
    validateScheme scheme = some (UrlError.unsupportedProtocol scheme) := by
  have : supportedProtocols.any (fun protocol => decide (scheme = protocol)) = false := by
    rw [Bool.eq_false_iff]
    intro hany
    obtain ⟨q, hq, hsq⟩ := List.any_eq_true.mp hany
    have : scheme = q := by simpa using hsq
    exact h (this ▸ hq)
  simp [validateScheme, this]

theorem validateUrlString_parsed (lib : UrlLibrary) (originUrl unescaped : List Byte)
    (parsed : URL) (hne : originUrl ≠ []) (hip : lib.ParseIP originUrl = false)
    (hbr : (HasPrefix originUrl (bytes "[") && HasSuffix originUrl (bytes "]")) = false)
    (hsplit : ((SplitHostPort originUrl).isSome &&
      lib.ParseIP ((SplitHostPort originUrl).getD ([], [])).1) = false)
    (hun : lib.PathUnescape originUrl = some unescaped)
    (hparse : lib.Parse unescaped = some parsed) :
    validateUrlString lib originUrl =
      if (parsed.IsAbs && decide (parsed.Host ≠ [])) = true then
        match validateScheme parsed.Scheme with
        | some err => Except.error err
        | none =>
          if lib.ParseIP parsed.Hostname then
            validateIP parsed.Scheme parsed.Hostname parsed.Port
          else
            match ValidateHostname lib parsed.Hostname with
            | Except.error _ => Except.error (UrlError.invalidFormat originUrl)
            | Except.ok hostname =>
              if parsed.Port ≠ [] then
                Except.ok (parsed.Scheme ++ bytes "://" ++ JoinHostPort hostname parsed.Port)
              else Except.ok (parsed.Scheme ++ bytes "://" ++ hostname)
      else
        if ((SplitHostPort originUrl).getD ([], [])).1 = [] then
          match ValidateHostname lib originUrl with
          | Except.error _ => Except.error (UrlError.invalidFormatNo originUrl)
          | Except.ok hostname => Except.ok (defaultScheme ++ bytes "://" ++ hostname)
        else
          match ValidateHostname lib ((SplitHostPort originUrl).getD ([], [])).1 with
          | Except.error _ => Except.error (UrlError.invalidFormat originUrl)
          | Except.ok hostname =>
            Except.ok (defaultScheme ++ bytes "://" ++
              JoinHostPort hostname ((SplitHostPort originUrl).getD ([], [])).2) := by
  unfold validateUrlString
  simp only [hne, if_false, hip, Bool.false_eq_true, hbr, hsplit, hun, hparse]

theorem validateIP_scheme (scheme host port : List Byte) (h : scheme ≠ []) :
    validateIP scheme host port =
      Except.ok (scheme ++ bytes "://" ++
        (if port ≠ [] then JoinHostPort host port
          else if Contains host (bytes ":") = true then bytes "[" ++ host ++ bytes "]"
          else host)) := by
  have hb : bytes "://[" = bytes "://" ++ bytes "[" := by decide
  simp only [validateIP, h, if_false]
  split
  · rfl
  · split
    · rw [hb]
      simp only [List.append_assoc]
    · rfl

theorem validateUrlString_parse_rejected (lib : UrlLibrary) (originUrl unescaped : List Byte)
    (hne : originUrl ≠ []) (hip : lib.ParseIP originUrl = false)
    (hbr : (HasPrefix originUrl (bytes "[") && HasSuffix originUrl (bytes "]")) = false)
    (hsplit : ((SplitHostPort originUrl).isSome &&
      lib.ParseIP ((SplitHostPort originUrl).getD ([], [])).1) = false)
    (hun : lib.PathUnescape originUrl = some unescaped)
    (hparse : lib.Parse unescaped = none) :
    validateUrlString lib originUrl = Except.error (UrlError.invalidFormat originUrl) := by
  unfold validateUrlString
  simp only [hne, if_false, hip, Bool.false_eq_true, hbr, hsplit, hun, hparse]

/-- The embedded code on inputs of the kinds `validation.go` tells apart: a URL with
scheme and host, a host with and without port, IP addresses with and without brackets and
port, and an internationalized host name. -/
theorem validateUrlString_examples :
    validateUrlString goUrlLibrary (bytes "http://localhost") =
        Except.ok (bytes "http://localhost") ∧
      validateUrlString goUrlLibrary (bytes "localhost") =
        Except.ok (bytes "http://localhost") ∧
      validateUrlString goUrlLibrary (bytes "example.com:8080/api/") =
        Except.ok (bytes "http://example.com:8080/api/") ∧
      validateUrlString goUrlLibrary (bytes "127.0.0.1:8080/path") =
        Except.ok (bytes "http://127.0.0.1:8080/path") ∧
      validateUrlString goUrlLibrary (bytes "[::1]:8080") =
        Except.ok (bytes "http://[::1]:8080") ∧
      validateUrlString goUrlLibrary (bytes "http://[::1]") =
        Except.ok (bytes "http://[::1]") ∧
      validateUrlString goUrlLibrary (bytes "https%3A%2F%2Fhello.example.com") =
        Except.ok (bytes "https://hello.example.com") ∧
      validateUrlString goUrlLibrary (bytes "https://b" ++ [195, 188] ++ bytes "cher.example.com") =
        Except.ok (bytes "https://xn--bcher-kva.example.com") := by
  refine ⟨by rfl, by rfl, by rfl, by rfl, by rfl, by rfl, by rfl, by rfl⟩

/-- C25, as stated, fails: `https://xn--0/` parses as an absolute URL with the supported
scheme `https` and the host `xn--0`, which is no IP address; `ValidateHostname` rejects
the host, because `idna.ToASCII` does (`0` is no Punycode text), and `ValidateUrl` returns
the invalid-format error. -/
theorem supported_scheme_rejected :
    goUrlLibrary.Parse (bytes "https://xn--0/") =
        some ⟨bytes "https", bytes "xn--0", bytes "xn--0", [], bytes "/"⟩ ∧
      bytes "https" ∈ supportedProtocols ∧
      goUrlLibrary.ParseIP (bytes "xn--0") = false ∧
      goUrlLibrary.ToASCII (bytes "xn--0") = none ∧
      ValidateUrl goUrlLibrary (bytes "https://xn--0/") =
        Except.error (UrlError.invalidFormat (bytes "https://xn--0/")) := by
  refine ⟨by rfl, by decide, by rfl, by rfl, by rfl⟩

/-- C25, amended: for an originUrl that parses, after unescaping, as an absolute URL with
a host (the address checks before the parse having let it through): with a scheme outside
`supportedProtocols`, `ValidateUrl` returns the unsupported-protocol error; with a scheme
of the list, `validateUrlString` gives `scheme://host`, with `:port` when the URL has a
port and without the path, and `ValidateUrl` returns what `url.Parse` makes of that
string: the host is the IP address itself (in brackets when it holds a colon) when the
host is an IP address, and else what `ValidateHostname` returns for the host name; when
`ValidateHostname` rejects the host name, `ValidateUrl` returns the invalid-format
error. -/
theorem scheme_and_host_drop_path (lib : UrlLibrary) (originUrl unescaped : List Byte)
    (parsed : URL) (hne : originUrl ≠ []) (hip : lib.ParseIP originUrl = false)
    (hbr : (HasPrefix originUrl (bytes "[") && HasSuffix originUrl (bytes "]")) = false)
    (hsplit : ((SplitHostPort originUrl).isSome &&
      lib.ParseIP ((SplitHostPort originUrl).getD ([], [])).1) = false)
    (hun : lib.PathUnescape originUrl = some unescaped)
    (hparse : lib.Parse unescaped = some parsed)
    (habs : parsed.Scheme ≠ []) (hhost : parsed.Host ≠ []) :
    (parsed.Scheme ∉ supportedProtocols →
        ValidateUrl lib originUrl =
          Except.error (UrlError.unsupportedProtocol parsed.Scheme)) ∧
      (parsed.Scheme ∈ supportedProtocols → lib.ParseIP parsed.Hostname = true →
        validateUrlString lib originUrl =
            Except.ok (parsed.Scheme ++ bytes "://" ++
              (if parsed.Port ≠ [] then JoinHostPort parsed.Hostname parsed.Port
                else if Contains parsed.Hostname (bytes ":") = true then
                  bytes "[" ++ parsed.Hostname ++ bytes "]"
                else parsed.Hostname)) ∧
          ValidateUrl lib originUrl =
            match lib.Parse (parsed.Scheme ++ bytes "://" ++
              (if parsed.Port ≠ [] then JoinHostPort parsed.Hostname parsed.Port
                else if Contains parsed.Hostname (bytes ":") = true then
                  bytes "[" ++ parsed.Hostname ++ bytes "]"
                else parsed.Hostname)) with
            | none => Except.error (UrlError.parse (parsed.Scheme ++ bytes "://" ++
                (if parsed.Port ≠ [] then JoinHostPort parsed.Hostname parsed.Port
                  else if Contains parsed.Hostname (bytes ":") = true then
                    bytes "[" ++ parsed.Hostname ++ bytes "]"
                  else parsed.Hostname)))
            | some u => Except.ok u) ∧
      (parsed.Scheme ∈ supportedProtocols → lib.ParseIP parsed.Hostname = false →
        ∀ hostname : List Byte, ValidateHostname lib parsed.Hostname = Except.ok hostname →
          validateUrlString lib originUrl =
              Except.ok (parsed.Scheme ++ bytes "://" ++
                (if parsed.Port ≠ [] then JoinHostPort hostname parsed.Port else hostname)) ∧
            ValidateUrl lib originUrl =
              match lib.Parse (parsed.Scheme ++ bytes "://" ++
                (if parsed.Port ≠ [] then JoinHostPort hostname parsed.Port else hostname)) with
              | none => Except.error (UrlError.parse (parsed.Scheme ++ bytes "://" ++
                  (if parsed.Port ≠ [] then JoinHostPort hostname parsed.Port else hostname)))
              | some u => Except.ok u) ∧
      (parsed.Scheme ∈ supportedProtocols → lib.ParseIP parsed.Hostname = false →
        ∀ e : UrlError, ValidateHostname lib parsed.Hostname = Except.error e →
          ValidateUrl lib originUrl = Except.error (UrlError.invalidFormat originUrl)) := by
  have hmain := validateUrlString_parsed lib originUrl unescaped parsed hne hip hbr hsplit hun
    hparse
  have hs : (parsed.IsAbs && decide (parsed.Host ≠ [])) = true := by
    simp [URL.IsAbs, habs, hhost]
  rw [if_pos hs] at hmain
  refine ⟨?_, ?_, ?_, ?_⟩
  · intro hsch
    rw [validateScheme_unsupported _ hsch] at hmain
    simp only [ValidateUrl, hmain]
  · intro hsch hipy
    rw [validateScheme_supported _ hsch] at hmain
    simp only [hipy, if_true, validateIP_scheme _ _ _ habs] at hmain
    exact ⟨hmain, by simp only [ValidateUrl, hmain]⟩
  · intro hsch hipn hostname hvh
    rw [validateScheme_supported _ hsch] at hmain
    simp only [hipn, Bool.false_eq_true, if_false, hvh] at hmain
    have hstr : validateUrlString lib originUrl =
        Except.ok (parsed.Scheme ++ bytes "://" ++
          (if parsed.Port ≠ [] then JoinHostPort hostname parsed.Port else hostname)) := by
      rw [hmain]
      split <;> rfl
    exact ⟨hstr, by simp only [ValidateUrl, hstr]⟩
  · intro hsch hipn e hvh
    rw [validateScheme_supported _ hsch] at hmain
    simp only [hipn, Bool.false_eq_true, if_false, hvh] at hmain
    simp only [ValidateUrl, hmain]

/-- The example of the source: `https://localhost:8080/api/` gives
`https://localhost:8080`; with an IP address as host, `https://127.0.0.1:8080/api/` gives
`https://127.0.0.1:8080`; and `ftp://localhost/` is refused for its scheme. -/
theorem scheme_and_host_drop_path_witness :
    validateUrlString goUrlLibrary (bytes "https://localhost:8080/api/") =
        Except.ok (bytes "https://localhost:8080") ∧
      ValidateUrl goUrlLibrary (bytes "https://localhost:8080/api/") =
        Except.ok ⟨bytes "https", bytes "localhost:8080", bytes "localhost", bytes "8080",
          bytes "/"⟩ ∧
      validateUrlString goUrlLibrary (bytes "https://127.0.0.1:8080/api/") =
        Except.ok (bytes "https://127.0.0.1:8080") ∧
      ValidateUrl goUrlLibrary (bytes "ftp://localhost/") =
        Except.error (UrlError.unsupportedProtocol (bytes "ftp")) :=
  have h := (scheme_and_host_drop_path goUrlLibrary (bytes "https://localhost:8080/api/")
    (bytes "https://localhost:8080/api/")
    ⟨bytes "https", bytes "localhost:8080", bytes "localhost", bytes "8080", bytes "/api/"⟩
    (by decide) (by rfl) (by decide) (by rfl) (by rfl) (by rfl) (by decide)
    (by decide)).2.2.1 (by decide) (by rfl) (bytes "localhost") (by rfl)
  ⟨h.1, h.2,
    ((scheme_and_host_drop_path goUrlLibrary (bytes "https://127.0.0.1:8080/api/")
      (bytes "https://127.0.0.1:8080/api/")
      ⟨bytes "https", bytes "127.0.0.1:8080", bytes "127.0.0.1", bytes "8080", bytes "/api/"⟩
      (by decide) (by rfl) (by decide) (by rfl) (by rfl) (by rfl) (by decide)
      (by decide)).2.1 (by decide) (by rfl)).1,
    (scheme_and_host_drop_path goUrlLibrary (bytes "ftp://localhost/")
      (bytes "ftp://localhost/")
      ⟨bytes "ftp", bytes "localhost", bytes "localhost", [], bytes "/"⟩
      (by decide) (by rfl) (by decide) (by rfl) (by rfl) (by rfl) (by decide)
      (by decide)).1 (by decide)⟩

theorem validateIP_default (host port : List Byte) :
    ∃ rest, validateIP [] host port = Except.ok (bytes "http://" ++ rest) := by
  have hd : defaultScheme ++ bytes "://" = bytes "http://" := by decide
  have hd2 : defaultScheme ++ bytes "://[" = bytes "http://" ++ [91] := by decide
  simp only [validateIP, if_true]
  split
  · exact ⟨JoinHostPort host port, by rw [hd]⟩
  · split
    · exact ⟨[91] ++ host ++ bytes "]", by rw [hd2]; simp⟩
    · exact ⟨host, by rw [hd]⟩

theorem validateUrlString_default_scheme (lib : UrlLibrary) (originUrl r : List Byte)
    (h : validateUrlString lib originUrl = Except.ok r) :
    (∃ rest, r = bytes "http://" ++ rest) ∨
      ∃ unescaped parsed, lib.PathUnescape originUrl = some unescaped ∧
        lib.Parse unescaped = some parsed ∧ parsed.Scheme ≠ [] ∧ parsed.Host ≠ [] := by
  have hd : defaultScheme ++ bytes "://" = bytes "http://" := by decide
  have hip : ∀ host port, validateIP [] host port = Except.ok r →
      ∃ rest, r = bytes "http://" ++ rest := by
    intro host port hv
    obtain ⟨rest, hrest⟩ := validateIP_default host port
    rw [hrest] at hv
    exact ⟨rest, (Except.ok.inj hv).symm⟩
  unfold validateUrlString at h
  split at h
  · exact absurd h (by simp)
  · split at h
    · exact Or.inl (hip _ _ h)
    · split at h
      · exact Or.inl (hip _ _ h)
      · simp only at h
        split at h
        · exact Or.inl (hip _ _ h)
        · split at h
          · exact absurd h (by simp)
          · rename_i unescaped hun
            split at h
            · exact absurd h (by simp)
            · rename_i parsed hparse
              split at h
              · rename_i hs
                right
                refine ⟨unescaped, parsed, hun, hparse, ?_⟩
                simpa [URL.IsAbs] using hs
              · left
                split at h
                · split at h
                  · exact absurd h (by simp)
                  · rename_i hostname _
                    exact ⟨hostname, by rw [← hd]; exact (Except.ok.inj h).symm⟩
                · split at h
                  · exact absurd h (by simp)
                  · rename_i hostname _
                    exact ⟨JoinHostPort hostname _, by
                      rw [← hd]; exact (Except.ok.inj h).symm⟩

/-- For an input `host:port/path` that does not begin with a bracket, that
`net.SplitHostPort` splits into a host that is no IP address and the rest, that
`url.Parse` accepts after unescaping without finding both a scheme and a host, and whose
host `ValidateHostname` returns unchanged, `validateUrlString` gives `http://` followed by
the input unchanged, and `ValidateUrl` returns what `url.Parse` makes of it. -/
theorem host_port_keeps_path (lib : UrlLibrary) (originUrl host port unescaped : List Byte)
    (parsed : URL) (hsplit : SplitHostPort originUrl = some (host, port))
    (hbr : originUrl.head? ≠ some 91) (hhost : host ≠ [])
    (hip1 : lib.ParseIP originUrl = false) (hip2 : lib.ParseIP host = false)
    (hun : lib.PathUnescape originUrl = some unescaped)
    (hparse : lib.Parse unescaped = some parsed)
    (hns : (parsed.IsAbs && decide (parsed.Host ≠ [])) = false)
    (hvh : ValidateHostname lib host = Except.ok host) :
    validateUrlString lib originUrl = Except.ok (bytes "http://" ++ originUrl) ∧
      (ValidateUrl lib originUrl =
        match lib.Parse (bytes "http://" ++ originUrl) with
        | none => Except.error (UrlError.parse (bytes "http://" ++ originUrl))
        | some u => Except.ok u) := by
  have hd : defaultScheme ++ bytes "://" = bytes "http://" := by decide
  have hne : originUrl ≠ [] := by
    intro h0
    rw [h0] at hsplit
    simp [SplitHostPort, LastIndexByte] at hsplit
  obtain ⟨hform, hcolon⟩ := SplitHostPort_unbracketed originUrl host port hsplit hbr
  have hmain := validateUrlString_parsed lib originUrl unescaped parsed hne hip1
    (by rw [HasPrefix_bracket originUrl hbr]; rfl)
    (by simp [hsplit, hip2]) hun hparse
  rw [if_neg (by rw [hns]; exact Bool.false_ne_true)] at hmain
  simp only [hsplit, Option.getD_some, hhost, if_false, hvh] at hmain
  have hstr : validateUrlString lib originUrl = Except.ok (bytes "http://" ++ originUrl) := by
    rw [hmain, JoinHostPort_no_colon host port hcolon]
    conv_rhs => rw [hform]
    rw [← hd]
  exact ⟨hstr, by simp only [ValidateUrl, hstr]⟩

/-- C26, evaluated on the code: `3com.com:8080/api/` has the form host:port/path and no
scheme; `url.Parse` rejects it, because its first path segment holds a colon and the text
before the colon, beginning with a digit, is no scheme; and `ValidateUrl` returns the
invalid-format error instead of `http://3com.com:8080/api/`. The example of the source,
`localhost:8080/api/`, gives `http://localhost:8080/api/`, and the empty string gives an
error. -/
theorem scheme_less_rejected :
    SplitHostPort (bytes "3com.com:8080/api/") = some (bytes "3com.com", bytes "8080/api/") ∧
      goUrlLibrary.Parse (bytes "3com.com:8080/api/") = none ∧
      ValidateUrl goUrlLibrary (bytes "3com.com:8080/api/") =
        Except.error (UrlError.invalidFormat (bytes "3com.com:8080/api/")) ∧
      validateUrlString goUrlLibrary (bytes "localhost:8080/api/") =
        Except.ok (bytes "http://localhost:8080/api/") ∧
      ValidateUrl goUrlLibrary (bytes "localhost:8080/api/") =
        Except.ok ⟨bytes "http", bytes "localhost:8080", bytes "localhost", bytes "8080",
          bytes "/api/"⟩ ∧
      ValidateUrl goUrlLibrary [] = Except.error UrlError.empty := by
  refine ⟨by decide, by rfl, by rfl, by rfl, by rfl, by rfl⟩

end TunnelLink
